import Mathlib

/-!
# JokeAPI: the joke filter (`src/classes/FilteredJoke.js`)

A shallow embedding of the `FilteredJoke` class: the criteria object, the
search-string check, the filter pass `_applyFilters` and the selection in
`getJokes`, followed by theorems about them.

Conventions of the embedding.

* A JavaScript string is a Lean `String`, read as its list of characters
  (`String.data`); one character stands for one UTF-16 code unit, which is exact
  on the Basic Multilingual Plane.
* Joke IDs are integers; the bounds of an ID range are rationals, so that every
  finite JavaScript number can be stored in a range.
* A promise is represented by the way it settles (`Settled`).
* Arrays are lists of jokes; the section on array objects gives the methods once
  more over a heap, where an array variable holds a reference.
* What the JavaScript engine decides from Unicode tables (`toLowerCase`, the
  case folding of the `i` flag) and regular expressions outside the fragment
  modelled below are fields of a `Host`; `asciiHost` is the host used to
  evaluate the code on ASCII inputs.
-/

set_option maxRecDepth 4000

namespace JokeAPI

/-! ## settings.js -/

namespace settings

/-- The node `settings.jokes.possible.anyCategoryName`. -/
def anyCategoryName : String := "Any"

/-- The node `settings.jokes.possible.categories`. -/
def categories : List String :=
  ["Misc", "Programming", "Dark", "Pun", "Spooky", "Christmas"]

/-- The node `settings.jokes.possible.flags`. -/
def flags : List String :=
  ["nsfw", "religious", "political", "racist", "sexist", "explicit"]

/-- The node `settings.jokes.possible.types`. -/
def types : List String := ["single", "twopart"]

/-- The node `settings.jokes.lastIDsMaxLength`. -/
def lastIDsMaxLength : Nat := 15

/-- The node `settings.jokes.jokeRandomizationAttempts`. -/
def jokeRandomizationAttempts : Nat := 25

/-- The node `settings.jokes.maxAmount`. -/
def maxAmount : Nat := 10

/-- The node `settings.jokes.searchStringOperators.wildcard`. -/
def wildcard : Char := '*'

/-- The node `settings.jokes.searchStringOperators.orOperator`. -/
def orOperator : Char := '|'

/-- The node `settings.jokes.regexRepetitionLimit`. -/
def regexRepetitionLimit : Nat := 10

/-- The node `settings.languages.defaultLanguage`. -/
def defaultLanguage : String := "en"

end settings

/-! ## Strings of the engine -/

/-- The test `hay.includes(needle)` on lists of characters: `needle` occurs as a
contiguous block of `hay`. -/
def includesList (needle : List Char) : List Char → Bool
  | [] => needle.isPrefixOf []
  | c :: hay => needle.isPrefixOf (c :: hay) || includesList needle hay

/-- The method `String.prototype.includes`. -/
def includes (hay needle : String) : Bool :=
  includesList needle.data hay.data

/-- The call `text.replace(/\n/g, " ")`. -/
def replaceNewlines (text : String) : String :=
  String.mk (text.data.map fun c => if c = '\n' then ' ' else c)

/-- The characters of the class `[-[\]/{}()+?.\\^$]` of `escapeRegexPattern`. -/
def escapedChars : List Char :=
  ['-', '[', ']', '/', '\x7b', '\x7d', '(', ')', '+', '?', '.', '\\', '^', '$']

/-- The function `escapeRegexPattern`: `input.replace(/[-[\]/{}()+?.\\^$]/g, "\\$&")`
puts a backslash before every character of the class. -/
def escapeRegexPattern (input : String) : String :=
  String.mk (input.data.flatMap fun c => if c ∈ escapedChars then ['\\', c] else [c])

/-- The call `s.replace(new RegExp("[" + w + "]", "gm"), by)` for an operator
character `w`: every occurrence of `w` is replaced. -/
def replaceOperator (w : Char) (by_ : String) (s : String) : String :=
  String.mk (s.data.flatMap fun c => if c = w then by_.data else [c])

/-- The method `String.prototype.split` with a one-character separator. -/
def split (s : String) (sep : Char) : List String :=
  (s.data.splitOn sep).map String.mk

/-- The method `Array.prototype.join` on an array of strings. -/
def join (parts : List String) (sep : String) : String :=
  String.mk (List.intercalate sep.data (parts.map String.data))

/-- Strings built at run time that reach the caller as rejection values. A call of
the translation module `tr(lang, key, ...args)` (its file is not part of the
examined sources) is kept as the term `tr lang key args`. -/
inductive Msg where
  | text (s : String)
  | tr (lang key : String) (args : List String)
  deriving DecidableEq, Repr

deriving instance DecidableEq for Except

/-- Message of the `URIError` of `decodeURIComponent`. -/
def uriMalformed : Msg := .text "URI malformed"

/-- Message of the `TypeError` raised by `searchStr.includes(op)` when `searchStr`
is `null` (wording of V8). -/
def nullIncludes : Msg := .text "Cannot read properties of null (reading \x27includes\x27)"

/-- Value of a hexadecimal digit. -/
def hexVal (c : Char) : Option Nat :=
  if '0' ≤ c ∧ c ≤ '9' then some (c.toNat - '0'.toNat)
  else if 'a' ≤ c ∧ c ≤ 'f' then some (c.toNat - 'a'.toNat + 10)
  else if 'A' ≤ c ∧ c ≤ 'F' then some (c.toNat - 'A'.toNat + 10)
  else none

/-- One step of reading a URI component: a character passed through, or the octet
of an escape `%XX`. -/
inductive UriToken where
  | char (c : Char)
  | octet (b : Nat)
  deriving DecidableEq, Repr

/-- Reads the escapes `%XX` of a URI component; `none` when a `%` is not followed
by two hexadecimal digits. -/
def uriTokens : List Char → Option (List UriToken)
  | [] => some []
  | c :: rest =>
    if c = '%' then
      match rest with
      | a :: b :: rest2 =>
        match hexVal a, hexVal b, uriTokens rest2 with
        | some x, some y, some ts => some (.octet (16 * x + y) :: ts)
        | _, _, _ => none
      | _ => none
    else
      match uriTokens rest with
      | some ts => some (.char c :: ts)
      | none => none

/-- Whether `v`, read from `n` octets, is a code point that UTF-8 encodes in
exactly `n` octets. -/
def validCodePoint (n v : Nat) : Bool :=
  match n with
  | 2 => decide (0x80 ≤ v ∧ v ≤ 0x7FF)
  | 3 => decide (0x800 ≤ v ∧ v ≤ 0xFFFF) && !decide (0xD800 ≤ v ∧ v ≤ 0xDFFF)
  | 4 => decide (0x10000 ≤ v ∧ v ≤ 0x10FFFF)
  | _ => false

/-- Decodes the octets of a URI component as UTF-8. `pending` is the number of
continuation octets still expected, `n` the length of the sequence being read
and `acc` its value so far. -/
def uriDecodeTokens : (pending n acc : Nat) → List UriToken → Option (List Char)
  | 0, _, _, [] => some []
  | _ + 1, _, _, [] => none
  | 0, _, _, .char c :: ts => (uriDecodeTokens 0 0 0 ts).map (c :: ·)
  | _ + 1, _, _, .char _ :: _ => none
  | 0, _, _, .octet b :: ts =>
    if b < 0x80 then (uriDecodeTokens 0 0 0 ts).map (Char.ofNat b :: ·)
    else if 0xC0 ≤ b ∧ b < 0xE0 then uriDecodeTokens 1 2 (b % 0x20) ts
    else if 0xE0 ≤ b ∧ b < 0xF0 then uriDecodeTokens 2 3 (b % 0x10) ts
    else if 0xF0 ≤ b ∧ b < 0xF8 then uriDecodeTokens 3 4 (b % 0x08) ts
    else none
  | p + 1, n, acc, .octet b :: ts =>
    if 0x80 ≤ b ∧ b < 0xC0 then
      let v := acc * 0x40 + b % 0x40
      if p = 0 then
        if validCodePoint n v then (uriDecodeTokens 0 0 0 ts).map (Char.ofNat v :: ·)
        else none
      else uriDecodeTokens p n v ts
    else none

/-- The global function `decodeURIComponent`: the decoded string, or the message
of the `URIError` it throws. -/
def decodeURIComponent (s : String) : Except Msg String :=
  match (uriTokens s.data).bind (uriDecodeTokens 0 0 0) with
  | some cs => .ok (String.mk cs)
  | none => .error uriMalformed

/-! ## Regular expressions

The source builds `new RegExp(isolatedPattern, "gmi")`. The fragment of the
pattern language modelled here is the one the search-string compiler emits for
strings without percent escapes, together with an unescaped `.`: alternatives
separated by `|`, made of the assertions `^` and `$`, and of atoms (a literal
character, an escaped syntax character, `.`) each optionally followed by `*`. -/

/-- An atom of the fragment. -/
inductive Atom where
  | any
  | char (c : Char)
  deriving DecidableEq, Repr

/-- A term of an alternative. -/
inductive Term where
  | bol
  | eol
  | one (a : Atom)
  | star (a : Atom)
  deriving DecidableEq, Repr

/-- The syntax characters of a pattern. -/
def syntaxChars : List Char :=
  ['^', '$', '\\', '.', '*', '+', '?', '(', ')', '[', ']', '\x7b', '\x7d', '|']

/-- Characters that may follow a backslash as an identity escape in the fragment:
the syntax characters, `/` and `-`. -/
def identityEscapes : List Char := '/' :: '-' :: syntaxChars

/-- Puts a term in front of the first alternative. -/
def pushTerm (t : Term) : List (List Term) → List (List Term)
  | [] => [[t]]
  | a :: as => (t :: a) :: as

/-- Parses a pattern of the fragment into its alternatives; `none` for a pattern
outside the fragment. -/
def parsePattern : List Char → Option (List (List Term))
  | [] => some [[]]
  | c :: rest =>
    let tail := parsePattern rest
    if c = '|' then tail.map ([] :: ·)
    else if c = '^' then tail.map (pushTerm .bol)
    else if c = '$' then tail.map (pushTerm .eol)
    else if c = '.' then
      match rest with
      | '*' :: rest2 => (parsePattern rest2).map (pushTerm (.star .any))
      | _ => tail.map (pushTerm (.one .any))
    else if c = '\\' then
      match rest with
      | e :: '*' :: rest2 =>
        if e ∈ identityEscapes then (parsePattern rest2).map (pushTerm (.star (.char e)))
        else none
      | e :: rest1 =>
        if e ∈ identityEscapes then (parsePattern rest1).map (pushTerm (.one (.char e)))
        else none
      | [] => none
    else if c ∈ syntaxChars then none
    else
      match rest with
      | '*' :: rest2 => (parsePattern rest2).map (pushTerm (.star (.char c)))
      | _ => tail.map (pushTerm (.one (.char c)))

/-- Line terminators of the engine: `.` does not match them, and with the `m` flag
`^` and `$` match next to them. -/
def isLineTerminator (c : Char) : Bool :=
  c = '\n' || c = '\r' || c = '\u2028' || c = '\u2029'

/-- Whether an atom matches a character, `canon` being the case folding of the
`i` flag. -/
def Atom.test (canon : Char → Char) : Atom → Char → Bool
  | .any, c => !isLineTerminator c
  | .char x, c => canon x = canon c

/-- The assertion `^` with the `m` flag: at the start of the text or after a line
terminator. `prev` is the character before the current position. -/
def atLineStart : Option Char → Bool
  | none => true
  | some p => isLineTerminator p

/-- The assertion `$` with the `m` flag: at the end of the text or before a line
terminator. -/
def atLineEnd : List Char → Bool
  | [] => true
  | c :: _ => isLineTerminator c

/-- Backtracking over `a*`: try the continuation `k` here, or consume one more
character matched by the atom. -/
def starLoop (p : Char → Bool) (k : Option Char → List Char → Bool) :
    Option Char → List Char → Bool
  | prev, [] => k prev []
  | prev, c :: r => k prev (c :: r) || (p c && starLoop p k (some c) r)

/-- Whether the terms match at the current position (`prev` is the character
before it, `rest` the text from it on). -/
def matchFrom (canon : Char → Char) : List Term → Option Char → List Char → Bool
  | [], _, _ => true
  | .bol :: ts, prev, rest => atLineStart prev && matchFrom canon ts prev rest
  | .eol :: ts, prev, rest => atLineEnd rest && matchFrom canon ts prev rest
  | .one _ :: _, _, [] => false
  | .one a :: ts, _, c :: r => a.test canon c && matchFrom canon ts (some c) r
  | .star a :: ts, prev, rest => starLoop (a.test canon) (matchFrom canon ts) prev rest

/-- Whether some alternative matches at some position of the text. -/
def searchFrom (canon : Char → Char) (alts : List (List Term)) :
    Option Char → List Char → Bool
  | prev, [] => alts.any fun ts => matchFrom canon ts prev []
  | prev, c :: r =>
    (alts.any fun ts => matchFrom canon ts prev (c :: r)) || searchFrom canon alts (some c) r

/-- Number of repetition nodes of a pattern of the fragment. -/
def countRepetitions (alts : List (List Term)) : Nat :=
  (alts.map fun ts => ts.countP fun t => match t with | .star _ => true | _ => false).sum

/-- A compiled regular expression, as far as the filter uses it: the verdict of
`safeRegex(re, { limit })` and whether `text.match(re)` finds a match. -/
structure RegExp where
  safe : Nat → Bool
  isMatch : String → Bool

/-- What the engine contributes beyond the code of the repository. -/
structure Host where
  /-- The method `String.prototype.toLowerCase`. -/
  toLowerCase : String → String
  /-- Lower-casing twice is lower-casing once. -/
  toLowerCase_idem : ∀ s, toLowerCase (toLowerCase s) = toLowerCase s
  /-- Case folding of single characters under the `i` flag. -/
  canonicalize : Char → Char
  /-- The constructor `new RegExp(source, "gmi")` on a source outside the fragment:
  the message of the `SyntaxError` it throws, or the compiled expression. -/
  regExpOther : String → Except Msg RegExp

/-- The package `safe-regex` on a pattern of the fragment: no repetition is nested
there (star height at most 1), so the pattern is safe iff it has no more
repetitions than the limit. -/
def safeRegexFragment (alts : List (List Term)) (limit : Nat) : Bool :=
  decide (countRepetitions alts ≤ limit)

/-- The constructor `new RegExp(source, "gmi")`. -/
def newRegExp (h : Host) (source : String) : Except Msg RegExp :=
  match parsePattern source.data with
  | some alts =>
    .ok { safe := safeRegexFragment alts
          isMatch := fun text => searchFrom h.canonicalize alts none text.data }
  | none => h.regExpOther source

/-- The host used to evaluate the code on ASCII text: lower-casing and case
folding of the letters `A` to `Z` only, and every pattern outside the fragment
refused. On ASCII strings and on patterns of the fragment it agrees with the
engine. -/
def asciiHost : Host where
  toLowerCase s := String.mk (s.data.map Char.toLower)
  toLowerCase_idem s := by
    have small : ∀ m : Nat, m < 55296 → (Char.ofNat m).toNat = m := by
      intro m h
      have hv : m.isValidChar := Or.inl h
      simp [Char.ofNat, hv, Char.toNat, Char.ofNatAux, UInt32.toNat]
    have key : ∀ c : Char, c.toLower.toLower = c.toLower := by
      intro c
      by_cases hc : c.toNat ≥ 65 ∧ c.toNat ≤ 90
      · have h1 : c.toLower = Char.ofNat (c.toNat + 32) := by
          simp [Char.toLower, hc]
        have h2 : (Char.ofNat (c.toNat + 32)).toNat = c.toNat + 32 :=
          small _ (by omega)
        rw [h1]
        have h3 : ¬ ((Char.ofNat (c.toNat + 32)).toNat ≥ 65 ∧
            (Char.ofNat (c.toNat + 32)).toNat ≤ 90) := by
          rw [h2]; omega
        simp only [Char.toLower, h3, if_false]
      · simp only [Char.toLower, hc, if_false]
    simp only [List.map_map]
    congr 1
    apply List.map_congr_left
    intro c _
    exact key c
  canonicalize := Char.toUpper
  regExpOther source := .error (.text ("Invalid regular expression: " ++ source))

/-! ## Jokes and the criteria object -/

/-- A joke record of the corpus (`parseJokes.Joke`). A record of type `single`
carries its text in `joke`, one of type `twopart` in `setup` and `delivery`;
`flags` lists the keys of `joke.flags` with their values. -/
structure Joke where
  id : Int
  lang : String
  category : String
  type : String
  joke : String
  setup : String
  delivery : String
  flags : List (String × Bool)
  safe : Bool
  deriving DecidableEq, Repr

/-- A two-element array object `[start, end]`. `ref` is the identity of the
object: `==` between two arrays compares identities, not contents. -/
structure IdRange where
  ref : Nat
  start : ℚ
  stop : ℚ
  deriving DecidableEq, Repr

/-- The comparison `a == b` of two array objects. -/
def IdRange.looseEq (a b : IdRange) : Bool := a.ref = b.ref

/-- The fields of a `FilteredJoke` object. `allocated` counts the array objects
created for it so far and provides the identity of the next one. The scratch
field `_filteredJokes` is the array `_applyFilters` resolves with and is not
kept here. `_idRangePerLang` lists the own properties of the table, a plain
object. -/
structure FilteredJoke where
  _allowedCategories : List String
  _allowedTypes : List String
  _searchString : Option String
  _idRange : IdRange
  _initialIdRange : IdRange
  _idRangePerLang : List (String × IdRange)
  _flags : List String
  _errors : List String
  _lang : String
  _amount : Nat
  _safeMode : Bool
  allocated : Nat
  deriving DecidableEq, Repr

/-- The arrays `idRangePerLang[lc] = [0, jokeCountPerLang[lc] - 1]` of the
constructor, the first of them with identity `ref`. -/
def idRangePerLang : (ref : Nat) → List (String × Nat) → List (String × IdRange)
  | _, [] => []
  | ref, (lc, count) :: rest =>
    (lc, { ref := ref, start := 0, stop := (((count : Int) - 1 : Int) : ℚ) }) ::
      idRangePerLang (ref + 1) rest

/-- The constructor of `FilteredJoke`. `jokeCountPerLang` is the table
`parseJokes.jokeCountPerLang`; the result is `none` when the table has no entry
for the default language (the bounds would be `NaN`). The keys of the table are
language codes; each becomes an own property of the table `_idRangePerLang`. -/
def FilteredJoke.new (h : Host) (jokeCountPerLang : List (String × Nat)) :
    Option FilteredJoke :=
  match jokeCountPerLang.lookup settings.defaultLanguage with
  | none => none
  | some count =>
    let k := jokeCountPerLang.length
    some
      { _allowedCategories :=
          h.toLowerCase settings.anyCategoryName ::
            settings.categories.map h.toLowerCase
        _allowedTypes := settings.types
        _searchString := none
        _idRange := { ref := k, start := 0, stop := (((count : Int) - 1 : Int) : ℚ) }
        _initialIdRange :=
          { ref := k + 1, start := 0, stop := (((count : Int) - 1 : Int) : ℚ) }
        _idRangePerLang := idRangePerLang 0 jokeCountPerLang
        _flags := []
        _errors := []
        _lang := settings.defaultLanguage
        _amount := 1
        _safeMode := false
        allocated := k + 2 }

/-- The method `getAllowedCategories`. -/
def FilteredJoke.getAllowedCategories (h : Host) (self : FilteredJoke) : List String :=
  self._allowedCategories.map h.toLowerCase

/-- The method `getAllowedTypes`. -/
def FilteredJoke.getAllowedTypes (self : FilteredJoke) : List String :=
  self._allowedTypes

/-- The method `setSearchString(searchString)`: the returned boolean and the object
afterwards. The argument is `none` when it is not a string. Nothing in the `try`
block can throw, so the `catch` branch is never taken. -/
def FilteredJoke.setSearchString (self : FilteredJoke) (searchString : Option String) :
    Bool × FilteredJoke :=
  match searchString with
  | none =>
    (false, { self with _errors := self._errors ++ ["The \"contains\" parameter is invalid"] })
  | some s => (true, { self with _searchString := some s })

/-- The method `getSearchString(skipDecoding)`: the stored value (`none` is
`null`) when decoding is skipped, and otherwise `decodeURIComponent` of the
stored value, `null` being converted to the string `"null"` first. -/
def FilteredJoke.getSearchString (self : FilteredJoke) (skipDecoding : Bool) :
    Except Msg (Option String) :=
  if !skipDecoding then
    (decodeURIComponent (self._searchString.getD "null")).map some
  else .ok self._searchString

/-- The method `getIdRange`. -/
def FilteredJoke.getIdRange (self : FilteredJoke) : IdRange :=
  self._idRange

/-- The method `getBlacklistFlags`. -/
def FilteredJoke.getBlacklistFlags (self : FilteredJoke) : List String :=
  self._flags

/-- The method `getLanguage`: `this._lang || settings.languages.defaultLanguage`. -/
def FilteredJoke.getLanguage (self : FilteredJoke) : String :=
  if self._lang = "" then settings.defaultLanguage else self._lang

/-- The method `getSafeMode`. -/
def FilteredJoke.getSafeMode (self : FilteredJoke) : Bool :=
  self._safeMode

/-- The method `getAmount`: `this._amount || 1`. -/
def FilteredJoke.getAmount (self : FilteredJoke) : Nat :=
  if self._amount = 0 then 1 else self._amount

/-! ## languages.js -/

/-- The module variable `langs`: the parsed language file as a table from
language codes (distinct keys) to values. A value that is a string is `some` of
it, a value of another type is `none`. -/
abbrev Langs := List (String × Option String)

/-- The test of `isValidLang` on a string: two characters, and the lower-cased code
is a key of the table whose value is a string. -/
def isValidLangCode (h : Host) (langs : Langs) (langCode : String) : Bool :=
  if langCode.length ≠ 2 then false
  else
    match langs.lookup (h.toLowerCase langCode) with
    | some (some _) => true
    | _ => false

/-- The function `isValidLang(langCode, trLang)` on a string `langCode`. The
parameter `trLang` (`none` when it is not a string) is only normalised, by a
nested call, into a local variable that nothing reads. -/
def isValidLang (h : Host) (langs : Langs) (langCode : String)
    (trLang : Option String) : Bool :=
  let _trLang : String :=
    match trLang with
    | some t => if isValidLangCode h langs t then t else settings.defaultLanguage
    | none => settings.defaultLanguage
  isValidLangCode h langs langCode

/-! ## The search string -/

/-- The values the accumulator of `reduce` takes in `checkMatchesSearchString`. -/
inductive JSVal where
  | str (s : String)
  | bool (b : Bool)
  deriving DecidableEq, Repr

/-- Conversion to a string, as `includes` does with its argument. -/
def JSVal.toStr : JSVal → String
  | .str s => s
  | .bool true => "true"
  | .bool false => "false"

/-- Truthiness of a value. -/
def JSVal.truthy : JSVal → Bool
  | .str s => s ≠ ""
  | .bool b => b

/-- The method `Array.prototype.reduce(callback)` called without an initial value:
the first element is the initial accumulator and the callback runs from the
second element on; it is given the accumulator and the current element. On an
empty array the engine throws a `TypeError`. -/
def reduce (callback : JSVal → JSVal → Except Msg JSVal) :
    List JSVal → Except Msg JSVal
  | [] => .error (.text "Reduce of empty array with no initial value")
  | first :: rest => rest.foldlM callback first

/-- The call `Object.values(settings.jokes.searchStringOperators)`. -/
def searchStringOperatorValues : List JSVal :=
  [.str (String.singleton settings.wildcard), .str (String.singleton settings.orOperator)]

/-- The callback `op => searchStr.includes(op)`: it names one parameter, which
`reduce` binds to the accumulator. Reading `includes` of `null` throws. -/
def containsOperatorCallback (searchStr : Option String) (op _current : JSVal) :
    Except Msg JSVal :=
  match searchStr with
  | none => .error nullIncludes
  | some s => .ok (.bool (includes s op.toStr))

/-- The function `scl.isEmpty` on the search string: `null` and `""` are empty. -/
def isEmptySearch : Option String → Bool
  | none => true
  | some s => s = ""

/-- The constant `searchRegex` of `checkMatchesSearchString`, built when the search
string holds an operator: the pattern (escaped, wildcards replaced by `.*`, then
percent-decoded), the isolated pattern (split on the OR operator, joined with
`$|^`, wrapped in `^` and `$`) and the expression compiled from it. The result is
that expression, or the message of the error thrown by decoding or compiling. -/
def searchRegex (h : Host) (searchStr : String) : Except Msg RegExp := do
  let pattern ← decodeURIComponent
    (replaceOperator settings.wildcard ".*" (escapeRegexPattern searchStr))
  let isolatedPattern := "^" ++ join (split pattern settings.orOperator) "$|^" ++ "$"
  newRegExp h isolatedPattern

/-- The method `checkMatchesSearchString(joke, lang)`: the boolean it returns, or
the message of the error it throws. -/
def FilteredJoke.checkMatchesSearchString (h : Host) (self : FilteredJoke) (joke : Joke)
    (lang : String) : Except Msg Bool := do
  let searchStr ← self.getSearchString true
  let containsOperator ← reduce (containsOperatorCallback searchStr) searchStringOperatorValues
  if !isEmptySearch searchStr then
    let searchStr := searchStr.getD ""
    if !containsOperator.truthy then
      if joke.type = "single" && includes (h.toLowerCase joke.joke) searchStr then
        pure true
      else if joke.type = "twopart" &&
          includes (h.toLowerCase (joke.setup ++ " " ++ joke.delivery)) searchStr then
        pure true
      else pure false
    else
      let searchRegex ← searchRegex h searchStr
      let regexSafe := searchRegex.safe settings.regexRepetitionLimit
      if regexSafe then
        if joke.type = "single" && searchRegex.isMatch (replaceNewlines joke.joke) then
          pure true
        else if joke.type = "twopart" &&
            searchRegex.isMatch (replaceNewlines (joke.setup ++ " " ++ joke.delivery)) then
          pure true
        else pure false
      else
        throw (.tr lang "patternTooComplex"
          [searchStr, toString settings.regexRepetitionLimit])
  else pure true

/-! ## The setters -/

/-- The method `setAllowedCategories(categories)` on an array of strings (a single
string is wrapped by `new Array(categories)`): the returned boolean and the object
afterwards. `catsValid` receives one `true` per entry that is a known category. -/
def FilteredJoke.setAllowedCategories (h : Host) (self : FilteredJoke)
    (categories : List String) : Bool × FilteredJoke :=
  let allCategories :=
    h.toLowerCase settings.anyCategoryName :: settings.categories.map h.toLowerCase
  let catsValid : List Bool :=
    categories.filterMap fun cat =>
      if h.toLowerCase cat ∈ allCategories then some true else none
  if catsValid.length ≠ categories.length then
    (false, { self with _errors := self._errors ++ ["The joke category is invalid"] })
  else
    let categories :=
      if h.toLowerCase settings.anyCategoryName ∈ categories.map h.toLowerCase then
        settings.categories
      else categories
    (true, { self with _allowedCategories := categories })

/-- The method `setAllowedType(type)` on a string. -/
def FilteredJoke.setAllowedType (self : FilteredJoke) (type : String) :
    Bool × FilteredJoke :=
  if type ∈ settings.types then (true, { self with _allowedTypes := [type] })
  else
    (false, { self with _errors := self._errors ++ ["The \"type\" parameter is invalid"] })

/-- An argument of `setIdRange` that is not empty: a finite number, or any other
value (`NaN`, an infinity, a value that is not a number). For every finite number
`parseInt` gives a number, for the other values the test of `setIdRange` fails. -/
inductive NumberArg where
  | num (q : ℚ)
  | other
  deriving DecidableEq, Repr

/-- Message of the `TypeError` raised by `this._idRangePerLang[lang][1]` when the
table has no property `lang`, neither an own one nor an inherited one. -/
def undefinedIndex : Msg := .text "Cannot read properties of undefined (reading \x271\x27)"

/-- The names of the properties every plain object inherits from
`Object.prototype`. The table `_idRangePerLang` is created as `{}`, so
`this._idRangePerLang[lang]` finds a value under each of these names as well: a
function, or for `__proto__` the prototype object. -/
def objectPrototypeKeys : List String :=
  ["constructor", "__defineGetter__", "__defineSetter__", "hasOwnProperty",
    "__lookupGetter__", "__lookupSetter__", "isPrototypeOf", "propertyIsEnumerable",
    "toString", "valueOf", "__proto__", "toLocaleString"]

/-- The method `setIdRange(start, end, lang)`: the returned boolean and the object
afterwards, or the message of the error thrown. `stop` is the argument `end` and
is `none` when that is empty (omitted, `null`, `""`), `lang` likewise. A successful
call stores a new array object. In `end > this._idRangePerLang[lang][1]` an own
entry of the table gives the end of its range; an inherited property is a function
or object without an element `1`, and the comparison with `undefined` is false;
under any other name the table gives `undefined`, and reading `[1]` of it throws. -/
def FilteredJoke.setIdRange (self : FilteredJoke) (start : NumberArg)
    (stop : Option NumberArg) (lang : Option String) : Except Msg (Bool × FilteredJoke) :=
  let stop := stop.getD start
  let lang :=
    match lang with
    | none => if self.getLanguage = "" then settings.defaultLanguage else self.getLanguage
    | some l =>
      if l = "" then
        if self.getLanguage = "" then settings.defaultLanguage else self.getLanguage
      else l
  match start, stop with
  | .num s, .num e =>
    if s < 0 then
      .ok (false, { self with
        _errors := self._errors ++ ["The \"idRange\" parameter values are out of range"] })
    else
      match self._idRangePerLang.lookup lang with
      | some range =>
        if e > range.stop then
          .ok (false, { self with
            _errors := self._errors ++
              ["The \"idRange\" parameter values are out of range"] })
        else
          .ok (true, { self with
            _idRange := { ref := self.allocated, start := s, stop := e }
            allocated := self.allocated + 1 })
      | none =>
        if lang ∈ objectPrototypeKeys then
          .ok (true, { self with
            _idRange := { ref := self.allocated, start := s, stop := e }
            allocated := self.allocated + 1 })
        else .error undefinedIndex
  | _, _ =>
    .ok (false, { self with
      _errors := self._errors ++ ["The \"idRange\" parameter values are not numbers"] })

/-- The method `setBlacklistFlags(flags)` on an array of strings. -/
def FilteredJoke.setBlacklistFlags (self : FilteredJoke) (flags : List String) :
    Bool × FilteredJoke :=
  let flagsInvalid := flags.any fun flag => decide (flag ∉ settings.flags)
  if flagsInvalid then
    (false, { self with
      _errors := self._errors ++
        ["The \"blacklistFlags\" parameter is invalid or contains one or more invalid flags"] })
  else (true, { self with _flags := flags })

/-- The method `setLanguage(code)` on a string. -/
def FilteredJoke.setLanguage (h : Host) (langs : Langs) (self : FilteredJoke)
    (code : String) : Bool × FilteredJoke :=
  if isValidLang h langs code none = true then (true, { self with _lang := code })
  else (false, self)

/-- The method `setSafeMode(safeModeEnabled)`: the returned value, which is the new
safe mode, and the object afterwards. The argument is `none` when it is not a
boolean. -/
def FilteredJoke.setSafeMode (self : FilteredJoke) (safeModeEnabled : Option Bool) :
    Bool × FilteredJoke :=
  match safeModeEnabled with
  | some b => (b, { self with _safeMode := b })
  | none => (false, { self with _safeMode := false })

/-- The string `setAmount` returns for an invalid amount. -/
def setAmountError : String :=
  "\"num\" parameter in FilteredJoke.setAmount() couldn\x27t be resolved to an integer " ++
    "or it is less than 0 or greater than " ++ toString settings.maxAmount

/-- The method `setAmount(num)`: the returned value (`true` or a string) and the
object afterwards. `num` is `parseInt(num)`, `none` when that is `NaN`. -/
def FilteredJoke.setAmount (self : FilteredJoke) (num : Option Int) : JSVal × FilteredJoke :=
  match num with
  | none => (.str setAmountError, self)
  | some n =>
    if n < 1 ∨ n > (settings.maxAmount : Int) then (.str setAmountError, self)
    else (.bool true, { self with _amount := n.toNat })

/-! ## Applying the filters -/

/-- A value a promise of the class is rejected with: the array `this._errors`, a
string, `undefined` (the call `reject()`), or an `Error` object with its
message. -/
inductive Rejection where
  | errors (list : List String)
  | message (m : Msg)
  | undefined
  | error (m : Msg)
  deriving DecidableEq, Repr

/-- The way a promise settles. -/
inductive Settled (α : Type) where
  | resolved (value : α)
  | rejected (reason : Rejection)
  deriving DecidableEq, Repr

/-- The collaborators of a `FilteredJoke` whose files are not part of the examined
sources, taken as parameters, with the host and the language table:
`getJokeArray lang` is `this._allJokes.getJokeArray(lang)`, and
`listEntries ip lang` is how the promise `jokeCache.cache.listEntries(ip, lang)`
settles (the list of cached joke IDs, or the text of the rejection value), and
`addEntry ip id lang` is how the promise `jokeCache.cache.addEntry(ip, id, lang)`
settles. -/
structure Env where
  host : Host
  langs : Langs
  getJokeArray : String → List Joke
  listEntries : String → String → Except String (List Int)
  addEntry : String → Int → String → Except String Unit

/-- The callback of `jokesArray.forEach` in `_applyFilters`, for one joke: `true`
when the joke reaches `this._filteredJokes.push(joke)`, `false` when the callback
returns before, and the message of the error thrown by the search check. -/
def FilteredJoke.checkJoke (env : Env) (self : FilteredJoke) (lang : String)
    (joke : Joke) : Except Msg Bool :=
  -- safe mode
  if self.getSafeMode = true ∧ joke.safe ≠ true then .ok false
  else if self.getSafeMode = true ∧ joke.category = "Dark" then .ok false
  else
    -- id range
    let idRange := self.getIdRange
    if (joke.id : ℚ) < idRange.start ∨ (joke.id : ℚ) > idRange.stop then .ok false
    else
      -- categories
      let cats := (self.getAllowedCategories env.host).map env.host.toLowerCase
      if env.host.toLowerCase settings.anyCategoryName ∉ cats ∧
          env.host.toLowerCase joke.category ∉ cats then .ok false
      else
        -- flags
        let blFlags := self.getBlacklistFlags
        let flagMatches :=
          !blFlags.isEmpty && joke.flags.any fun kv => decide (kv.1 ∈ blFlags) && kv.2
        if flagMatches then .ok false
        -- type
        else if joke.type ∉ self.getAllowedTypes then .ok false
        else
          -- search string
          match self.checkMatchesSearchString env.host joke lang with
          | .error err => .error err
          | .ok false => .ok false
          | .ok true =>
            -- language
            let langCode := self.getLanguage
            if isValidLang env.host env.langs langCode none ≠ true then .ok false
            else if env.host.toLowerCase joke.lang ≠ env.host.toLowerCase langCode then
              .ok false
            else .ok true

/-- The variables the `forEach` loop of `_applyFilters` works on: the flag
`isErrored`, the value `reject` was called with in the loop, and the array
`this._filteredJokes`. -/
structure FilterLoop where
  isErrored : Bool
  rejection : Option Msg
  filteredJokes : List Joke
  deriving DecidableEq, Repr

/-- One iteration of the `forEach` loop of `_applyFilters`. -/
def FilteredJoke.forEachStep (env : Env) (self : FilteredJoke) (lang : String)
    (st : FilterLoop) (joke : Joke) : FilterLoop :=
  if st.isErrored then st
  else
    match self.checkJoke env lang joke with
    | .ok true => { st with filteredJokes := st.filteredJokes ++ [joke] }
    | .ok false => st
    | .error err =>
      { st with isErrored := true, rejection := some (st.rejection.getD err) }

/-- The section `joke cache` of `_applyFilters`: when `this._idRange ==
this._initialIdRange`, the jokes whose ID is on the client's cache list are
filtered out. -/
def FilteredJoke.withoutCached (self : FilteredJoke) (cacheIdList : List Int)
    (jokesArray : List Joke) : List Joke :=
  if self._idRange.looseEq self._initialIdRange then
    jokesArray.filter fun joke => decide (joke.id ∉ cacheIdList)
  else jokesArray

/-- The language `_applyFilters` works with: `if(!lang) lang = defaultLanguage`. -/
def effectiveLang (lang : Option String) : String :=
  match lang with
  | none => settings.defaultLanguage
  | some l => if l = "" then settings.defaultLanguage else l

/-- The method `_applyFilters(ip, lang)`; `lang` is `none` when the argument is
omitted. A promise settles once: after a `reject` in the loop, the final
`resolve` has no effect. -/
def FilteredJoke._applyFilters (env : Env) (self : FilteredJoke) (ip : String)
    (lang : Option String) : Settled (List Joke) :=
  let lang := effectiveLang lang
  let jokesArray := env.getJokeArray lang
  match env.listEntries ip lang with
  | .error err =>
    .rejected (.message (.text ("Couldn\x27t list joke cache entries: " ++ err)))
  | .ok cacheIdList =>
    let jokesArray := self.withoutCached cacheIdList jokesArray
    let final := jokesArray.foldl (self.forEachStep env lang)
      { isErrored := false, rejection := none, filteredJokes := [] }
    match final.rejection with
    | some err => .rejected (.message err)
    | none => .resolved final.filteredJokes

/-! ## Selecting jokes -/

/-- The module variables `_lastIDs` and `_selectionAttempts`. -/
structure Globals where
  _lastIDs : List Int
  _selectionAttempts : Nat
  deriving DecidableEq, Repr

/-- What a call of `selectRandomJoke` yields: a joke, `undefined` (after
`reject()`), or an error thrown on the way. -/
inductive Pick where
  | joke (j : Joke)
  | undefined
  | thrown (m : Msg)
  deriving DecidableEq, Repr

/-- The variables `selectRandomJoke` works on: the array `filteredJokes` (shortened
by `splice`), the module variables, the array `multiSelectLastIDs`, the number of
random numbers drawn so far, and whether `reject()` has been called. -/
structure Selection where
  jokes : List Joke
  globals : Globals
  multiSelectLastIDs : List Int
  draws : Nat
  rejected : Bool
  deriving DecidableEq, Repr

/-- Error of a draw from an empty array: `scl.randRange(0, -1)` refuses a minimum
above the maximum, and no joke could be read at the index anyway. -/
def emptyPool : Msg := .text "selectRandomJoke: no joke left to select from"

/-- The closure `selectRandomJoke(jokes)`. `rand k` is the `k`-th random number;
the index drawn from an array of `n` jokes is `rand k % n`, any index from `0` to
`n - 1`. `fuel` is the length of the array: every recursive call follows a
`splice` that removes one joke. -/
def selectRandomJokeAux (rand : Nat → Nat) : (fuel : Nat) → Selection → Pick × Selection
  | 0, s => (.thrown emptyPool, s)
  | fuel + 1, s =>
    match s.jokes with
    | [] => (.thrown emptyPool, s)
    | first :: others =>
      let jokes := first :: others
      let idx := rand s.draws % jokes.length
      let selectedJoke := jokes.getD idx first
      let s := { s with draws := s.draws + 1 }
      if jokes.length > settings.lastIDsMaxLength ∧ selectedJoke.id ∈ s.globals._lastIDs then
        if s.globals._selectionAttempts > settings.jokeRandomizationAttempts then
          (.undefined, { s with rejected := true })
        else
          selectRandomJokeAux rand fuel
            { s with
              globals := { s.globals with
                _selectionAttempts := s.globals._selectionAttempts + 1 }
              jokes := jokes.eraseIdx idx }
      else
        let pushed := s.globals._lastIDs ++ [selectedJoke.id]
        let lastIDs :=
          if pushed.length > settings.lastIDsMaxLength then pushed.tail else pushed
        let globals : Globals := { _lastIDs := lastIDs, _selectionAttempts := 0 }
        if selectedJoke.id ∉ s.multiSelectLastIDs then
          (.joke selectedJoke,
            { s with
              globals := globals
              multiSelectLastIDs := s.multiSelectLastIDs ++ [selectedJoke.id] })
        else if globals._selectionAttempts > settings.jokeRandomizationAttempts then
          (.undefined, { s with globals := globals, rejected := true })
        else
          selectRandomJokeAux rand fuel
            { s with
              globals := { globals with
                _selectionAttempts := globals._selectionAttempts + 1 }
              jokes := jokes.eraseIdx idx }

/-- The call `selectRandomJoke(filteredJokes)`. -/
def selectRandomJoke (rand : Nat → Nat) (s : Selection) : Pick × Selection :=
  selectRandomJokeAux rand s.jokes.length s

/-- The loop `for(let i = 0; i < amount; i++)` of `getJokes`, with `count`
iterations left and `retJokes` collected so far. An error thrown by a pick ends
the loop and is returned. -/
def selectLoop (rand : Nat → Nat) :
    (count : Nat) → Selection → (retJokes : List Joke) → Option Msg × Selection × List Joke
  | 0, s, retJokes => (none, s, retJokes)
  | count + 1, s, retJokes =>
    match selectRandomJoke rand s with
    | (.thrown err, s1) => (some err, s1, retJokes)
    | (.joke rJoke, s1) => selectLoop rand count s1 (retJokes ++ [rJoke])
    | (.undefined, s1) => selectLoop rand count s1 retJokes

/-- What a call of `getJokes` leaves behind: the way its promise settles, the
module variables, the calls `jokeCache.cache.addEntry(ip, id, langCode)` it made,
and the way the promises of these calls settle. The chain
`Promise.all(promises).then(...).catch(...)` returns from both callbacks, so
`cacheWrites` is not read again. -/
structure GetJokesResult where
  settled : Settled (List Joke)
  globals : Globals
  addEntry : List (String × Int × String)
  cacheWrites : List (Except String Unit)
  deriving DecidableEq, Repr

/-- The method `getJokes(ip, langCode, amount)`. `amount` is the parsed argument,
`none` when `parseInt` gives `NaN`; `globals` are the module variables before the
call and `rand` the random numbers drawn during it. -/
def FilteredJoke.getJokes (env : Env) (self : FilteredJoke) (globals : Globals)
    (rand : Nat → Nat) (ip langCode : String) (amount : Option Int) : GetJokesResult :=
  let amount : Int := amount.getD 1
  match self._applyFilters env ip
      (some (if self._lang = "" then settings.defaultLanguage else self._lang)) with
  | .rejected err =>
    { settled := .rejected err, globals := globals, addEntry := [], cacheWrites := [] }
  | .resolved filteredJokes =>
    let addEntry := filteredJokes.map fun joke => (ip, joke.id, langCode)
    let promises := filteredJokes.map fun joke => env.addEntry ip joke.id langCode
    if filteredJokes.length = 0 then
      if self._errors.length > 0 then
        { settled := .rejected (.errors self._errors), globals := globals,
          addEntry := addEntry, cacheWrites := promises }
      else
        { settled := .rejected (.message (.tr self.getLanguage "foundNoMatchingJokes" [])),
          globals := globals, addEntry := addEntry, cacheWrites := promises }
    else if amount < filteredJokes.length then
      match selectLoop rand amount.toNat
          { jokes := filteredJokes, globals := globals, multiSelectLastIDs := [],
            draws := 0, rejected := false } [] with
      | (some err, s, _) =>
        { settled := if s.rejected then .rejected .undefined else .rejected (.error err),
          globals := s.globals, addEntry := addEntry, cacheWrites := promises }
      | (none, s, retJokes) =>
        { settled := if s.rejected then .rejected .undefined else .resolved retJokes,
          globals := s.globals, addEntry := addEntry, cacheWrites := promises }
    else
      { settled := .resolved filteredJokes, globals := globals, addEntry := addEntry,
        cacheWrites := promises }

/-- The method `getAllJokes()`: it calls `_applyFilters` with one argument, the
language of the criteria, which `_applyFilters` receives as `ip`; the parameter
`lang` stays `undefined`. A rejection is passed on. -/
def FilteredJoke.getAllJokes (env : Env) (self : FilteredJoke) : Settled (List Joke) :=
  self._applyFilters env
    (if self._lang = "" then settings.defaultLanguage else self._lang) none

/-! ## The seven predicates of the filter pass

The sections of the `forEach` callback, each as a predicate on a joke. -/

/-- Section `safe mode`: with safe mode on, the joke is safe and not in the
category `Dark`. -/
def safeModeOk (self : FilteredJoke) (joke : Joke) : Bool :=
  !self.getSafeMode || (joke.safe && decide (joke.category ≠ "Dark"))

/-- Section `id range`: the ID lies in the inclusive range. -/
def idRangeOk (self : FilteredJoke) (joke : Joke) : Bool :=
  decide (self.getIdRange.start ≤ (joke.id : ℚ) ∧ (joke.id : ℚ) ≤ self.getIdRange.stop)

/-- Section `categories`: the allowed categories hold the lower-cased name of the
any-category, or the lower-cased category of the joke. -/
def categoryOk (h : Host) (self : FilteredJoke) (joke : Joke) : Bool :=
  decide (h.toLowerCase settings.anyCategoryName ∈ self.getAllowedCategories h ∨
    h.toLowerCase joke.category ∈ self.getAllowedCategories h)

/-- Section `flags`: no blacklisted flag is true on the joke. -/
def flagsOk (self : FilteredJoke) (joke : Joke) : Bool :=
  decide (∀ f ∈ self.getBlacklistFlags, (f, true) ∉ joke.flags)

/-- Section `type`: the type of the joke is allowed. -/
def typeOk (self : FilteredJoke) (joke : Joke) : Bool :=
  decide (joke.type ∈ self.getAllowedTypes)

/-- Section `search string`: the search check returns `true`. -/
def searchOk (h : Host) (self : FilteredJoke) (lang : String) (joke : Joke) : Bool :=
  decide (self.checkMatchesSearchString h joke lang = .ok true)

/-- Section `language`: the language of the criteria is valid, and equal to the
language of the joke once both are lower-cased. -/
def languageOk (env : Env) (self : FilteredJoke) (joke : Joke) : Bool :=
  isValidLang env.host env.langs self.getLanguage none &&
    decide (env.host.toLowerCase joke.lang = env.host.toLowerCase self.getLanguage)

/-- The five predicates tested before the search string. -/
def passesBeforeSearch (env : Env) (self : FilteredJoke) (joke : Joke) : Bool :=
  safeModeOk self joke && idRangeOk self joke && categoryOk env.host self joke &&
    flagsOk self joke && typeOk self joke

/-- All seven predicates. -/
def passesAllFilters (env : Env) (self : FilteredJoke) (lang : String) (joke : Joke) :
    Bool :=
  passesBeforeSearch env self joke && searchOk env.host self lang joke &&
    languageOk env self joke

/-! ## Matching a search string as the specification words it

A branch is a piece of the search string between OR operators; in a branch the
wildcard stands for any run of characters and every other character for itself,
ignoring case. -/

/-- Whether `k` holds of the text after some run of characters has been skipped. -/
def afterAnyRun (k : List Char → Bool) : List Char → Bool
  | [] => k []
  | c :: rest => k (c :: rest) || afterAnyRun k rest

/-- Whether a branch matches a text from its first to its last character, `canon`
being the case folding. -/
def branchMatches (canon : Char → Char) : List Char → List Char → Bool
  | [], text => text.isEmpty
  | b :: branch, text =>
    if b = settings.wildcard then afterAnyRun (branchMatches canon branch) text
    else
      match text with
      | [] => false
      | c :: rest => canon b = canon c && branchMatches canon branch rest

/-- Whether some branch of the search string matches the whole text. -/
def someBranchMatches (canon : Char → Char) (searchStr text : String) : Bool :=
  (searchStr.data.splitOn settings.orOperator).any fun branch =>
    branchMatches canon branch text.data

/-- The normalized text of a joke: the joke body, or setup and delivery joined by
a space, with every newline replaced by a space; `none` for a type that is neither
`single` nor `twopart`. -/
def normalizedText (joke : Joke) : Option String :=
  if joke.type = "single" then some (replaceNewlines joke.joke)
  else if joke.type = "twopart" then
    some (replaceNewlines (joke.setup ++ " " ++ joke.delivery))
  else none

/-- What the compiler emits for one character of a search string: a backslash and
the character for an escaped character, `.*` for the wildcard. -/
def patternOfChar (c : Char) : List Char :=
  if c ∈ escapedChars then ['\\', c] else if c = settings.wildcard then ['.', '*'] else [c]

/-- The term compiled from one character of a branch. -/
def termOfChar (c : Char) : Term :=
  if c = settings.wildcard then .star .any else .one (.char c)

/-- The alternative compiled from a branch: the terms of its characters between
`^` and `$`. -/
def branchAlternative (branch : List Char) : List Term :=
  .bol :: branch.map termOfChar ++ [.eol]

/-- The isolated pattern of a search string without its leading `^`: the pattern
of every character, `$|^` for every OR operator, and the closing `$`. -/
def isolatedTail : List Char → List Char
  | [] => ['$']
  | c :: rest =>
    if c = settings.orOperator then '$' :: '|' :: '^' :: isolatedTail rest
    else patternOfChar c ++ isolatedTail rest

/-- The alternatives the isolated pattern is parsed into, the leading `^` of the
first alternative left out. -/
def tailAlternatives : List Char → List (List Term)
  | [] => [[.eol]]
  | c :: rest =>
    if c = settings.orOperator then [.eol] :: pushTerm .bol (tailAlternatives rest)
    else pushTerm (termOfChar c) (tailAlternatives rest)

/-! ## Example data

A small English corpus and criteria objects on which the code is evaluated. -/

/-- A safe joke of type `single`. -/
def exampleJokeA : Joke :=
  { id := 0, lang := "en", category := "Misc", type := "single", joke := "foo bar",
    setup := "", delivery := "",
    flags := [("nsfw", false), ("religious", false), ("political", false),
      ("racist", false), ("sexist", false), ("explicit", false)],
    safe := true }

/-- An unsafe joke of type `single` in the category `Dark`. -/
def exampleJokeB : Joke :=
  { id := 1, lang := "en", category := "Dark", type := "single", joke := "a",
    setup := "", delivery := "",
    flags := [("nsfw", true), ("religious", false), ("political", false),
      ("racist", false), ("sexist", false), ("explicit", false)],
    safe := false }

/-- A safe joke of type `twopart`. -/
def exampleJokeC : Joke :=
  { id := 2, lang := "en", category := "Programming", type := "twopart", joke := "",
    setup := "Why?", delivery := "Because.\nYes",
    flags := [("nsfw", false), ("religious", false), ("political", false),
      ("racist", false), ("sexist", false), ("explicit", false)],
    safe := true }

/-- The example corpus of the language `en`. -/
def exampleCorpus : List Joke := [exampleJokeA, exampleJokeB, exampleJokeC]

/-- An environment over the example corpus in which the cache lists `cached` for
every client. -/
def exampleEnv (cached : List Int) : Env :=
  { host := asciiHost
    langs := [("en", some "English"), ("de", some "German")]
    getJokeArray := fun lang => if lang = "en" then exampleCorpus else []
    listEntries := fun _ _ => .ok cached
    addEntry := fun _ _ _ => .ok () }

/-- The criteria object the constructor builds for the example corpus. -/
def freshCriteria : FilteredJoke :=
  { _allowedCategories := ["any", "misc", "programming", "dark", "pun", "spooky", "christmas"]
    _allowedTypes := ["single", "twopart"]
    _searchString := none
    _idRange := { ref := 1, start := 0, stop := 2 }
    _initialIdRange := { ref := 2, start := 0, stop := 2 }
    _idRangePerLang := [("en", { ref := 0, start := 0, stop := 2 })]
    _flags := []
    _errors := []
    _lang := "en"
    _amount := 1
    _safeMode := false
    allocated := 3 }

/-- The fresh criteria object after `setSearchString(s)`. -/
def criteriaWithSearch (s : String) : FilteredJoke :=
  (freshCriteria.setSearchString (some s)).2

/-- The module variables before any selection. -/
def noGlobals : Globals := { _lastIDs := [], _selectionAttempts := 0 }

/-- A corpus of sixteen jokes with the IDs 0 to 15, one more than the recency
buffer holds. -/
def largeCorpus : List Joke :=
  (List.range 16).map fun n => { exampleJokeA with id := (n : Int) }

/-- An environment over the large corpus, with an empty cache. -/
def largeEnv : Env :=
  { exampleEnv [] with getJokeArray := fun lang => if lang = "en" then largeCorpus else [] }

/-- A German joke. -/
def germanJoke : Joke :=
  { exampleJokeA with lang := "de", joke := "Treffen sich zwei Jaeger." }

/-- An environment with the example corpus for `en` and one joke for `de`. -/
def bilingualEnv : Env :=
  { exampleEnv [] with
    getJokeArray := fun lang =>
      if lang = "en" then exampleCorpus else if lang = "de" then [germanJoke] else [] }

/-- An environment over the example corpus whose cache rejects every call. -/
def failingCacheEnv : Env :=
  { exampleEnv [] with
    listEntries := fun _ _ => .error "Error: connect ECONNREFUSED"
    addEntry := fun _ _ _ => .error "Error: connect ECONNREFUSED" }

/-- The criteria object the constructor builds for the large corpus, after
`setSearchString("")`. -/
def largeCriteria : FilteredJoke :=
  { criteriaWithSearch "" with
    _idRange := { ref := 1, start := 0, stop := 15 }
    _initialIdRange := { ref := 2, start := 0, stop := 15 }
    _idRangePerLang := [("en", { ref := 0, start := 0, stop := 15 })] }

/-- A matched set in which jokes share an ID: forty-two jokes that all carry the
ID 0. -/
def repeatedCorpus : List Joke := List.replicate 42 exampleJokeA

/-- An environment over the corpus of jokes that share an ID, with an empty
cache. -/
def repeatedEnv : Env :=
  { exampleEnv [] with
    getJokeArray := fun lang => if lang = "en" then repeatedCorpus else [] }

/-- The criteria object the constructor builds for a corpus of forty-two jokes,
after `setSearchString("")`. -/
def repeatedCriteria : FilteredJoke :=
  { criteriaWithSearch "" with
    _idRange := { ref := 1, start := 0, stop := 41 }
    _initialIdRange := { ref := 2, start := 0, stop := 41 }
    _idRangePerLang := [("en", { ref := 0, start := 0, stop := 41 })] }

/-- A joke of type `single` whose text holds a carriage return before its line
feed. -/
def twoLineJoke : Joke :=
  { exampleJokeA with id := 3, joke := "Knock knock.\r\nWho is there?" }

/-- A joke of type `single` whose text holds no dot. -/
def dotlessJoke : Joke :=
  { exampleJokeA with id := 4, joke := "xa" }

/-! ## Arguments of `setIdRange` and sequences of setter calls -/

/-- A value passed to `setIdRange` as `start` or `end`. -/
inductive ArgValue where
  | number (q : ℚ)
  | nan
  | infinity
  | minusInfinity
  | string (s : String)
  | null
  | undefined
  deriving DecidableEq, Repr

/-- The function `scl.isEmpty` on such a value: `undefined`, `null` and `""` are
empty; every number, `0` and `NaN` included, is not. -/
def ArgValue.isEmpty : ArgValue → Bool
  | .null => true
  | .undefined => true
  | .string s => s = ""
  | _ => false

/-- The test `isNaN(parseInt(v)) || typeof v != "number"` of `setIdRange`: it is
passed by the finite numbers only (`parseInt` of `NaN` and of an infinity is
`NaN`, and a string is not of type `number`). -/
def ArgValue.toNumberArg : ArgValue → NumberArg
  | .number q => .num q
  | _ => .other

/-- The method `setIdRange(start, end, lang)` on arbitrary values for `start` and
`end`. -/
def FilteredJoke.setIdRangeOfValues (self : FilteredJoke) (start stop : ArgValue)
    (lang : Option String) : Except Msg (Bool × FilteredJoke) :=
  self.setIdRange start.toNumberArg
    (if stop.isEmpty then none else some stop.toNumberArg) lang

/-- A call of one of the eight setters with its arguments. -/
inductive SetterCall where
  | setAllowedCategories (categories : List String)
  | setAllowedType (type : String)
  | setSearchString (searchString : Option String)
  | setIdRange (start : NumberArg) (stop : Option NumberArg) (lang : Option String)
  | setBlacklistFlags (flags : List String)
  | setLanguage (code : String)
  | setSafeMode (safeModeEnabled : Option Bool)
  | setAmount (num : Option Int)

/-- The object after a setter call. The error `setIdRange` can throw is thrown
before the object is written to. -/
def FilteredJoke.afterCall (h : Host) (langs : Langs) (self : FilteredJoke) :
    SetterCall → FilteredJoke
  | .setAllowedCategories categories => (self.setAllowedCategories h categories).2
  | .setAllowedType type => (self.setAllowedType type).2
  | .setSearchString searchString => (self.setSearchString searchString).2
  | .setIdRange start stop lang =>
    match self.setIdRange start stop lang with
    | .ok result => result.2
    | .error _ => self
  | .setBlacklistFlags flags => (self.setBlacklistFlags flags).2
  | .setLanguage code => (self.setLanguage h langs code).2
  | .setSafeMode safeModeEnabled => (self.setSafeMode safeModeEnabled).2
  | .setAmount num => (self.setAmount num).2

/-- The object after a sequence of setter calls. -/
def FilteredJoke.afterCalls (h : Host) (langs : Langs) (self : FilteredJoke)
    (calls : List SetterCall) : FilteredJoke :=
  calls.foldl (fun object call => object.afterCall h langs call) self

/-! ## Further example data -/

/-- The number `0.5`. -/
def oneHalf : ℚ := ⟨1, 2, by decide, by decide⟩

/-- The number `1.5`. -/
def threeHalves : ℚ := ⟨3, 2, by decide, by decide⟩

/-- A German corpus of five jokes with the IDs 0 to 4. -/
def germanCorpus : List Joke :=
  (List.range 5).map fun n => { germanJoke with id := (n : Int) }

/-- An environment with the example corpus for `en` and the five jokes for `de`. -/
def largerGermanEnv : Env :=
  { exampleEnv [] with
    getJokeArray := fun lang =>
      if lang = "en" then exampleCorpus else if lang = "de" then germanCorpus else [] }

/-- A joke of type `single` with the text `hello world`. -/
def helloJoke : Joke :=
  { exampleJokeA with id := 5, joke := "hello world" }

/-- A joke of type `single` whose text holds a percent escape. -/
def encodedJoke : Joke :=
  { exampleJokeA with id := 6, joke := "hello%20world" }

/-- The criteria object built over an English corpus of three jokes and a German
corpus of five, after `setSearchString("")` and `setLanguage("de")`. -/
def germanCriteria : Option FilteredJoke :=
  (FilteredJoke.new asciiHost [("en", 3), ("de", 5)]).map fun criteria =>
    ((criteria.setSearchString (some "")).2.setLanguage asciiHost largerGermanEnv.langs "de").2

/-! ## `isValidLang` on arbitrary values -/

/-- The function `isValidLang(langCode, trLang)` of `languages.js` on arbitrary
values, with the language table loaded. The first statement normalises `trLang`
by a nested call with one argument, whose own `trLang` is `undefined`, into a
variable nothing reads; a `langCode` that is not a string is refused by the test
`typeof langCode !== "string"`. -/
def isValidLangOfValue (h : Host) (langs : Langs) (langCode trLang : ArgValue) : Bool :=
  let _trLang : String :=
    match trLang with
    | .string t => if isValidLang h langs t none then t else settings.defaultLanguage
    | _ => settings.defaultLanguage
  match langCode with
  | .string code => isValidLang h langs code none
  | _ => false

/-- The fresh criteria object after `setIdRange(1)`. -/
def singleIdCriteria : FilteredJoke :=
  { freshCriteria with _idRange := { ref := 3, start := 1, stop := 1 }, allocated := 4 }

/-! ## The states of a pick

The state changes of `selectRandomJoke`, one definition for each path through
its body. -/

/-- The index `scl.randRange(0, jokes.length - 1)` drawn in a state. -/
def Selection.idx (rand : Nat → Nat) (s : Selection) : Nat :=
  rand s.draws % s.jokes.length

/-- The statements `_lastIDs.push(id)` and, when the buffer is longer than
`lastIDsMaxLength` afterwards, `_lastIDs.shift()`. -/
def pushLastID (lastIDs : List Int) (id : Int) : List Int :=
  if (lastIDs ++ [id]).length > settings.lastIDsMaxLength then (lastIDs ++ [id]).tail
  else lastIDs ++ [id]

/-- The state after `return reject()` in the first branch: one more random number
is used up and the promise is rejected. -/
def Selection.afterReject (s : Selection) : Selection :=
  { s with draws := s.draws + 1, rejected := true }

/-- The state after `_selectionAttempts++; jokes.splice(idx, 1)` in the first
branch, where the drawn joke is in `_lastIDs`. -/
def Selection.afterNearMiss (s : Selection) (idx : Nat) : Selection :=
  { s with
    draws := s.draws + 1
    globals := { s.globals with _selectionAttempts := s.globals._selectionAttempts + 1 }
    jokes := s.jokes.eraseIdx idx }

/-- The state after the drawn joke is returned: its ID is pushed to `_lastIDs` and
to `multiSelectLastIDs`, and the retry counter is reset. -/
def Selection.afterPick (s : Selection) (selected : Joke) : Selection :=
  { s with
    draws := s.draws + 1
    globals :=
      { _lastIDs := pushLastID s.globals._lastIDs selected.id, _selectionAttempts := 0 }
    multiSelectLastIDs := s.multiSelectLastIDs ++ [selected.id] }

/-- The state after the drawn joke turned out to be selected already for this
response: its ID is pushed to `_lastIDs`, the retry counter is reset and then
incremented, and the joke is spliced out. -/
def Selection.afterRepeat (s : Selection) (selected : Joke) (idx : Nat) : Selection :=
  { s with
    draws := s.draws + 1
    globals :=
      { _lastIDs := pushLastID s.globals._lastIDs selected.id, _selectionAttempts := 0 + 1 }
    jokes := s.jokes.eraseIdx idx }

/-- What holds at the start of every pick of a `getJokes` call for `amount` jokes
under the shipped settings: the jokes of the working array have distinct IDs,
the recency buffer is within its bound, the jokes not yet selected outnumber the
picks still to be made, the retry counter plus the number of jokes of the array
that are in the recency buffer is at most `lastIDsMaxLength + 1`, and `reject()`
has not been called. -/
def Selection.sound (amount : Nat) (s : Selection) : Prop :=
  (s.jokes.map fun j => j.id).Nodup ∧
    s.globals._lastIDs.length ≤ settings.lastIDsMaxLength ∧
    amount + 1 ≤
      (s.jokes.filter fun j => decide (j.id ∉ s.multiSelectLastIDs)).length +
        s.multiSelectLastIDs.length ∧
    s.globals._selectionAttempts +
        (s.jokes.filter fun j => decide (j.id ∈ s.globals._lastIDs)).length ≤
      settings.lastIDsMaxLength + 1 ∧
    s.rejected = false

/-- What holds at the start of every pick when the jokes of the working array
have distinct IDs, under the shipped settings: the recency buffer is within its
bound, the retry counter plus the number of jokes of the array that are in the
recency buffer is at most `jokeRandomizationAttempts`, `reject()` has not been
called, and the retry counter is at most 1 when the array is empty. -/
def Selection.withinRetries (s : Selection) : Prop :=
  (s.jokes.map fun j => j.id).Nodup ∧
    s.globals._lastIDs.length ≤ settings.lastIDsMaxLength ∧
    s.globals._selectionAttempts +
        (s.jokes.filter fun j => decide (j.id ∈ s.globals._lastIDs)).length ≤
      settings.jokeRandomizationAttempts ∧
    s.rejected = false ∧
    (s.jokes = [] → s.globals._selectionAttempts ≤ 1)

/-! ## Array objects

The definitions above treat arrays as values. To tell which array objects a call
writes to, the methods are given here once more over a heap of array objects:
an array variable holds a reference, `[]` and `filter` allocate a new object,
`push` and `splice` write to the object their receiver refers to. The code never
assigns to a property of a joke, so the joke records stay values. -/

/-- The array objects allocated so far, each with its contents. A reference to an
array object is its position in this list. -/
structure Heap where
  arrays : List (List Joke)
  deriving DecidableEq, Repr

/-- A new array object with the given contents. -/
def Heap.alloc (heap : Heap) (contents : List Joke) : Nat × Heap :=
  (heap.arrays.length, { arrays := heap.arrays ++ [contents] })

/-- The contents of an array object. -/
def Heap.read (heap : Heap) (ref : Nat) : List Joke :=
  heap.arrays.getD ref []

/-- A write to an array object: its contents are replaced. -/
def Heap.write (heap : Heap) (ref : Nat) (contents : List Joke) : Heap :=
  { arrays := heap.arrays.set ref contents }

/-- The environment as the code sees it on a heap: `corpus lang` is the array
object `this._allJokes.getJokeArray(lang)` returns, the shared corpus array
itself. -/
def Env.onHeap (env : Env) (corpus : String → Nat) (heap : Heap) : Env :=
  { env with getJokeArray := fun lang => heap.read (corpus lang) }

/-- The section `joke cache` of `_applyFilters` on the heap: when it runs,
`jokesArray.filter(...)` returns a new array object, which the variable
`jokesArray` refers to from then on. -/
def FilteredJoke.withoutCachedOnHeap (self : FilteredJoke) (cacheIdList : List Int)
    (jokesArray : Nat) (heap : Heap) : Nat × Heap :=
  if self._idRange.looseEq self._initialIdRange then
    heap.alloc ((heap.read jokesArray).filter fun joke => decide (joke.id ∉ cacheIdList))
  else (jokesArray, heap)

/-- The loop `jokesArray.forEach(...)` of `_applyFilters` on the heap: it reads
the array `jokesArray`, and every `push` writes to the array `filteredJokes`. -/
def FilteredJoke.forEachOnHeap (env : Env) (self : FilteredJoke) (lang : String)
    (jokesArray filteredJokes : Nat) (heap : Heap) : FilterLoop × Heap :=
  let final := (heap.read jokesArray).foldl (self.forEachStep env lang)
    { isErrored := false, rejection := none, filteredJokes := heap.read filteredJokes }
  (final, heap.write filteredJokes final.filteredJokes)

/-- The method `_applyFilters(ip, lang)` on the heap. `this._filteredJokes = []`
allocates the array the loop pushes to; `jokesArray` refers to the corpus array,
or to the array the cache section allocates. The result is the way the promise
settles, with a reference to `this._filteredJokes`, and the heap afterwards. -/
def FilteredJoke._applyFiltersOnHeap (env : Env) (corpus : String → Nat)
    (self : FilteredJoke) (ip : String) (lang : Option String) (heap : Heap) :
    Settled Nat × Heap :=
  let filteredJokes := (heap.alloc []).1
  let heap := (heap.alloc []).2
  let lang := effectiveLang lang
  let jokesArray := corpus lang
  match env.listEntries ip lang with
  | .error err =>
    (.rejected (.message (.text ("Couldn\x27t list joke cache entries: " ++ err))), heap)
  | .ok cacheIdList =>
    let cached := self.withoutCachedOnHeap cacheIdList jokesArray heap
    let looped := self.forEachOnHeap env lang cached.1 filteredJokes cached.2
    match looped.1.rejection with
    | some err => (.rejected (.message err), looped.2)
    | none => (.resolved filteredJokes, looped.2)

/-- The method `getJokes(ip, langCode, amount)` on the heap. `let retJokes = []`
allocates the array the loop pushes the picked jokes to; every `splice` of
`selectRandomJoke(filteredJokes)` writes to the array `_applyFilters` resolved
with; without a selection `retJokes = filteredJokes` makes the result that same
array. -/
def FilteredJoke.getJokesOnHeap (env : Env) (corpus : String → Nat) (self : FilteredJoke)
    (globals : Globals) (rand : Nat → Nat) (ip : String) (amount : Option Int)
    (heap : Heap) : Settled Nat × Globals × Heap :=
  let amount : Int := amount.getD 1
  let retJokes := (heap.alloc []).1
  let heap := (heap.alloc []).2
  match self._applyFiltersOnHeap env corpus ip
      (some (if self._lang = "" then settings.defaultLanguage else self._lang)) heap with
  | (.rejected err, heap) => (.rejected err, globals, heap)
  | (.resolved filteredJokes, heap) =>
    if (heap.read filteredJokes).length = 0 then
      if self._errors.length > 0 then (.rejected (.errors self._errors), globals, heap)
      else
        (.rejected (.message (.tr self.getLanguage "foundNoMatchingJokes" [])), globals, heap)
    else if amount < (heap.read filteredJokes).length then
      match selectLoop rand amount.toNat
          { jokes := heap.read filteredJokes, globals := globals, multiSelectLastIDs := [],
            draws := 0, rejected := false } [] with
      | (some err, s, collected) =>
        (if s.rejected then .rejected .undefined else .rejected (.error err), s.globals,
          (heap.write filteredJokes s.jokes).write retJokes collected)
      | (none, s, collected) =>
        (if s.rejected then .rejected .undefined else .resolved retJokes, s.globals,
          (heap.write filteredJokes s.jokes).write retJokes collected)
    else (.resolved filteredJokes, globals, heap)

/-- The method `getAllJokes()` on the heap. -/
def FilteredJoke.getAllJokesOnHeap (env : Env) (corpus : String → Nat)
    (self : FilteredJoke) (heap : Heap) : Settled Nat × Heap :=
  self._applyFiltersOnHeap env corpus
    (if self._lang = "" then settings.defaultLanguage else self._lang) none heap

/-- The contents of the array a promise resolved with. -/
def Heap.readSettled (heap : Heap) : Settled Nat → Settled (List Joke)
  | .resolved ref => .resolved (heap.read ref)
  | .rejected reason => .rejected reason

/-- A heap that holds the example corpus as its only array object. -/
def exampleHeap : Heap := { arrays := [exampleCorpus] }

/-- Every array object of `before` is an array object of `after`, with the same
contents. -/
def Heap.preservedIn (before after : Heap) : Prop :=
  before.arrays.length ≤ after.arrays.length ∧
    ∀ ref, ref < before.arrays.length → after.read ref = before.read ref

/-- On the example heap `getJokeArray` returns the one array object for every
language. -/
def exampleCorpusRef : String → Nat := fun _ => 0

/-! ## Lemmas on the filter pass -/

/-- Lower-casing the result of `getAllowedCategories()` once more, as `_applyFilters` does,
changes nothing. -/
theorem getAllowedCategories_lower (h : Host) (self : FilteredJoke) :
    (self.getAllowedCategories h).map h.toLowerCase = self.getAllowedCategories h := by
  unfold FilteredJoke.getAllowedCategories
  rw [List.map_map]
  apply List.map_congr_left
  intro c _
  exact h.toLowerCase_idem c

/-- The variable `flagMatches` is true iff some blacklisted flag is true on the joke. -/
theorem flagMatches_iff (blFlags : List String) (flags : List (String × Bool)) :
    (!blFlags.isEmpty && flags.any fun kv => decide (kv.1 ∈ blFlags) && kv.2) = true ↔
      ¬ ∀ f ∈ blFlags, (f, true) ∉ flags := by
  constructor
  · intro hm
    simp only [Bool.and_eq_true, List.any_eq_true, decide_eq_true_eq] at hm
    obtain ⟨_, kv, hkv, hin, hval⟩ := hm
    intro hall
    apply hall kv.1 hin
    have : kv = (kv.1, true) := by rw [← hval]
    rw [← this]; exact hkv
  · intro hn
    push_neg at hn
    obtain ⟨f, hf, hmem⟩ := hn
    simp only [Bool.and_eq_true, List.any_eq_true, decide_eq_true_eq, Bool.not_eq_true',
      List.isEmpty_eq_false]
    refine ⟨?_, (f, true), hmem, hf, rfl⟩
    intro hnil
    rw [hnil] at hf
    exact absurd hf (List.not_mem_nil f)

/-- What the five predicates tested before the search string say. -/
theorem passesBeforeSearch_iff (env : Env) (self : FilteredJoke) (joke : Joke) :
    passesBeforeSearch env self joke = true ↔
      (self.getSafeMode = true → joke.safe = true ∧ joke.category ≠ "Dark") ∧
      (self.getIdRange.start ≤ (joke.id : ℚ) ∧ (joke.id : ℚ) ≤ self.getIdRange.stop) ∧
      (env.host.toLowerCase settings.anyCategoryName ∈ self.getAllowedCategories env.host ∨
        env.host.toLowerCase joke.category ∈ self.getAllowedCategories env.host) ∧
      (∀ f ∈ self.getBlacklistFlags, (f, true) ∉ joke.flags) ∧
      joke.type ∈ self.getAllowedTypes := by
  unfold passesBeforeSearch safeModeOk idRangeOk categoryOk flagsOk typeOk
  simp only [Bool.and_eq_true, Bool.or_eq_true, Bool.not_eq_true', decide_eq_true_eq]
  cases self.getSafeMode <;> simp <;> tauto

/-- The callback of the loop, section by section: a joke that fails one of the first five
predicates is dropped; otherwise the search check decides, and after it the language
section. -/
theorem checkJoke_eq (env : Env) (self : FilteredJoke) (lang : String) (joke : Joke) :
    self.checkJoke env lang joke =
      if passesBeforeSearch env self joke then
        match self.checkMatchesSearchString env.host joke lang with
        | .error err => .error err
        | .ok b => .ok (b && languageOk env self joke)
      else .ok false := by
  have hflag := flagMatches_iff self.getBlacklistFlags joke.flags
  by_cases hp : passesBeforeSearch env self joke = true
  · rw [if_pos hp]
    obtain ⟨h1, ⟨h2, h3⟩, h4, h5, h6⟩ := (passesBeforeSearch_iff env self joke).mp hp
    unfold FilteredJoke.checkJoke
    simp only [getAllowedCategories_lower]
    rw [if_neg (fun hc => hc.2 (h1 hc.1).1), if_neg (fun hc => (h1 hc.1).2 hc.2),
      if_neg (fun hc => hc.elim (fun hl => absurd h2 (not_le.mpr hl))
        (fun hr => absurd h3 (not_le.mpr hr))),
      if_neg (fun hc => h4.elim hc.1 hc.2),
      if_neg (fun hc => (hflag.mp hc) h5), if_neg (fun hc => hc h6)]
    cases hc : self.checkMatchesSearchString env.host joke lang with
    | error err => rfl
    | ok b =>
      cases b
      · rfl
      · unfold languageOk
        by_cases h9 : isValidLang env.host env.langs self.getLanguage none = true
        · by_cases h10 : env.host.toLowerCase joke.lang = env.host.toLowerCase self.getLanguage
          · simp [h9, h10]
          · simp [h9, h10]
        · simp [h9]
  · rw [if_neg hp]
    unfold FilteredJoke.checkJoke
    simp only [getAllowedCategories_lower]
    by_cases c1 : self.getSafeMode = true ∧ joke.safe ≠ true
    · rw [if_pos c1]
    rw [if_neg c1]
    by_cases c2 : self.getSafeMode = true ∧ joke.category = "Dark"
    · rw [if_pos c2]
    rw [if_neg c2]
    by_cases c3 : (joke.id : ℚ) < self.getIdRange.start ∨ (joke.id : ℚ) > self.getIdRange.stop
    · rw [if_pos c3]
    rw [if_neg c3]
    by_cases c4 : env.host.toLowerCase settings.anyCategoryName ∉
        self.getAllowedCategories env.host ∧
        env.host.toLowerCase joke.category ∉ self.getAllowedCategories env.host
    · rw [if_pos c4]
    rw [if_neg c4]
    by_cases c5 : (!self.getBlacklistFlags.isEmpty &&
        joke.flags.any fun kv => decide (kv.1 ∈ self.getBlacklistFlags) && kv.2) = true
    · rw [if_pos c5]
    rw [if_neg c5]
    by_cases c6 : joke.type ∉ self.getAllowedTypes
    · rw [if_pos c6]
    exfalso
    apply hp
    rw [passesBeforeSearch_iff]
    refine ⟨fun hs => ⟨?_, ?_⟩, ⟨?_, ?_⟩, ?_, ?_, ?_⟩
    · by_contra hn; exact c1 ⟨hs, hn⟩
    · intro hd; exact c2 ⟨hs, hd⟩
    · exact not_lt.mp (fun hl => c3 (Or.inl hl))
    · exact not_lt.mp (fun hl => c3 (Or.inr hl))
    · by_contra hn
      push_neg at hn
      exact c4 hn
    · by_contra hn
      exact c5 (hflag.mpr hn)
    · by_contra hn
      exact c6 hn

/-- Once `isErrored` is set, the remaining iterations change nothing. -/
theorem forEach_errored (env : Env) (self : FilteredJoke) (lang : String)
    (l : List Joke) (st : FilterLoop) (hst : st.isErrored = true) :
    l.foldl (self.forEachStep env lang) st = st := by
  induction l with
  | nil => rfl
  | cons j l ih =>
    rw [List.foldl_cons]
    have : self.forEachStep env lang st j = st := by
      unfold FilteredJoke.forEachStep
      rw [if_pos hst]
    rw [this, ih]

/-- Every joke the loop adds to `_filteredJokes` comes from the array and reached the `push`. -/
theorem forEach_mem (env : Env) (self : FilteredJoke) (lang : String)
    (l : List Joke) (st : FilterLoop) (j : Joke)
    (hj : j ∈ (l.foldl (self.forEachStep env lang) st).filteredJokes) :
    j ∈ st.filteredJokes ∨ (j ∈ l ∧ self.checkJoke env lang j = .ok true) := by
  induction l generalizing st with
  | nil => exact Or.inl hj
  | cons x l ih =>
    rw [List.foldl_cons] at hj
    rcases ih _ hj with h | ⟨h1, h2⟩
    · unfold FilteredJoke.forEachStep at h
      by_cases he : st.isErrored = true
      · rw [if_pos he] at h
        exact Or.inl h
      · rw [if_neg he] at h
        cases hc : self.checkJoke env lang x with
        | error err =>
          rw [hc] at h
          exact Or.inl h
        | ok b =>
          rw [hc] at h
          cases b
          · exact Or.inl h
          · rcases List.mem_append.mp h with h3 | h3
            · exact Or.inl h3
            · rw [List.mem_singleton] at h3
              subst h3
              exact Or.inr ⟨List.mem_cons_self _ _, hc⟩
    · exact Or.inr ⟨List.mem_cons_of_mem _ h1, h2⟩

/-- When the callback throws for no joke of the array, the loop appends the jokes that reach the
`push`, in order. -/
theorem forEach_all_ok (env : Env) (self : FilteredJoke) (lang : String)
    (l : List Joke) (st : FilterLoop) (hst : st.isErrored = false)
    (hok : ∀ j ∈ l, ∃ b, self.checkJoke env lang j = .ok b) :
    l.foldl (self.forEachStep env lang) st =
      { st with
        filteredJokes := st.filteredJokes ++
          l.filter fun j => decide (self.checkJoke env lang j = .ok true) } := by
  induction l generalizing st with
  | nil => simp
  | cons x l ih =>
    rw [List.foldl_cons]
    obtain ⟨b, hb⟩ := hok x (List.mem_cons_self _ _)
    have hok2 : ∀ j ∈ l, ∃ b, self.checkJoke env lang j = .ok b :=
      fun j hj => hok j (List.mem_cons_of_mem _ hj)
    cases b with
    | false =>
      have hstep : self.forEachStep env lang st x = st := by
        unfold FilteredJoke.forEachStep
        rw [hst, hb]
        rfl
      rw [hstep, ih st hst hok2, List.filter_cons_of_neg]
      rw [hb]
      decide
    | true =>
      have hstep : self.forEachStep env lang st x =
          { st with filteredJokes := st.filteredJokes ++ [x] } := by
        unfold FilteredJoke.forEachStep
        rw [hst, hb]
        rfl
      rw [hstep, ih { st with filteredJokes := st.filteredJokes ++ [x] } hst hok2,
        List.filter_cons_of_pos]
      · simp
      · rw [hb]
        decide

/-- When the callback throws for some joke of the array, and every error it throws carries the
message `m`, the loop ends with `reject` called with `m`. -/
theorem forEach_reject (env : Env) (self : FilteredJoke) (lang : String) (m : Msg)
    (l : List Joke) (st : FilterLoop) (hst : st.isErrored = false)
    (hrej : st.rejection = none)
    (hex : ∃ j ∈ l, ∃ err, self.checkJoke env lang j = .error err)
    (hall : ∀ j ∈ l, ∀ err, self.checkJoke env lang j = .error err → err = m) :
    (l.foldl (self.forEachStep env lang) st).rejection = some m := by
  induction l generalizing st with
  | nil =>
    obtain ⟨j, hj, _⟩ := hex
    exact absurd hj (List.not_mem_nil j)
  | cons x l ih =>
    rw [List.foldl_cons]
    have hall2 : ∀ j ∈ l, ∀ err, self.checkJoke env lang j = .error err → err = m :=
      fun j hj => hall j (List.mem_cons_of_mem _ hj)
    cases hc : self.checkJoke env lang x with
    | error err =>
      have hm : err = m := hall x (List.mem_cons_self _ _) err hc
      have hstep : self.forEachStep env lang st x =
          { st with isErrored := true, rejection := some m } := by
        unfold FilteredJoke.forEachStep
        rw [hst, hc, hrej, hm]
        rfl
      rw [hstep, forEach_errored _ _ _ _ _ rfl]
    | ok b =>
      have hex2 : ∃ j ∈ l, ∃ err, self.checkJoke env lang j = .error err := by
        obtain ⟨j, hj, err, he⟩ := hex
        rcases List.mem_cons.mp hj with h | h
        · subst h
          rw [hc] at he
          cases he
        · exact ⟨j, h, err, he⟩
      cases b with
      | false =>
        have hstep : self.forEachStep env lang st x = st := by
          unfold FilteredJoke.forEachStep
          rw [hst, hc]
          rfl
        rw [hstep]
        exact ih st hst hrej hex2 hall2
      | true =>
        have hstep : self.forEachStep env lang st x =
            { st with filteredJokes := st.filteredJokes ++ [x] } := by
          unfold FilteredJoke.forEachStep
          rw [hst, hc]
          rfl
        rw [hstep]
        exact ih { st with filteredJokes := st.filteredJokes ++ [x] } hst hrej hex2 hall2

/-- The cache section only removes jokes. -/
theorem withoutCached_subset (self : FilteredJoke) (cacheIdList : List Int)
    (jokesArray : List Joke) (j : Joke) (hj : j ∈ self.withoutCached cacheIdList jokesArray) :
    j ∈ jokesArray := by
  unfold FilteredJoke.withoutCached at hj
  split at hj
  · exact List.mem_of_mem_filter hj
  · exact hj

/-- Every joke of the array `_applyFilters` resolves with is a joke of the corpus array that
reached the `push`. -/
theorem applyFilters_resolved (env : Env) (self : FilteredJoke) (ip : String)
    (lang : Option String) (jokes : List Joke)
    (hres : self._applyFilters env ip lang = .resolved jokes) (j : Joke) (hj : j ∈ jokes) :
    j ∈ env.getJokeArray (effectiveLang lang) ∧
      self.checkJoke env (effectiveLang lang) j = .ok true := by
  unfold FilteredJoke._applyFilters at hres
  dsimp only at hres
  cases hl : env.listEntries ip (effectiveLang lang) with
  | error err =>
    rw [hl] at hres
    cases hres
  | ok cacheIdList =>
    rw [hl] at hres
    dsimp only at hres
    split at hres
    · cases hres
    · injection hres with hres
      rw [← hres] at hj
      rcases forEach_mem env self _ _ _ j hj with h | ⟨h1, h2⟩
      · exact absurd h (List.not_mem_nil j)
      · exact ⟨withoutCached_subset self _ _ j h1, h2⟩

/-- A pick only shortens the array, and a joke it returns is a joke of the array. -/
theorem selectRandomJokeAux_mem (rand : Nat → Nat) (fuel : Nat) (s : Selection) :
    (∀ x ∈ (selectRandomJokeAux rand fuel s).2.jokes, x ∈ s.jokes) ∧
      (∀ j, (selectRandomJokeAux rand fuel s).1 = .joke j → j ∈ s.jokes) := by
  induction fuel generalizing s with
  | zero =>
    unfold selectRandomJokeAux
    exact ⟨fun x hx => hx, fun j hj => by cases hj⟩
  | succ fuel ih =>
    unfold selectRandomJokeAux
    cases hjs : s.jokes with
    | nil =>
      dsimp only
      rw [hjs]
      exact ⟨fun x hx => hx, fun j hj => by cases hj⟩
    | cons first others =>
      dsimp only
      have hidx : rand s.draws % (first :: others).length < (first :: others).length :=
        Nat.mod_lt _ (by simp)
      have hsel : (first :: others).getD (rand s.draws % (first :: others).length) first ∈
          first :: others := by
        rw [List.getD_eq_getElem _ _ hidx]
        exact List.getElem_mem _
      have herase : ∀ x ∈ (first :: others).eraseIdx
          (rand s.draws % (first :: others).length), x ∈ first :: others :=
        fun x hx => (List.eraseIdx_sublist _ _).subset hx
      split_ifs <;>
        first
        | exact ⟨fun x hx => hx, fun j hj => by
            first
            | (cases hj; exact hsel)
            | cases hj⟩
        | exact ⟨fun x hx => herase x ((ih _).1 x hx), fun j hj => herase j ((ih _).2 j hj)⟩

/-- The same for the call `selectRandomJoke(filteredJokes)`. -/
theorem selectRandomJoke_mem (rand : Nat → Nat) (s : Selection) :
    (∀ x ∈ (selectRandomJoke rand s).2.jokes, x ∈ s.jokes) ∧
      (∀ j, (selectRandomJoke rand s).1 = .joke j → j ∈ s.jokes) :=
  selectRandomJokeAux_mem rand s.jokes.length s

/-- Every joke collected by the selection loop was collected before or is a joke of the array. -/
theorem selectLoop_mem (rand : Nat → Nat) (count : Nat) (s : Selection)
    (retJokes : List Joke) :
    ∀ x ∈ (selectLoop rand count s retJokes).2.2, x ∈ retJokes ∨ x ∈ s.jokes := by
  induction count generalizing s retJokes with
  | zero =>
    intro x hx
    exact Or.inl hx
  | succ count ih =>
    intro x hx
    unfold selectLoop at hx
    obtain ⟨hsub, hpick⟩ := selectRandomJoke_mem rand s
    cases hp : selectRandomJoke rand s with
    | mk pick s1 =>
      rw [hp] at hx hsub hpick
      cases pick with
      | thrown err => exact Or.inl hx
      | undefined =>
        rcases ih s1 retJokes x hx with h | h
        · exact Or.inl h
        · exact Or.inr (hsub x h)
      | joke rJoke =>
        rcases ih s1 (retJokes ++ [rJoke]) x hx with h | h
        · rcases List.mem_append.mp h with h2 | h2
          · exact Or.inl h2
          · rw [List.mem_singleton] at h2
            rw [h2]
            exact Or.inr (hpick rJoke rfl)
        · exact Or.inr (hsub x h)

/-- When `getJokes` resolves, `_applyFilters` resolved and every returned joke is one of the
filtered jokes. -/
theorem getJokes_resolved (env : Env) (self : FilteredJoke) (globals : Globals)
    (rand : Nat → Nat) (ip langCode : String) (amount : Option Int) (jokes : List Joke)
    (hres : (self.getJokes env globals rand ip langCode amount).settled = .resolved jokes) :
    ∃ filteredJokes,
      self._applyFilters env ip
        (some (if self._lang = "" then settings.defaultLanguage else self._lang)) =
          .resolved filteredJokes ∧
      ∀ j ∈ jokes, j ∈ filteredJokes := by
  unfold FilteredJoke.getJokes at hres
  dsimp only at hres
  cases hf : self._applyFilters env ip
      (some (if self._lang = "" then settings.defaultLanguage else self._lang)) with
  | rejected err =>
    rw [hf] at hres
    cases hres
  | resolved filteredJokes =>
    rw [hf] at hres
    dsimp only at hres
    refine ⟨filteredJokes, rfl, ?_⟩
    by_cases h1 : filteredJokes.length = 0
    · rw [if_pos h1] at hres
      by_cases h2 : self._errors.length > 0
      · rw [if_pos h2] at hres
        cases hres
      · rw [if_neg h2] at hres
        cases hres
    rw [if_neg h1] at hres
    by_cases h3 : amount.getD 1 < (filteredJokes.length : Int)
    · rw [if_pos h3] at hres
      have hmem := selectLoop_mem rand ((amount.getD 1).toNat)
        { jokes := filteredJokes, globals := globals, multiSelectLastIDs := [],
          draws := 0, rejected := false } []
      revert hres hmem
      cases selectLoop rand ((amount.getD 1).toNat)
        { jokes := filteredJokes, globals := globals, multiSelectLastIDs := [],
          draws := 0, rejected := false } [] with
      | mk err rest =>
        cases rest with
        | mk s retJokes =>
          intro hres hmem
          cases err with
          | some e =>
            dsimp only at hres
            by_cases hr : s.rejected = true
            · rw [if_pos hr] at hres
              cases hres
            · rw [if_neg hr] at hres
              cases hres
          | none =>
            dsimp only at hres
            by_cases hr : s.rejected = true
            · rw [if_pos hr] at hres
              cases hres
            · rw [if_neg hr] at hres
              injection hres with hres
              intro j hj
              rw [← hres] at hj
              rcases hmem j hj with h | h
              · exact absurd h (List.not_mem_nil j)
              · exact h
    · rw [if_neg h3] at hres
      injection hres with hres
      intro j hj
      rw [← hres] at hj
      exact hj

/-- The constructor never makes `_idRange` and `_initialIdRange` the same array object. -/
theorem new_ranges_distinct (h : Host) (jokeCountPerLang : List (String × Nat))
    (self : FilteredJoke) (hnew : FilteredJoke.new h jokeCountPerLang = some self) :
    self._idRange.looseEq self._initialIdRange = false := by
  unfold FilteredJoke.new at hnew
  cases hl : jokeCountPerLang.lookup settings.defaultLanguage with
  | none =>
    rw [hl] at hnew
    cases hnew
  | some count =>
    rw [hl] at hnew
    injection hnew with hnew
    rw [← hnew]
    simp [IdRange.looseEq]

/-- The recursion of `selectRandomJoke` needs no more steps than the array has jokes: more fuel
than the length of the array does not change the result. -/
theorem selectRandomJokeAux_fuel (rand : Nat → Nat) (fuel : Nat) (s : Selection)
    (hfuel : s.jokes.length ≤ fuel) :
    selectRandomJokeAux rand fuel s = selectRandomJokeAux rand s.jokes.length s := by
  induction fuel generalizing s with
  | zero =>
    have : s.jokes.length = 0 := Nat.le_zero.mp hfuel
    rw [this]
  | succ fuel ih =>
    cases hjs : s.jokes with
    | nil =>
      rw [List.length_nil]
      unfold selectRandomJokeAux
      rw [hjs]
    | cons first others =>
      rw [List.length_cons]
      have hlen : others.length ≤ fuel := by
        rw [hjs, List.length_cons] at hfuel
        omega
      have hidx : rand s.draws % (first :: others).length < (first :: others).length :=
        Nat.mod_lt _ (by simp)
      have herase : ((first :: others).eraseIdx
          (rand s.draws % (first :: others).length)).length = others.length := by
        rw [List.length_eraseIdx, if_pos hidx]
        simp
      have hrec : ∀ s2 : Selection,
          s2.jokes = (first :: others).eraseIdx (rand s.draws % (first :: others).length) →
          selectRandomJokeAux rand fuel s2 = selectRandomJokeAux rand others.length s2 := by
        intro s2 hs2
        have hl2 : s2.jokes.length = others.length := by rw [hs2, herase]
        rw [ih s2 (by omega), hl2]
      unfold selectRandomJokeAux
      rw [hjs]
      dsimp only
      split_ifs <;> first | rfl | exact hrec _ rfl

/-- A joke that reaches the `push` passes the five first predicates, the search check and the
language section. -/
theorem checkJoke_ok_true (env : Env) (self : FilteredJoke) (lang : String) (joke : Joke)
    (hc : self.checkJoke env lang joke = .ok true) :
    passesBeforeSearch env self joke = true ∧
      self.checkMatchesSearchString env.host joke lang = .ok true ∧
      languageOk env self joke = true := by
  rw [checkJoke_eq] at hc
  by_cases hp : passesBeforeSearch env self joke = true
  · rw [if_pos hp] at hc
    cases hs : self.checkMatchesSearchString env.host joke lang with
    | error err =>
      rw [hs] at hc
      cases hc
    | ok b =>
      rw [hs] at hc
      injection hc with hc
      rw [Bool.and_eq_true] at hc
      rw [hc.1]
      exact ⟨hp, rfl, hc.2⟩
  · rw [if_neg hp] at hc
    cases hc

/-- A joke reaches the `push` iff it passes all seven predicates. -/
theorem checkJoke_eq_passesAll (env : Env) (self : FilteredJoke) (lang : String) (joke : Joke) :
    decide (self.checkJoke env lang joke = .ok true) = passesAllFilters env self lang joke := by
  rw [checkJoke_eq]
  unfold passesAllFilters searchOk
  by_cases hp : passesBeforeSearch env self joke = true
  · rw [if_pos hp, hp]
    cases hs : self.checkMatchesSearchString env.host joke lang with
    | error err => simp
    | ok b => cases b <;> cases languageOk env self joke <;> simp
  · rw [if_neg hp]
    rw [Bool.not_eq_true] at hp
    rw [hp]
    simp

/-- C1: every joke `getJokes` resolves with, in the branch returning the whole set
and in the branch selecting at random, has its ID inside the ID range, its
lower-cased category among `getAllowedCategories()` unless that list holds the
lower-cased any-category, no blacklisted flag set to true, and an allowed type. -/
theorem C1_getJokes_resolved_pass_filters (env : Env) (self : FilteredJoke)
    (globals : Globals) (rand : Nat → Nat) (ip langCode : String) (amount : Option Int)
    (jokes : List Joke)
    (hres : (self.getJokes env globals rand ip langCode amount).settled = .resolved jokes)
    (joke : Joke) (hjoke : joke ∈ jokes) :
    (self.getIdRange.start ≤ (joke.id : ℚ) ∧ (joke.id : ℚ) ≤ self.getIdRange.stop) ∧
      (env.host.toLowerCase joke.category ∈ self.getAllowedCategories env.host ∨
        env.host.toLowerCase settings.anyCategoryName ∈ self.getAllowedCategories env.host) ∧
      (∀ f ∈ self.getBlacklistFlags, (f, true) ∉ joke.flags) ∧
      joke.type ∈ self.getAllowedTypes := by
  obtain ⟨filteredJokes, hf, hsub⟩ :=
    getJokes_resolved env self globals rand ip langCode amount jokes hres
  obtain ⟨_, hc⟩ := applyFilters_resolved env self ip _ filteredJokes hf joke (hsub joke hjoke)
  obtain ⟨hp, _, _⟩ := checkJoke_ok_true env self _ joke hc
  obtain ⟨_, h2, h3, h4, h5⟩ := (passesBeforeSearch_iff env self joke).mp hp
  exact ⟨h2, h3.symm, h4, h5⟩

/-- Witness of C1 on the example corpus: one joke requested out of three, the
random index `1` selects the second joke. -/
theorem C1_witness :
    ((criteriaWithSearch "").getJokes (exampleEnv []) noGlobals (fun _ => 1) "client" "en"
        (some 1)).settled = .resolved [exampleJokeB] ∧
      ((criteriaWithSearch "").getIdRange.start ≤ (exampleJokeB.id : ℚ) ∧
        (exampleJokeB.id : ℚ) ≤ (criteriaWithSearch "").getIdRange.stop) ∧
      (asciiHost.toLowerCase exampleJokeB.category ∈
          (criteriaWithSearch "").getAllowedCategories asciiHost ∨
        asciiHost.toLowerCase settings.anyCategoryName ∈
          (criteriaWithSearch "").getAllowedCategories asciiHost) ∧
      (∀ f ∈ (criteriaWithSearch "").getBlacklistFlags, (f, true) ∉ exampleJokeB.flags) ∧
      exampleJokeB.type ∈ (criteriaWithSearch "").getAllowedTypes :=
  ⟨by decide,
    C1_getJokes_resolved_pass_filters (exampleEnv []) (criteriaWithSearch "") noGlobals
      (fun _ => 1) "client" "en" (some 1) [exampleJokeB] (by decide) exampleJokeB
      (List.mem_singleton.mpr rfl)⟩

/-- C2: with safe mode on, every joke in the array `_applyFilters` resolves with,
and every joke in the array `getJokes` resolves with, has `safe === true` and a
category other than `Dark`. -/
theorem C2_safe_mode_only_safe_jokes (env : Env) (self : FilteredJoke)
    (globals : Globals) (rand : Nat → Nat) (ip langCode : String) (lang : Option String)
    (amount : Option Int) (hsafe : self.getSafeMode = true) :
    (∀ jokes, self._applyFilters env ip lang = .resolved jokes →
        ∀ joke ∈ jokes, joke.safe = true ∧ joke.category ≠ "Dark") ∧
      (∀ jokes, (self.getJokes env globals rand ip langCode amount).settled = .resolved jokes →
        ∀ joke ∈ jokes, joke.safe = true ∧ joke.category ≠ "Dark") := by
  have key : ∀ (l : Option String) (filteredJokes : List Joke),
      self._applyFilters env ip l = .resolved filteredJokes →
      ∀ joke ∈ filteredJokes, joke.safe = true ∧ joke.category ≠ "Dark" := by
    intro l filteredJokes hf joke hjoke
    obtain ⟨_, hc⟩ := applyFilters_resolved env self ip l filteredJokes hf joke hjoke
    obtain ⟨hp, _, _⟩ := checkJoke_ok_true env self _ joke hc
    exact ((passesBeforeSearch_iff env self joke).mp hp).1 hsafe
  refine ⟨key lang, ?_⟩
  intro jokes hres joke hjoke
  obtain ⟨filteredJokes, hf, hsub⟩ :=
    getJokes_resolved env self globals rand ip langCode amount jokes hres
  exact key _ filteredJokes hf joke (hsub joke hjoke)

/-- Witness of C2: the example corpus filtered with safe mode on keeps the two safe
jokes and drops the joke of the category `Dark`. -/
theorem C2_witness :
    ({ criteriaWithSearch "" with _safeMode := true } : FilteredJoke).getSafeMode = true ∧
      ({ criteriaWithSearch "" with _safeMode := true } : FilteredJoke)._applyFilters
        (exampleEnv []) "client" (some "en") = .resolved [exampleJokeA, exampleJokeC] ∧
      (exampleJokeC.safe = true ∧ exampleJokeC.category ≠ "Dark") :=
  ⟨by decide, by decide,
    (C2_safe_mode_only_safe_jokes (exampleEnv [])
      { criteriaWithSearch "" with _safeMode := true } noGlobals (fun _ => 0) "client" "en"
      (some "en") (some 1) (by decide)).1 [exampleJokeA, exampleJokeC] (by decide)
      exampleJokeC (by decide)⟩

/-- C3 (code at the failing input): the constructor creates `_idRange` and
`_initialIdRange` as two array objects, so `this._idRange == this._initialIdRange`
is false although the range is the untouched default, and the joke with ID 1,
which is on the cache list of the client, is in the array `_applyFilters`
resolves with and is the joke `getJokes` returns. -/
theorem C3_cached_joke_is_returned :
    FilteredJoke.new asciiHost [("en", 3)] = some freshCriteria ∧
      (criteriaWithSearch "")._idRange = freshCriteria._idRange ∧
      (criteriaWithSearch "")._idRange.looseEq (criteriaWithSearch "")._initialIdRange = false ∧
      (exampleEnv [1]).listEntries "client" "en" = .ok [1] ∧
      (criteriaWithSearch "")._applyFilters (exampleEnv [1]) "client" (some "en") =
        .resolved [exampleJokeA, exampleJokeB, exampleJokeC] ∧
      ((criteriaWithSearch "").getJokes (exampleEnv [1]) noGlobals (fun _ => 1) "client" "en"
        (some 1)).settled = .resolved [exampleJokeB] ∧
      exampleJokeB.id = 1 := by
  decide

/-- C4: when the cache list is empty and the search check throws for no joke of
the corpus array, `_applyFilters` resolves with the corpus array filtered by the
conjunction of the seven predicates: the jokes that pass, each once, in corpus
order. -/
theorem C4_applyFilters_is_order_preserving_filter (env : Env) (self : FilteredJoke)
    (ip : String) (lang : Option String)
    (hcache : env.listEntries ip (effectiveLang lang) = .ok [])
    (hsearch : ∀ joke ∈ env.getJokeArray (effectiveLang lang),
      ∃ b, self.checkMatchesSearchString env.host joke (effectiveLang lang) = .ok b) :
    self._applyFilters env ip lang =
      .resolved ((env.getJokeArray (effectiveLang lang)).filter
        (passesAllFilters env self (effectiveLang lang))) := by
  have hwc : self.withoutCached [] (env.getJokeArray (effectiveLang lang)) =
      env.getJokeArray (effectiveLang lang) := by
    unfold FilteredJoke.withoutCached
    split
    · simp
    · rfl
  have hok : ∀ j ∈ env.getJokeArray (effectiveLang lang),
      ∃ b, self.checkJoke env (effectiveLang lang) j = .ok b := by
    intro j hj
    obtain ⟨b, hb⟩ := hsearch j hj
    rw [checkJoke_eq, hb]
    by_cases hp : passesBeforeSearch env self j = true
    · rw [if_pos hp]
      exact ⟨_, rfl⟩
    · rw [if_neg hp]
      exact ⟨_, rfl⟩
  unfold FilteredJoke._applyFilters
  dsimp only
  rw [hcache]
  dsimp only
  rw [hwc, forEach_all_ok env self _ _ _ rfl hok]
  dsimp only
  rw [List.nil_append]
  congr 1
  apply List.filter_congr
  intro j _
  exact checkJoke_eq_passesAll env self _ j

/-- Witness of C4: the example corpus searched for `b`. -/
theorem C4_witness :
    (exampleEnv []).listEntries "client" (effectiveLang (some "en")) = .ok [] ∧
      (criteriaWithSearch "b")._applyFilters (exampleEnv []) "client" (some "en") =
        .resolved (((exampleEnv []).getJokeArray (effectiveLang (some "en"))).filter
          (passesAllFilters (exampleEnv []) (criteriaWithSearch "b")
            (effectiveLang (some "en")))) ∧
      ((exampleEnv []).getJokeArray (effectiveLang (some "en"))).filter
          (passesAllFilters (exampleEnv []) (criteriaWithSearch "b")
            (effectiveLang (some "en"))) = [exampleJokeA, exampleJokeC] :=
  ⟨by decide,
    C4_applyFilters_is_order_preserving_filter (exampleEnv []) (criteriaWithSearch "b")
      "client" (some "en") (by decide) (by decide),
    by decide⟩

/-- When the search string holds a wildcard and the compiled pattern fails the safety check, the
search check throws the `patternTooComplex` error for every joke. -/
theorem checkMatches_tooComplex (h : Host) (self : FilteredJoke) (s : String)
    (hs : self._searchString = some s)
    (hop : includes s (String.singleton settings.wildcard) = true)
    (hbad : (searchRegex h s).map (fun re => re.safe settings.regexRepetitionLimit) =
      .ok false)
    (joke : Joke) (lang : String) :
    self.checkMatchesSearchString h joke lang =
      .error (.tr lang "patternTooComplex" [s, toString settings.regexRepetitionLimit]) := by
  have hne : s ≠ "" := by
    intro he
    rw [he] at hop
    revert hop
    decide
  cases hre : searchRegex h s with
  | error err =>
    rw [hre] at hbad
    cases hbad
  | ok re =>
    rw [hre] at hbad
    have hsafe : re.safe settings.regexRepetitionLimit = false := by
      injection hbad
    unfold FilteredJoke.checkMatchesSearchString FilteredJoke.getSearchString
    simp only [hs, Bool.not_true, Bool.false_eq_true, if_false]
    have hred : reduce (containsOperatorCallback (some s)) searchStringOperatorValues =
        .ok (.bool true) := by
      unfold reduce searchStringOperatorValues containsOperatorCallback
      simp only [List.foldlM, JSVal.toStr, hop]
      rfl
    simp only [bind, Except.bind, hred, isEmptySearch, hne, decide_False, Bool.not_false,
      if_true, JSVal.truthy, Bool.not_true, Bool.false_eq_true, if_false, Option.getD_some,
      hre, hsafe]
    rfl

/-- A rejection of `_applyFilters` is passed on by `getJokes`. -/
theorem getJokes_of_rejected (env : Env) (self : FilteredJoke) (globals : Globals)
    (rand : Nat → Nat) (ip langCode : String) (amount : Option Int) (reason : Rejection)
    (hrej : self._applyFilters env ip
      (some (if self._lang = "" then settings.defaultLanguage else self._lang)) =
        .rejected reason) :
    (self.getJokes env globals rand ip langCode amount).settled = .rejected reason := by
  unfold FilteredJoke.getJokes
  dsimp only
  rw [hrej]

/-- C5 (counterexample): the pattern compiled from a search string of eleven
wildcards fails the safety check, yet with allowed categories that no joke of the
corpus has, `_applyFilters` resolves with the empty array and `getJokes` rejects
with the `foundNoMatchingJokes` message, not with `patternTooComplex`. -/
theorem C5_counterexample :
    (searchRegex asciiHost "***********").map
        (fun re => re.safe settings.regexRepetitionLimit) = .ok false ∧
      ({ criteriaWithSearch "***********" with _allowedCategories := ["Christmas"] } :
        FilteredJoke)._applyFilters (exampleEnv []) "client" (some "en") = .resolved [] ∧
      (({ criteriaWithSearch "***********" with _allowedCategories := ["Christmas"] } :
        FilteredJoke).getJokes (exampleEnv []) noGlobals (fun _ => 0) "client" "en"
          (some 1)).settled =
        .rejected (.message (.tr "en" "foundNoMatchingJokes" [])) ∧
      (({ criteriaWithSearch "***********" with _allowedCategories := ["Christmas"] } :
        FilteredJoke).getJokes (exampleEnv []) noGlobals (fun _ => 0) "client" "en"
          (some 1)).settled ≠
        .rejected (.message (.tr "en" "patternTooComplex" ["***********", "10"])) := by
  decide

/-- C5 (amended): when the pattern compiled from the search string fails the safety
check, the search check throws the `patternTooComplex` error for every joke,
before any match is attempted. Once the cache lookup has resolved, `_applyFilters`
and `getJokes` reject with that message if some joke of the array passes the five
filters tested before the search string; if none does, the search check is not
reached and `_applyFilters` resolves with the empty array. -/
theorem C5_rejects_when_a_joke_reaches_the_search (env : Env) (self : FilteredJoke)
    (ip : String) (lang : Option String) (s : String) (cacheIdList : List Int)
    (hs : self._searchString = some s)
    (hop : includes s (String.singleton settings.wildcard) = true)
    (hbad : (searchRegex env.host s).map (fun re => re.safe settings.regexRepetitionLimit) =
      .ok false)
    (hcache : env.listEntries ip (effectiveLang lang) = .ok cacheIdList) :
    (∀ joke l, self.checkMatchesSearchString env.host joke l =
        .error (.tr l "patternTooComplex" [s, toString settings.regexRepetitionLimit])) ∧
      ((∃ joke ∈ self.withoutCached cacheIdList (env.getJokeArray (effectiveLang lang)),
          passesBeforeSearch env self joke = true) →
        self._applyFilters env ip lang =
            .rejected (.message (.tr (effectiveLang lang) "patternTooComplex"
              [s, toString settings.regexRepetitionLimit])) ∧
          ∀ globals rand langCode amount,
            lang = some (if self._lang = "" then settings.defaultLanguage else self._lang) →
            (self.getJokes env globals rand ip langCode amount).settled =
              .rejected (.message (.tr (effectiveLang lang) "patternTooComplex"
                [s, toString settings.regexRepetitionLimit]))) ∧
      ((∀ joke ∈ self.withoutCached cacheIdList (env.getJokeArray (effectiveLang lang)),
          passesBeforeSearch env self joke = false) →
        self._applyFilters env ip lang = .resolved []) := by
  have hthrow := checkMatches_tooComplex env.host self s hs hop hbad
  have hcheck : ∀ joke, self.checkJoke env (effectiveLang lang) joke =
      if passesBeforeSearch env self joke then
        .error (.tr (effectiveLang lang) "patternTooComplex"
          [s, toString settings.regexRepetitionLimit])
      else .ok false := by
    intro joke
    rw [checkJoke_eq, hthrow]
  refine ⟨hthrow, ?_, ?_⟩
  · intro hex
    have hrej : self._applyFilters env ip lang =
        .rejected (.message (.tr (effectiveLang lang) "patternTooComplex"
          [s, toString settings.regexRepetitionLimit])) := by
      unfold FilteredJoke._applyFilters
      dsimp only
      rw [hcache]
      dsimp only
      rw [forEach_reject env self (effectiveLang lang)
        (.tr (effectiveLang lang) "patternTooComplex"
          [s, toString settings.regexRepetitionLimit]) _ _ rfl rfl]
      · obtain ⟨joke, hj, hp⟩ := hex
        exact ⟨joke, hj, _, by rw [hcheck, if_pos hp]⟩
      · intro joke _ err herr
        rw [hcheck] at herr
        by_cases hp : passesBeforeSearch env self joke = true
        · rw [if_pos hp] at herr
          injection herr with herr
          exact herr.symm
        · rw [if_neg hp] at herr
          cases herr
    refine ⟨hrej, ?_⟩
    intro globals rand langCode amount hlang
    apply getJokes_of_rejected
    rw [← hlang]
    exact hrej
  · intro hnone
    unfold FilteredJoke._applyFilters
    dsimp only
    rw [hcache]
    dsimp only
    rw [forEach_all_ok env self _ _ _ rfl]
    · dsimp only
      rw [List.nil_append]
      congr 1
      apply List.filter_eq_nil_iff.mpr
      intro joke hj
      rw [hcheck, hnone joke hj]
      simp
    · intro joke hj
      rw [hcheck, hnone joke hj]
      exact ⟨false, rfl⟩

/-- Witness of C5 (amended): on the example corpus with the default filters, the
search string of eleven wildcards makes `_applyFilters` and `getJokes` reject with
the `patternTooComplex` message. -/
theorem C5_witness :
    (criteriaWithSearch "***********")._applyFilters (exampleEnv []) "client" (some "en") =
        .rejected (.message (.tr "en" "patternTooComplex" ["***********", "10"])) ∧
      ((criteriaWithSearch "***********").getJokes (exampleEnv []) noGlobals (fun _ => 0)
          "client" "en" (some 1)).settled =
        .rejected (.message (.tr "en" "patternTooComplex" ["***********", "10"])) :=
  have h := (C5_rejects_when_a_joke_reaches_the_search (exampleEnv [])
    (criteriaWithSearch "***********") "client" (some "en") "***********" [] rfl
    (by decide) (by decide) (by decide)).2.1 ⟨exampleJokeA, by decide, by decide⟩
  ⟨h.1, h.2 noGlobals (fun _ => 0) "en" (some 1) (by decide)⟩

/-- C6: when `_applyFilters` resolves with the empty array, `getJokes` rejects, with
the array `_errors` if it is non-empty and with the translated
`foundNoMatchingJokes` message otherwise; it does not resolve. -/
theorem C6_empty_match_rejects (env : Env) (self : FilteredJoke) (globals : Globals)
    (rand : Nat → Nat) (ip langCode : String) (amount : Option Int)
    (hempty : self._applyFilters env ip
      (some (if self._lang = "" then settings.defaultLanguage else self._lang)) =
        .resolved []) :
    (self.getJokes env globals rand ip langCode amount).settled =
        (if self._errors ≠ [] then .rejected (.errors self._errors)
          else .rejected (.message (.tr self.getLanguage "foundNoMatchingJokes" []))) ∧
      ∀ jokes, (self.getJokes env globals rand ip langCode amount).settled ≠
        .resolved jokes := by
  have hset : (self.getJokes env globals rand ip langCode amount).settled =
      (if self._errors ≠ [] then .rejected (.errors self._errors)
        else .rejected (.message (.tr self.getLanguage "foundNoMatchingJokes" []))) := by
    unfold FilteredJoke.getJokes
    dsimp only
    rw [hempty]
    dsimp only
    rw [if_pos List.length_nil]
    by_cases he : self._errors = []
    · rw [he]
      rfl
    · rw [if_pos (List.length_pos.mpr he), if_pos he]
  refine ⟨hset, ?_⟩
  intro jokes hres
  rw [hset] at hres
  by_cases he : self._errors ≠ []
  · rw [if_pos he] at hres
    cases hres
  · rw [if_neg he] at hres
    cases hres

/-- Witness of C6: allowed categories that no joke of the example corpus has, once
with a recorded validation error and once without. -/
theorem C6_witness :
    ({ criteriaWithSearch "" with
        _allowedCategories := ["Christmas"]
        _errors := ["The \"type\" parameter is invalid"] } : FilteredJoke)._applyFilters
        (exampleEnv []) "client" (some "en") = .resolved [] ∧
      (({ criteriaWithSearch "" with
          _allowedCategories := ["Christmas"]
          _errors := ["The \"type\" parameter is invalid"] } : FilteredJoke).getJokes
          (exampleEnv []) noGlobals (fun _ => 0) "client" "en" (some 1)).settled =
        .rejected (.errors ["The \"type\" parameter is invalid"]) :=
  ⟨by decide,
    (C6_empty_match_rejects (exampleEnv [])
      { criteriaWithSearch "" with
        _allowedCategories := ["Christmas"]
        _errors := ["The \"type\" parameter is invalid"] }
      noGlobals (fun _ => 0) "client" "en" (some 1) (by decide)).1⟩

/-- C7 (code at the failing input): right after construction the search string is
`null`, and `checkMatchesSearchString` throws the `TypeError` of
`searchStr.includes(op)` before it reaches the test for an empty search string;
`_applyFilters` then rejects with that message. With the empty string set, the
check returns `true`. -/
theorem C7_unset_search_string_throws :
    FilteredJoke.new asciiHost [("en", 3)] = some freshCriteria ∧
      freshCriteria._searchString = none ∧
      freshCriteria.checkMatchesSearchString asciiHost exampleJokeA "en" =
        .error nullIncludes ∧
      freshCriteria._applyFilters (exampleEnv []) "client" (some "en") =
        .rejected (.message nullIncludes) ∧
      (criteriaWithSearch "").checkMatchesSearchString asciiHost exampleJokeA "en" =
        .ok true := by
  decide

/-- C8 (code at the failing input): only the joke text is lower-cased. For the
search string `Foo` and the joke text `foo bar` the check returns `false`, although
the lower-cased text contains the lower-cased search string. -/
theorem C8_search_string_not_lowercased :
    exampleJokeA.type = "single" ∧ exampleJokeA.joke = "foo bar" ∧
      includes "Foo" (String.singleton settings.wildcard) = false ∧
      includes "Foo" (String.singleton settings.orOperator) = false ∧
      (criteriaWithSearch "Foo").checkMatchesSearchString asciiHost exampleJokeA "en" =
        .ok false ∧
      includes (asciiHost.toLowerCase exampleJokeA.joke) (asciiHost.toLowerCase "Foo") =
        true := by
  decide

/-- C9 (code at the failing input): `reduce` hands the callback the accumulator,
which is the wildcard, so only the wildcard is looked for. The search string `a|b`
is not recognised as holding an operator: the joke whose text is `a` does not
match, while a joke whose text contains the characters `a|b` does; the expression
compiled from `a|b` would have matched the text `a`. -/
theorem C9_or_operator_not_detected :
    reduce (containsOperatorCallback (some "a|b")) searchStringOperatorValues =
        .ok (.bool false) ∧
      exampleJokeB.type = "single" ∧ exampleJokeB.joke = "a" ∧
      (criteriaWithSearch "a|b").checkMatchesSearchString asciiHost exampleJokeB "en" =
        .ok false ∧
      (criteriaWithSearch "a|b").checkMatchesSearchString asciiHost
        { exampleJokeB with joke := "xa|by" } "en" = .ok true ∧
      (searchRegex asciiHost "a|b").map (fun re => re.isMatch "a") = .ok true := by
  decide

/-- The terms `.*$` match from every position. -/
theorem starLoop_any_eol (canon : Char → Char) (prev : Option Char) (rest : List Char) :
    starLoop (Atom.any.test canon) (matchFrom canon [.eol]) prev rest = true := by
  induction rest generalizing prev with
  | nil => rfl
  | cons c r ih =>
    unfold starLoop
    by_cases hc : isLineTerminator c = true
    · have : matchFrom canon [.eol] prev (c :: r) = true := by
        simp [matchFrom, atLineEnd, hc]
      rw [this]
      rfl
    · have : Atom.any.test canon c = true := by
        simp [Atom.test, hc]
      rw [this, ih]
      simp

/-- The pattern `^.*$` finds a match in every text. -/
theorem searchFrom_wildcard_only (canon : Char → Char) (text : List Char) :
    searchFrom canon [[.bol, .star .any, .eol]] none text = true := by
  have hm : matchFrom canon [.bol, .star .any, .eol] none text = true := by
    simp only [matchFrom, atLineStart, Bool.true_and]
    exact starLoop_any_eol canon none text
  cases text with
  | nil => simp [searchFrom, hm]
  | cons c r => simp [searchFrom, hm]

/-- C10: for the search string `*`, `checkMatchesSearchString` returns `true`,
without throwing, for every joke of type `single` or `twopart`, whatever its
text. -/
theorem C10_wildcard_only_matches_all (h : Host) (self : FilteredJoke) (joke : Joke)
    (lang : String) (hs : self._searchString = some "*")
    (ht : joke.type = "single" ∨ joke.type = "twopart") :
    self.checkMatchesSearchString h joke lang = .ok true := by
  have hre : searchRegex h "*" = .ok
      { safe := safeRegexFragment [[.bol, .star .any, .eol]]
        isMatch := fun text =>
          searchFrom h.canonicalize [[.bol, .star .any, .eol]] none text.data } := by
    rfl
  have hred : reduce (containsOperatorCallback (some "*")) searchStringOperatorValues =
      .ok (.bool true) := by
    decide
  have hsafe : safeRegexFragment [[.bol, .star .any, .eol]] settings.regexRepetitionLimit =
      true := by
    decide
  unfold FilteredJoke.checkMatchesSearchString FilteredJoke.getSearchString
  simp only [hs, Bool.not_true, Bool.false_eq_true, if_false]
  simp only [bind, Except.bind, hred, JSVal.truthy, Option.getD_some, hre, hsafe,
    searchFrom_wildcard_only, Bool.and_true, Bool.not_true, Bool.false_eq_true, if_false,
    if_true]
  have hne : isEmptySearch (some "*") = false := by decide
  rw [hne]
  rcases ht with ht | ht
  · simp [ht, pure, Except.pure]
  · simp [ht, pure, Except.pure]

/-- Witness of C10: the second part of the example joke of type `twopart` holds a
newline. -/
theorem C10_witness :
    (criteriaWithSearch "*")._searchString = some "*" ∧
      (exampleJokeC.type = "single" ∨ exampleJokeC.type = "twopart") ∧
      (criteriaWithSearch "*").checkMatchesSearchString asciiHost exampleJokeC "en" =
        .ok true :=
  ⟨by decide, by decide,
    C10_wildcard_only_matches_all asciiHost (criteriaWithSearch "*") exampleJokeC "en"
      (by decide) (by decide)⟩

/-! ## Lemmas on the selection -/

/-- When the loop ends without a call of `reject`, the callback threw for no joke of
the array. -/
theorem forEach_no_rejection (env : Env) (self : FilteredJoke) (lang : String)
    (l : List Joke) (st : FilterLoop) (hst : st.isErrored = false)
    (hnone : (l.foldl (self.forEachStep env lang) st).rejection = none) :
    ∀ j ∈ l, ∃ b, self.checkJoke env lang j = .ok b := by
  induction l generalizing st with
  | nil =>
    intro j hj
    exact absurd hj (List.not_mem_nil j)
  | cons x l ih =>
    rw [List.foldl_cons] at hnone
    cases hc : self.checkJoke env lang x with
    | error err =>
      exfalso
      have hstep : self.forEachStep env lang st x =
          { st with isErrored := true, rejection := some (st.rejection.getD err) } := by
        unfold FilteredJoke.forEachStep
        rw [hst, hc]
        rfl
      rw [hstep, forEach_errored _ _ _ _ _ rfl] at hnone
      cases hnone
    | ok b =>
      have hstep : (self.forEachStep env lang st x).isErrored = false := by
        unfold FilteredJoke.forEachStep
        rw [hst, hc]
        cases b <;> first | exact hst | rfl
      intro j hj
      rcases List.mem_cons.mp hj with h | h
      · rw [h]
        exact ⟨b, hc⟩
      · exact ih _ hstep hnone j h

/-- The array `_applyFilters` resolves with is the corpus array, less the cached
jokes when the cache section runs, filtered by the seven predicates. -/
theorem applyFilters_resolved_eq (env : Env) (self : FilteredJoke) (ip : String)
    (lang : Option String) (jokes : List Joke)
    (hres : self._applyFilters env ip lang = .resolved jokes) :
    ∃ cacheIdList, env.listEntries ip (effectiveLang lang) = .ok cacheIdList ∧
      jokes = (self.withoutCached cacheIdList (env.getJokeArray (effectiveLang lang))).filter
        (passesAllFilters env self (effectiveLang lang)) := by
  unfold FilteredJoke._applyFilters at hres
  dsimp only at hres
  cases hl : env.listEntries ip (effectiveLang lang) with
  | error err =>
    rw [hl] at hres
    cases hres
  | ok cacheIdList =>
    rw [hl] at hres
    dsimp only at hres
    refine ⟨cacheIdList, rfl, ?_⟩
    split at hres
    · cases hres
    · rename_i hnone
      have hok := forEach_no_rejection env self _ _ _ rfl hnone
      rw [forEach_all_ok env self _ _ _ rfl hok] at hres
      injection hres with hres
      rw [← hres]
      dsimp only
      rw [List.nil_append]
      apply List.filter_congr
      intro j _
      exact checkJoke_eq_passesAll env self _ j

/-- Removing the cached jokes keeps a sublist of the array. -/
theorem withoutCached_sublist (self : FilteredJoke) (cacheIdList : List Int)
    (jokesArray : List Joke) :
    (self.withoutCached cacheIdList jokesArray).Sublist jokesArray := by
  unfold FilteredJoke.withoutCached
  split
  · exact List.filter_sublist _
  · exact List.Sublist.refl _

/-- C14: when the matched set is not empty and `amount` is at least its size,
`getJokes` resolves with the whole matched set, a sublist of the corpus array (each
matched joke once, in corpus order), and leaves `_lastIDs` and the retry counter as
they were, whatever they hold. -/
theorem C14_whole_set_when_amount_suffices (env : Env) (self : FilteredJoke)
    (globals : Globals) (rand : Nat → Nat) (ip langCode : String) (amount : Option Int)
    (matched : List Joke)
    (hmatched : self._applyFilters env ip
      (some (if self._lang = "" then settings.defaultLanguage else self._lang)) =
        .resolved matched)
    (hpos : 0 < matched.length)
    (hamount : (matched.length : Int) ≤ amount.getD 1) :
    (self.getJokes env globals rand ip langCode amount).settled = .resolved matched ∧
      (self.getJokes env globals rand ip langCode amount).globals = globals ∧
      matched.Sublist (env.getJokeArray (effectiveLang
        (some (if self._lang = "" then settings.defaultLanguage else self._lang)))) := by
  have hsub : matched.Sublist (env.getJokeArray (effectiveLang
      (some (if self._lang = "" then settings.defaultLanguage else self._lang)))) := by
    obtain ⟨cacheIdList, _, heq⟩ := applyFilters_resolved_eq env self ip _ matched hmatched
    rw [heq]
    exact (List.filter_sublist _).trans (withoutCached_sublist self _ _)
  unfold FilteredJoke.getJokes
  dsimp only
  rw [hmatched]
  dsimp only
  rw [if_neg (Nat.pos_iff_ne_zero.mp hpos), if_neg (not_lt.mpr hamount)]
  exact ⟨rfl, rfl, hsub⟩

/-- Witness of C14: three jokes requested from the three matched jokes of the
example corpus. -/
theorem C14_witness :
    (criteriaWithSearch "")._applyFilters (exampleEnv []) "client" (some "en") =
        .resolved [exampleJokeA, exampleJokeB, exampleJokeC] ∧
      ((criteriaWithSearch "").getJokes (exampleEnv []) noGlobals (fun _ => 1) "client" "en"
        (some 3)).settled = .resolved [exampleJokeA, exampleJokeB, exampleJokeC] ∧
      ((criteriaWithSearch "").getJokes (exampleEnv []) noGlobals (fun _ => 1) "client" "en"
        (some 3)).globals = noGlobals :=
  have h := C14_whole_set_when_amount_suffices (exampleEnv []) (criteriaWithSearch "")
    noGlobals (fun _ => 1) "client" "en" (some 3) [exampleJokeA, exampleJokeB, exampleJokeC]
    (by decide) (by decide) (by decide)
  ⟨by decide, h.1, h.2.1⟩

/-- A pick that returns a joke returns one whose ID is not yet among the IDs
selected for this response, and appends that ID; any other pick leaves
`multiSelectLastIDs` as it was. -/
theorem selectRandomJokeAux_multi (rand : Nat → Nat) (fuel : Nat) (s : Selection) :
    (∀ j, (selectRandomJokeAux rand fuel s).1 = .joke j →
        j.id ∉ s.multiSelectLastIDs ∧
          (selectRandomJokeAux rand fuel s).2.multiSelectLastIDs =
            s.multiSelectLastIDs ++ [j.id]) ∧
      ((∀ j, (selectRandomJokeAux rand fuel s).1 ≠ .joke j) →
        (selectRandomJokeAux rand fuel s).2.multiSelectLastIDs = s.multiSelectLastIDs) := by
  induction fuel generalizing s with
  | zero =>
    unfold selectRandomJokeAux
    exact ⟨fun j hj => (by cases hj), fun _ => rfl⟩
  | succ fuel ih =>
    unfold selectRandomJokeAux
    cases hjs : s.jokes with
    | nil =>
      dsimp only
      exact ⟨fun j hj => (by cases hj), fun _ => rfl⟩
    | cons first others =>
      dsimp only
      split_ifs <;> first | exact ih _ | simp_all

/-- The IDs of the jokes collected by the selection loop are the IDs in
`multiSelectLastIDs`, which holds no ID twice. -/
theorem selectLoop_ids (rand : Nat → Nat) (count : Nat) (s : Selection)
    (retJokes : List Joke) (hinv : retJokes.map (fun j => j.id) = s.multiSelectLastIDs)
    (hnodup : s.multiSelectLastIDs.Nodup) :
    (selectLoop rand count s retJokes).2.2.map (fun j => j.id) =
        (selectLoop rand count s retJokes).2.1.multiSelectLastIDs ∧
      (selectLoop rand count s retJokes).2.1.multiSelectLastIDs.Nodup := by
  induction count generalizing s retJokes with
  | zero => exact ⟨hinv, hnodup⟩
  | succ count ih =>
    unfold selectLoop
    obtain ⟨hjoke, hother⟩ := selectRandomJokeAux_multi rand s.jokes.length s
    unfold selectRandomJoke
    cases hp : selectRandomJokeAux rand s.jokes.length s with
    | mk pick s1 =>
      rw [hp] at hjoke hother
      cases pick with
      | thrown err =>
        dsimp only
        have h := hother (fun j hj => by cases hj)
        dsimp only at h
        rw [h]
        exact ⟨hinv, hnodup⟩
      | undefined =>
        dsimp only
        have h := hother (fun j hj => by cases hj)
        dsimp only at h
        exact ih s1 retJokes (by rw [h]; exact hinv) (by rw [h]; exact hnodup)
      | joke rJoke =>
        dsimp only
        obtain ⟨hnot, h⟩ := hjoke rJoke rfl
        dsimp only at h
        apply ih s1 (retJokes ++ [rJoke])
        · rw [h, List.map_append, hinv]
          rfl
        · rw [h]
          apply List.Nodup.append hnodup (List.nodup_singleton _)
          intro a ha hb
          rw [List.mem_singleton] at hb
          rw [hb] at ha
          exact hnot ha

/-- C15: when the jokes of the matched set have pairwise distinct IDs, no ID occurs
twice in the array `getJokes` resolves with, for every amount, every content of the
recency buffer and of the retry counter, and every sequence of random numbers. -/
theorem C15_resolved_ids_distinct (env : Env) (self : FilteredJoke) (globals : Globals)
    (rand : Nat → Nat) (ip langCode : String) (amount : Option Int)
    (matched jokes : List Joke)
    (hmatched : self._applyFilters env ip
      (some (if self._lang = "" then settings.defaultLanguage else self._lang)) =
        .resolved matched)
    (hdistinct : (matched.map fun j => j.id).Nodup)
    (hres : (self.getJokes env globals rand ip langCode amount).settled = .resolved jokes) :
    (jokes.map fun j => j.id).Nodup := by
  unfold FilteredJoke.getJokes at hres
  dsimp only at hres
  rw [hmatched] at hres
  dsimp only at hres
  by_cases h1 : matched.length = 0
  · rw [if_pos h1] at hres
    by_cases h2 : self._errors.length > 0
    · rw [if_pos h2] at hres
      cases hres
    · rw [if_neg h2] at hres
      cases hres
  rw [if_neg h1] at hres
  by_cases h3 : amount.getD 1 < (matched.length : Int)
  · rw [if_pos h3] at hres
    have hids := selectLoop_ids rand ((amount.getD 1).toNat)
      { jokes := matched, globals := globals, multiSelectLastIDs := [],
        draws := 0, rejected := false } [] rfl List.nodup_nil
    revert hres hids
    cases selectLoop rand ((amount.getD 1).toNat)
      { jokes := matched, globals := globals, multiSelectLastIDs := [],
        draws := 0, rejected := false } [] with
    | mk err rest =>
      cases rest with
      | mk s retJokes =>
        intro hres hids
        cases err with
        | some e =>
          dsimp only at hres
          by_cases hr : s.rejected = true
          · rw [if_pos hr] at hres
            cases hres
          · rw [if_neg hr] at hres
            cases hres
        | none =>
          dsimp only at hres
          by_cases hr : s.rejected = true
          · rw [if_pos hr] at hres
            cases hres
          · rw [if_neg hr] at hres
            injection hres with hres
            rw [← hres, hids.1]
            exact hids.2
  · rw [if_neg h3] at hres
    injection hres with hres
    rw [← hres]
    exact hdistinct

/-- Witness of C15: two jokes requested from the example corpus with the random
index `1` drawn every time; the second pick first draws the joke already selected,
drops it and selects another one. -/
theorem C15_witness :
    ((criteriaWithSearch "").getJokes (exampleEnv []) noGlobals (fun _ => 1) "client" "en"
        (some 2)).settled = .resolved [exampleJokeB, exampleJokeC] ∧
      ([exampleJokeB, exampleJokeC].map fun j => j.id).Nodup :=
  ⟨by decide,
    C15_resolved_ids_distinct (exampleEnv []) (criteriaWithSearch "") noGlobals (fun _ => 1)
      "client" "en" (some 2) [exampleJokeA, exampleJokeB, exampleJokeC]
      [exampleJokeB, exampleJokeC] (by decide) (by decide) (by decide)⟩

/-- C17 (counterexample): one joke is requested from the three matched jokes of the
example corpus; `getJokes` resolves with the joke of ID 1 and has called `addEntry`
for the IDs 0, 1 and 2. -/
theorem C17_counterexample :
    ((criteriaWithSearch "").getJokes (exampleEnv []) noGlobals (fun _ => 1) "client" "en"
        (some 1)).settled = .resolved [exampleJokeB] ∧
      ((criteriaWithSearch "").getJokes (exampleEnv []) noGlobals (fun _ => 1) "client" "en"
        (some 1)).addEntry = [("client", 0, "en"), ("client", 1, "en"), ("client", 2, "en")] ∧
      exampleJokeB.id = 1 := by
  decide

/-- C17 (amended): `getJokes` calls `addEntry` once for every joke of the matched
set, in the order of the set, with the client key and its argument `langCode`, and
for nothing when `_applyFilters` rejects; so every joke it resolves with is
recorded. -/
theorem C17_records_the_matched_set (env : Env) (self : FilteredJoke) (globals : Globals)
    (rand : Nat → Nat) (ip langCode : String) (amount : Option Int) :
    (self.getJokes env globals rand ip langCode amount).addEntry =
        (match self._applyFilters env ip
            (some (if self._lang = "" then settings.defaultLanguage else self._lang)) with
          | .resolved matched => matched.map fun joke => (ip, joke.id, langCode)
          | .rejected _ => []) ∧
      ∀ jokes, (self.getJokes env globals rand ip langCode amount).settled = .resolved jokes →
        ∀ joke ∈ jokes,
          (ip, joke.id, langCode) ∈
            (self.getJokes env globals rand ip langCode amount).addEntry := by
  have hadd : (self.getJokes env globals rand ip langCode amount).addEntry =
      (match self._applyFilters env ip
          (some (if self._lang = "" then settings.defaultLanguage else self._lang)) with
        | .resolved matched => matched.map fun joke => (ip, joke.id, langCode)
        | .rejected _ => []) := by
    unfold FilteredJoke.getJokes
    dsimp only
    cases self._applyFilters env ip
        (some (if self._lang = "" then settings.defaultLanguage else self._lang)) with
    | rejected err => rfl
    | resolved matched =>
      dsimp only
      split_ifs
      · rfl
      · rfl
      · cases selectLoop rand ((amount.getD 1).toNat)
          { jokes := matched, globals := globals, multiSelectLastIDs := [],
            draws := 0, rejected := false } [] with
        | mk err rest =>
          cases rest with
          | mk s retJokes => cases err <;> rfl
      · rfl
  refine ⟨hadd, ?_⟩
  intro jokes hres joke hjoke
  obtain ⟨matched, hm, hsub⟩ :=
    getJokes_resolved env self globals rand ip langCode amount jokes hres
  rw [hadd, hm]
  exact List.mem_map.mpr ⟨joke, hsub joke hjoke, rfl⟩


/-- Witness of C17 (amended): the joke served in the counterexample is among the
recorded ones. -/
theorem C17_witness :
    ((criteriaWithSearch "").getJokes (exampleEnv []) noGlobals (fun _ => 1) "client" "en"
        (some 1)).settled = .resolved [exampleJokeB] ∧
      ("client", exampleJokeB.id, "en") ∈
        ((criteriaWithSearch "").getJokes (exampleEnv []) noGlobals (fun _ => 1) "client" "en"
          (some 1)).addEntry :=
  ⟨by decide,
    (C17_records_the_matched_set (exampleEnv []) (criteriaWithSearch "") noGlobals
      (fun _ => 1) "client" "en" (some 1)).2 [exampleJokeB] (by decide) exampleJokeB
      (List.mem_singleton.mpr rfl)⟩
/-- A pick never clears the mark left by `reject()`; a pick that returns `undefined`
has called `reject()`, with the retry counter above the limit. -/
theorem selectRandomJokeAux_rejected (rand : Nat → Nat) (fuel : Nat) (s : Selection) :
    (s.rejected = true → (selectRandomJokeAux rand fuel s).2.rejected = true) ∧
      ((selectRandomJokeAux rand fuel s).1 = .undefined →
        (selectRandomJokeAux rand fuel s).2.rejected = true ∧
          (selectRandomJokeAux rand fuel s).2.globals._selectionAttempts >
            settings.jokeRandomizationAttempts) := by
  induction fuel generalizing s with
  | zero =>
    unfold selectRandomJokeAux
    exact ⟨fun h => h, fun h => (by cases h)⟩
  | succ fuel ih =>
    unfold selectRandomJokeAux
    cases hjs : s.jokes with
    | nil =>
      dsimp only
      exact ⟨fun h => h, fun h => (by cases h)⟩
    | cons first others =>
      dsimp only
      split_ifs <;> first | exact ih _ | simp_all

/-- The selection loop never clears the mark left by `reject()`. -/
theorem selectLoop_rejected (rand : Nat → Nat) (count : Nat) (s : Selection)
    (retJokes : List Joke) (hrej : s.rejected = true) :
    (selectLoop rand count s retJokes).2.1.rejected = true := by
  induction count generalizing s retJokes with
  | zero => exact hrej
  | succ count ih =>
    unfold selectLoop
    have h := (selectRandomJokeAux_rejected rand s.jokes.length s).1 hrej
    unfold selectRandomJoke
    cases hp : selectRandomJokeAux rand s.jokes.length s with
    | mk pick s1 =>
      rw [hp] at h
      cases pick with
      | thrown err => exact h
      | undefined => exact ih s1 retJokes h
      | joke rJoke => exact ih s1 (retJokes ++ [rJoke]) h

/-- One iteration of the selection loop. -/
theorem selectLoop_succ (rand : Nat → Nat) (count : Nat) (s : Selection)
    (retJokes : List Joke) :
    selectLoop rand (count + 1) s retJokes =
      match selectRandomJoke rand s with
      | (.thrown err, s1) => (some err, s1, retJokes)
      | (.joke rJoke, s1) => selectLoop rand count s1 (retJokes ++ [rJoke])
      | (.undefined, s1) => selectLoop rand count s1 retJokes := rfl

/-- The loop over `k + m` slots is the loop over `k` slots followed, unless a pick
threw, by the loop over `m` slots. -/
theorem selectLoop_add (rand : Nat → Nat) (k m : Nat) (s : Selection)
    (retJokes : List Joke) :
    selectLoop rand (k + m) s retJokes =
      match selectLoop rand k s retJokes with
      | (some err, s1, ret1) => (some err, s1, ret1)
      | (none, s1, ret1) => selectLoop rand m s1 ret1 := by
  induction k generalizing s retJokes with
  | zero =>
    rw [Nat.zero_add]
    rfl
  | succ k ih =>
    rw [Nat.succ_add, selectLoop_succ, selectLoop_succ]
    cases hp : selectRandomJoke rand s with
    | mk pick s1 =>
      cases pick with
      | thrown err => rfl
      | undefined =>
        dsimp only
        exact ih s1 retJokes
      | joke rJoke =>
        dsimp only
        exact ih s1 (retJokes ++ [rJoke])

/-- C18 (counterexample): over the example corpus with the default filters, a cache
whose `listEntries` rejects makes `_applyFilters` and `getJokes` reject with the
message about the cache entries, although all three jokes match when the cache
answers with an empty list. -/
theorem C18_counterexample :
    failingCacheEnv.listEntries "client" "en" = .error "Error: connect ECONNREFUSED" ∧
      (criteriaWithSearch "")._applyFilters failingCacheEnv "client" (some "en") =
        .rejected (.message
          (.text "Couldn\x27t list joke cache entries: Error: connect ECONNREFUSED")) ∧
      ((criteriaWithSearch "").getJokes failingCacheEnv noGlobals (fun _ => 1) "client" "en"
        (some 3)).settled =
        .rejected (.message
          (.text "Couldn\x27t list joke cache entries: Error: connect ECONNREFUSED")) ∧
      ((criteriaWithSearch "").getJokes (exampleEnv []) noGlobals (fun _ => 1) "client" "en"
        (some 3)).settled = .resolved [exampleJokeA, exampleJokeB, exampleJokeC] := by
  decide

/-- C18 (amended): when `listEntries` rejects, `_applyFilters` rejects with the text
of its cache-listing failure followed by the rejection value, and so does
`getJokes`; the way the promises of `addEntry` settle has no effect on the way
`getJokes` settles, on the module variables or on the calls made. -/
theorem C18_lookup_failure_rejects (env : Env) (self : FilteredJoke) (globals : Globals)
    (rand : Nat → Nat) (ip langCode : String) (lang : Option String) (amount : Option Int)
    (err : String) (hlist : env.listEntries ip (effectiveLang lang) = .error err) :
    self._applyFilters env ip lang =
        .rejected (.message (.text ("Couldn\x27t list joke cache entries: " ++ err))) ∧
      (lang = some (if self._lang = "" then settings.defaultLanguage else self._lang) →
        (self.getJokes env globals rand ip langCode amount).settled =
          .rejected (.message (.text ("Couldn\x27t list joke cache entries: " ++ err)))) ∧
      ∀ (env2 : Env) (addEntry : String → Int → String → Except String Unit),
        (self.getJokes { env2 with addEntry := addEntry } globals rand ip langCode
            amount).settled =
          (self.getJokes env2 globals rand ip langCode amount).settled ∧
        (self.getJokes { env2 with addEntry := addEntry } globals rand ip langCode
            amount).globals =
          (self.getJokes env2 globals rand ip langCode amount).globals ∧
        (self.getJokes { env2 with addEntry := addEntry } globals rand ip langCode
            amount).addEntry =
          (self.getJokes env2 globals rand ip langCode amount).addEntry := by
  have hrej : self._applyFilters env ip lang =
      .rejected (.message (.text ("Couldn\x27t list joke cache entries: " ++ err))) := by
    unfold FilteredJoke._applyFilters
    dsimp only
    rw [hlist]
  refine ⟨hrej, ?_, ?_⟩
  · intro hlang
    apply getJokes_of_rejected
    rw [← hlang]
    exact hrej
  · intro env2 addEntry
    have happly : ∀ l, self._applyFilters { env2 with addEntry := addEntry } ip l =
        self._applyFilters env2 ip l := fun _ => rfl
    unfold FilteredJoke.getJokes
    dsimp only
    rw [happly]
    cases self._applyFilters env2 ip
        (some (if self._lang = "" then settings.defaultLanguage else self._lang)) with
    | rejected reason => exact ⟨rfl, rfl, rfl⟩
    | resolved matched =>
      dsimp only
      split_ifs
      · exact ⟨rfl, rfl, rfl⟩
      · exact ⟨rfl, rfl, rfl⟩
      · cases selectLoop rand ((amount.getD 1).toNat)
          { jokes := matched, globals := globals, multiSelectLastIDs := [],
            draws := 0, rejected := false } [] with
        | mk e rest =>
          cases rest with
          | mk s retJokes => cases e <;> exact ⟨rfl, rfl, rfl⟩
      · exact ⟨rfl, rfl, rfl⟩

/-- Witness of C18 (amended): the environment whose cache rejects every call. -/
theorem C18_witness :
    failingCacheEnv.listEntries "client" (effectiveLang (some "en")) =
        .error "Error: connect ECONNREFUSED" ∧
      (criteriaWithSearch "")._applyFilters failingCacheEnv "client" (some "en") =
        .rejected (.message
          (.text ("Couldn\x27t list joke cache entries: " ++ "Error: connect ECONNREFUSED"))) :=
  ⟨by decide,
    (C18_lookup_failure_rejects failingCacheEnv (criteriaWithSearch "") noGlobals
      (fun _ => 1) "client" "en" (some "en") (some 3) "Error: connect ECONNREFUSED"
      (by decide)).1⟩

/-- C19 (code at the failing input): the criteria language is set to `de`, whose
corpus holds one joke that passes all seven predicates. `getAllJokes` hands the
language to `_applyFilters` as the client key, `_applyFilters` falls back to the
default language `en`, filters the English corpus, drops every joke there in the
language section and resolves with the empty array. -/
theorem C19_getAllJokes_reads_default_corpus :
    ((criteriaWithSearch "").setLanguage asciiHost bilingualEnv.langs "de").1 = true ∧
      (((criteriaWithSearch "").setLanguage asciiHost bilingualEnv.langs "de").2).getLanguage =
        "de" ∧
      (bilingualEnv.getJokeArray "de").filter
        (passesAllFilters bilingualEnv
          (((criteriaWithSearch "").setLanguage asciiHost bilingualEnv.langs "de").2) "de") =
        [germanJoke] ∧
      (((criteriaWithSearch "").setLanguage asciiHost bilingualEnv.langs "de").2).getAllJokes
        bilingualEnv = .resolved [] ∧
      (((criteriaWithSearch "").setLanguage asciiHost bilingualEnv.langs "de").2)._applyFilters
        bilingualEnv "client" (some "de") = .resolved [germanJoke] := by
  decide

/-- The method `getLanguage` never returns the empty string. -/
theorem getLanguage_ne_empty (self : FilteredJoke) : self.getLanguage ≠ "" := by
  unfold FilteredJoke.getLanguage
  split_ifs with hl
  · decide
  · exact hl

/-- The call `setIdRange(start, end, lang)` with numbers, step by step: `stop` is
`end` or, when that is omitted, `start`, and `L` the name under which the table of
ranges is read. -/
theorem setIdRange_numbers (self : FilteredJoke) (s : ℚ) (stop : Option ℚ)
    (lang : Option String) (L : String)
    (hL : L = match lang with
      | some l => if l = "" then self.getLanguage else l
      | none => self.getLanguage) :
    self.setIdRange (.num s) (stop.map .num) lang =
      if s < 0 then
        .ok (false, { self with
          _errors := self._errors ++ ["The \"idRange\" parameter values are out of range"] })
      else
        match self._idRangePerLang.lookup L with
        | some range =>
          if stop.getD s > range.stop then
            .ok (false, { self with
              _errors := self._errors ++
                ["The \"idRange\" parameter values are out of range"] })
          else
            .ok (true, { self with
              _idRange := { ref := self.allocated, start := s, stop := stop.getD s }
              allocated := self.allocated + 1 })
        | none =>
          if L ∈ objectPrototypeKeys then
            .ok (true, { self with
              _idRange := { ref := self.allocated, start := s, stop := stop.getD s }
              allocated := self.allocated + 1 })
          else .error undefinedIndex := by
  subst hL
  have hg := getLanguage_ne_empty self
  unfold FilteredJoke.setIdRange
  cases lang with
  | none =>
    dsimp only
    rw [if_neg hg]
    cases stop <;> rfl
  | some l =>
    dsimp only
    rw [if_neg hg]
    cases stop <;> rfl

/-- Every call of `setIdRange` has one of three outcomes: it returns `true` and
has replaced the range by a new array, changing nothing else; it returns `false`
and has appended one error, changing nothing else; or it throws, which it does
only when the table of ranges has no property, own or inherited, of the name
`L` under which it is read. -/
theorem setIdRange_outcomes (self : FilteredJoke) (start : NumberArg)
    (stop : Option NumberArg) (lang : Option String) (L : String)
    (hL : L = match lang with
      | some l => if l = "" then self.getLanguage else l
      | none => self.getLanguage) :
    (∃ range, self.setIdRange start stop lang =
        .ok (true, { self with _idRange := range, allocated := self.allocated + 1 })) ∨
      (∃ msg, self.setIdRange start stop lang =
        .ok (false, { self with _errors := self._errors ++ [msg] })) ∨
      (self.setIdRange start stop lang = .error undefinedIndex ∧
        self._idRangePerLang.lookup L = none ∧ L ∉ objectPrototypeKeys) := by
  cases start with
  | other =>
    have hrun : self.setIdRange .other stop lang =
        .ok (false, { self with
          _errors := self._errors ++
            ["The \"idRange\" parameter values are not numbers"] }) := by
      unfold FilteredJoke.setIdRange
      rfl
    exact Or.inr (Or.inl ⟨_, hrun⟩)
  | num s =>
    cases hstop : stop.getD (.num s) with
    | other =>
      have hrun : self.setIdRange (.num s) stop lang =
          .ok (false, { self with
            _errors := self._errors ++
              ["The \"idRange\" parameter values are not numbers"] }) := by
        unfold FilteredJoke.setIdRange
        dsimp only
        rw [hstop]
      exact Or.inr (Or.inl ⟨_, hrun⟩)
    | num e =>
      have hstopArg : ∃ stopArg : Option ℚ, stop = stopArg.map .num := by
        cases stop with
        | none => exact ⟨none, rfl⟩
        | some v =>
          cases v with
          | num q => exact ⟨some q, rfl⟩
          | other => cases hstop
      obtain ⟨stopArg, hstopArg⟩ := hstopArg
      rw [hstopArg, setIdRange_numbers self s stopArg lang L hL]
      by_cases hs : s < 0
      · rw [if_pos hs]
        exact Or.inr (Or.inl ⟨_, rfl⟩)
      · rw [if_neg hs]
        cases hlook : self._idRangePerLang.lookup L with
        | some range =>
          dsimp only
          by_cases he : stopArg.getD s > range.stop
          · rw [if_pos he]
            exact Or.inr (Or.inl ⟨_, rfl⟩)
          · rw [if_neg he]
            exact Or.inl ⟨_, rfl⟩
        | none =>
          dsimp only
          by_cases hkey : L ∈ objectPrototypeKeys
          · rw [if_pos hkey]
            exact Or.inl ⟨_, rfl⟩
          · rw [if_neg hkey]
            exact Or.inr (Or.inr ⟨rfl, rfl, hkey⟩)

/-- C20 (counterexample): on the fresh criteria object, `setLanguage("xx")` returns
`false` and `setAmount(0)` returns an error string; both leave the object as it
was, with no message appended to `_errors`. -/
theorem C20_counterexample :
    freshCriteria.setLanguage asciiHost (exampleEnv []).langs "xx" = (false, freshCriteria) ∧
      freshCriteria.setAmount (some 0) = (.str setAmountError, freshCriteria) ∧
      freshCriteria._errors = [] := by
  decide

/-- C20 (amended): `setAllowedCategories`, `setAllowedType`, `setSearchString`,
`setIdRange` and `setBlacklistFlags` either replace their own field, leave `_errors`
as it was and return `true`, or leave every field as it was but `_errors`, to which
they append one message, and return `false`; `setIdRange` can throw instead,
changing nothing, and for a given `lang` it does so only when the table of ranges
has no property of that name, neither an own nor an inherited one. `setSafeMode`
stores its argument, or `false` when that is not a boolean, and returns the stored
value. `setLanguage` and `setAmount` replace their own field on success and change
nothing on failure, `_errors` included; they then return `false` and a string. -/
theorem C20_setters_change_one_field (h : Host) (langs : Langs) (self : FilteredJoke) :
    (∀ categories,
        ((self.setAllowedCategories h categories).1 = true ∧
          ∃ stored, (self.setAllowedCategories h categories).2 =
            { self with _allowedCategories := stored }) ∨
        ((self.setAllowedCategories h categories).1 = false ∧
          ∃ msg, (self.setAllowedCategories h categories).2 =
            { self with _errors := self._errors ++ [msg] })) ∧
      (∀ type,
        ((self.setAllowedType type).1 = true ∧
          (self.setAllowedType type).2 = { self with _allowedTypes := [type] }) ∨
        ((self.setAllowedType type).1 = false ∧
          ∃ msg, (self.setAllowedType type).2 =
            { self with _errors := self._errors ++ [msg] })) ∧
      (∀ searchString,
        ((self.setSearchString searchString).1 = true ∧
          (self.setSearchString searchString).2 =
            { self with _searchString := searchString }) ∨
        ((self.setSearchString searchString).1 = false ∧
          ∃ msg, (self.setSearchString searchString).2 =
            { self with _errors := self._errors ++ [msg] })) ∧
      (∀ start stop lang,
        (∃ range, self.setIdRange start stop lang =
          .ok (true, { self with _idRange := range, allocated := self.allocated + 1 })) ∨
        (∃ msg, self.setIdRange start stop lang =
          .ok (false, { self with _errors := self._errors ++ [msg] })) ∨
        (self.setIdRange start stop lang = .error undefinedIndex ∧
          ∀ l, lang = some l → l ≠ "" →
            self._idRangePerLang.lookup l = none ∧ l ∉ objectPrototypeKeys)) ∧
      (∀ flags,
        ((self.setBlacklistFlags flags).1 = true ∧
          (self.setBlacklistFlags flags).2 = { self with _flags := flags }) ∨
        ((self.setBlacklistFlags flags).1 = false ∧
          ∃ msg, (self.setBlacklistFlags flags).2 =
            { self with _errors := self._errors ++ [msg] })) ∧
      (∀ safeModeEnabled,
        self.setSafeMode safeModeEnabled =
          (safeModeEnabled.getD false,
            { self with _safeMode := safeModeEnabled.getD false })) ∧
      (∀ code,
        ((self.setLanguage h langs code).1 = true ∧
          (self.setLanguage h langs code).2 = { self with _lang := code }) ∨
        ((self.setLanguage h langs code).1 = false ∧
          (self.setLanguage h langs code).2 = self)) ∧
      (∀ num,
        ((self.setAmount num).1 = .bool true ∧
          ∃ stored, (self.setAmount num).2 = { self with _amount := stored }) ∨
        ((∃ msg, (self.setAmount num).1 = .str msg) ∧ (self.setAmount num).2 = self)) := by
  refine ⟨?_, ?_, ?_, ?_, ?_, ?_, ?_, ?_⟩
  · intro categories
    unfold FilteredJoke.setAllowedCategories
    dsimp only
    split_ifs
    · exact Or.inr ⟨rfl, _, rfl⟩
    · exact Or.inl ⟨rfl, _, rfl⟩
    · exact Or.inl ⟨rfl, _, rfl⟩
  · intro type
    unfold FilteredJoke.setAllowedType
    split_ifs
    · exact Or.inl ⟨rfl, rfl⟩
    · exact Or.inr ⟨rfl, _, rfl⟩
  · intro searchString
    unfold FilteredJoke.setSearchString
    cases searchString with
    | none => exact Or.inr ⟨rfl, _, rfl⟩
    | some s => exact Or.inl ⟨rfl, rfl⟩
  · intro start stop lang
    rcases setIdRange_outcomes self start stop lang _ rfl with hyes | hno | ⟨hthrown, hlook, hkey⟩
    · exact Or.inl hyes
    · exact Or.inr (Or.inl hno)
    · refine Or.inr (Or.inr ⟨hthrown, ?_⟩)
      intro l hl hne
      subst hl
      dsimp only at hlook hkey
      rw [if_neg hne] at hlook hkey
      exact ⟨hlook, hkey⟩
  · intro flags
    unfold FilteredJoke.setBlacklistFlags
    dsimp only
    split_ifs
    · exact Or.inr ⟨rfl, _, rfl⟩
    · exact Or.inl ⟨rfl, rfl⟩
  · intro safeModeEnabled
    cases safeModeEnabled <;> rfl
  · intro code
    unfold FilteredJoke.setLanguage
    split_ifs
    · exact Or.inl ⟨rfl, rfl⟩
    · exact Or.inr ⟨rfl, rfl⟩
  · intro num
    unfold FilteredJoke.setAmount
    cases num with
    | none => exact Or.inr ⟨⟨_, rfl⟩, rfl⟩
    | some n =>
      dsimp only
      split_ifs
      · exact Or.inr ⟨⟨_, rfl⟩, rfl⟩
      · exact Or.inl ⟨rfl, _, rfl⟩


/-- Witness of C20 (amended): on the fresh criteria object, `setIdRange(-1, 1)`
returns `false` and appends its message, and `setSafeMode(true)` stores and
returns `true`. -/
theorem C20_witness :
    freshCriteria.setIdRange (.num (-1)) (some (.num 1)) none =
        .ok (false, { freshCriteria with
          _errors := ["The \"idRange\" parameter values are out of range"] }) ∧
      ((∃ range, freshCriteria.setIdRange (.num (-1)) (some (.num 1)) none =
          .ok (true, { freshCriteria with
            _idRange := range, allocated := freshCriteria.allocated + 1 })) ∨
        (∃ msg, freshCriteria.setIdRange (.num (-1)) (some (.num 1)) none =
          .ok (false, { freshCriteria with _errors := freshCriteria._errors ++ [msg] })) ∨
        (freshCriteria.setIdRange (.num (-1)) (some (.num 1)) none =
            .error undefinedIndex ∧
          ∀ l, (none : Option String) = some l → l ≠ "" →
            freshCriteria._idRangePerLang.lookup l = none ∧ l ∉ objectPrototypeKeys)) ∧
      freshCriteria.setSafeMode (some true) =
        (true, { freshCriteria with _safeMode := true }) :=
  ⟨by decide,
    (C20_setters_change_one_field asciiHost (exampleEnv []).langs freshCriteria).2.2.2.1
      (.num (-1)) (some (.num 1)) none,
    (C20_setters_change_one_field asciiHost (exampleEnv []).langs freshCriteria).2.2.2.2.2.1
      (some true)⟩
/-! ## Lemmas on the search pattern -/

/-- A string without `%` is read as its own characters. -/
theorem uriTokens_of_no_percent (cs : List Char) (hcs : '%' ∉ cs) :
    uriTokens cs = some (cs.map .char) := by
  induction cs with
  | nil => rfl
  | cons c rest ih =>
    have hc : c ≠ '%' := fun h => hcs (h ▸ List.mem_cons_self _ _)
    have hrest : '%' ∉ rest := fun h => hcs (List.mem_cons_of_mem _ h)
    unfold uriTokens
    rw [if_neg hc, ih hrest]
    rfl

/-- Characters that are not escapes decode to themselves. -/
theorem uriDecodeTokens_chars (cs : List Char) :
    uriDecodeTokens 0 0 0 (cs.map .char) = some cs := by
  induction cs with
  | nil => rfl
  | cons c rest ih =>
    rw [List.map_cons]
    unfold uriDecodeTokens
    rw [ih]
    rfl

/-- The function `decodeURIComponent` returns a string without `%` as it is. -/
theorem decodeURIComponent_of_no_percent (cs : List Char) (hcs : '%' ∉ cs) :
    decodeURIComponent (String.mk cs) = .ok (String.mk cs) := by
  unfold decodeURIComponent
  rw [uriTokens_of_no_percent cs hcs]
  simp only [Option.bind, uriDecodeTokens_chars]

/-- The pattern before decoding, character by character. -/
theorem pattern_data (s : String) :
    (replaceOperator settings.wildcard ".*" (escapeRegexPattern s)).data =
      s.data.flatMap patternOfChar := by
  unfold replaceOperator escapeRegexPattern
  simp only [List.flatMap_assoc]
  apply List.flatMap_congr
  intro c _
  unfold patternOfChar
  by_cases hesc : c ∈ escapedChars
  · have hne : c ≠ settings.wildcard := by
      intro h
      rw [h] at hesc
      revert hesc
      decide
    have hb : ('\\' : Char) ≠ settings.wildcard := by decide
    simp [hesc, hne, hb]
  · by_cases hw : c = settings.wildcard
    · simp [hesc, hw]
      decide
    · simp [hesc, hw]

/-- No `%` is put into the pattern of a search string that has none. -/
theorem pattern_no_percent (cs : List Char) (hcs : '%' ∉ cs) :
    '%' ∉ cs.flatMap patternOfChar := by
  intro hmem
  rw [List.mem_flatMap] at hmem
  obtain ⟨c, hc, hin⟩ := hmem
  have hne : c ≠ '%' := fun h => hcs (h ▸ hc)
  unfold patternOfChar at hin
  split_ifs at hin
  · simp at hin
    exact hne hin.symm
  · simp at hin
  · simp at hin
    exact hne hin.symm

/-- Joining with a separator puts the separator before every part but the first. -/
theorem intercalate_cons (sep b : List Char) (bs : List (List Char)) :
    List.intercalate sep (b :: bs) = b ++ bs.flatMap (sep ++ ·) := by
  induction bs generalizing b with
  | nil => simp [List.intercalate]
  | cons b2 bs ih =>
    have h := ih b2
    simp only [List.intercalate, List.intersperse, List.flatten_cons, List.flatMap_cons] at h ⊢
    rw [h]
    simp

/-- Splitting at the OR operator, one character further. -/
theorem splitOn_cons (c : Char) (cs : List Char) :
    (c :: cs).splitOn settings.orOperator =
      if c = settings.orOperator then [] :: cs.splitOn settings.orOperator
      else (cs.splitOn settings.orOperator).modifyHead (List.cons c) := by
  unfold List.splitOn
  rw [List.splitOnP_cons]
  simp

/-- Splitting at the OR operator yields at least one part. -/
theorem splitOn_exists (cs : List Char) :
    ∃ b bs, cs.splitOn settings.orOperator = b :: bs := by
  cases hsp : cs.splitOn settings.orOperator with
  | nil => exact absurd hsp (List.splitOnP_ne_nil _ _)
  | cons b bs => exact ⟨b, bs, rfl⟩

/-- Splitting after a piece that holds no OR operator: the piece goes in front of
the first part. -/
theorem splitOn_append (piece cs b : List Char) (bs : List (List Char))
    (hpiece : settings.orOperator ∉ piece)
    (hsp : cs.splitOn settings.orOperator = b :: bs) :
    (piece ++ cs).splitOn settings.orOperator = (piece ++ b) :: bs := by
  induction piece with
  | nil => simpa using hsp
  | cons p piece ih =>
    have hp : p ≠ settings.orOperator := fun h => hpiece (h ▸ List.mem_cons_self _ _)
    have hrest : settings.orOperator ∉ piece := fun h => hpiece (List.mem_cons_of_mem _ h)
    rw [List.cons_append, splitOn_cons, if_neg hp, ih hrest]
    rfl

/-- The pattern of a character other than the OR operator holds no OR operator. -/
theorem patternOfChar_no_or (c : Char) (hc : c ≠ settings.orOperator) :
    settings.orOperator ∉ patternOfChar c := by
  unfold patternOfChar
  split_ifs
  · simp
    exact ⟨by decide, fun h => hc h.symm⟩
  · simp
    decide
  · simp
    exact fun h => hc h.symm

/-- The pattern of the OR operator is the OR operator. -/
theorem patternOfChar_or : patternOfChar settings.orOperator = [settings.orOperator] := by
  decide

/-- The isolated pattern built by splitting and joining is `isolatedTail` after
the leading `^`. -/
theorem isolatedTail_eq (cs : List Char) :
    ∃ b bs, (cs.flatMap patternOfChar).splitOn settings.orOperator = b :: bs ∧
      isolatedTail cs = List.intercalate "$|^".data (b :: bs) ++ "$".data := by
  induction cs with
  | nil => exact ⟨[], [], rfl, rfl⟩
  | cons c rest ih =>
    obtain ⟨b, bs, hsp, hiso⟩ := ih
    by_cases hc : c = settings.orOperator
    · refine ⟨[], b :: bs, ?_, ?_⟩
      · rw [List.flatMap_cons, hc, patternOfChar_or, List.singleton_append, splitOn_cons,
          if_pos rfl, hsp]
      · unfold isolatedTail
        rw [if_pos hc, hiso, intercalate_cons, intercalate_cons]
        simp
    · refine ⟨patternOfChar c ++ b, bs, ?_, ?_⟩
      · rw [List.flatMap_cons]
        exact splitOn_append _ _ _ _ (patternOfChar_no_or c hc) hsp
      · unfold isolatedTail
        rw [if_neg hc, hiso, intercalate_cons, intercalate_cons]
        simp

/-- The alternatives of the isolated pattern are the branches of the search
string, each between `^` and `$`. -/
theorem tailAlternatives_eq (cs : List Char) :
    ∃ b bs, cs.splitOn settings.orOperator = b :: bs ∧
      tailAlternatives cs = (b.map termOfChar ++ [.eol]) :: bs.map branchAlternative := by
  induction cs with
  | nil => exact ⟨[], [], rfl, rfl⟩
  | cons c rest ih =>
    obtain ⟨b, bs, hsp, htail⟩ := ih
    by_cases hc : c = settings.orOperator
    · refine ⟨[], b :: bs, ?_, ?_⟩
      · rw [splitOn_cons, if_pos hc, hsp]
      · unfold tailAlternatives
        rw [if_pos hc, htail]
        rfl
    · refine ⟨c :: b, bs, ?_, ?_⟩
      · rw [splitOn_cons, if_neg hc, hsp]
        rfl
      · unfold tailAlternatives
        rw [if_neg hc, htail]
        rfl

/-- The alternatives of the whole isolated pattern. -/
theorem alternatives_eq (cs : List Char) :
    pushTerm .bol (tailAlternatives cs) =
      (cs.splitOn settings.orOperator).map branchAlternative := by
  obtain ⟨b, bs, hsp, htail⟩ := tailAlternatives_eq cs
  rw [hsp, htail]
  rfl

/-- Parsing `|`. -/
theorem parsePattern_or (l : List Char) :
    parsePattern ('|' :: l) = (parsePattern l).map ([] :: ·) := by
  delta parsePattern
  rfl

/-- Parsing `^`. -/
theorem parsePattern_bol (l : List Char) :
    parsePattern ('^' :: l) = (parsePattern l).map (pushTerm .bol) := by
  delta parsePattern
  rfl

/-- Parsing `$`. -/
theorem parsePattern_eol (l : List Char) :
    parsePattern ('$' :: l) = (parsePattern l).map (pushTerm .eol) := by
  delta parsePattern
  rfl

/-- Parsing `.*`. -/
theorem parsePattern_wildcard (l : List Char) :
    parsePattern ('.' :: '*' :: l) = (parsePattern l).map (pushTerm (.star .any)) := by
  delta parsePattern
  rfl

/-- Parsing an escaped character that no `*` follows. -/
theorem parsePattern_escape (c d : Char) (r : List Char) (hc : c ∈ identityEscapes)
    (hd : d ≠ '*') :
    parsePattern ('\\' :: c :: d :: r) =
      (parsePattern (d :: r)).map (pushTerm (.one (.char c))) := by
  delta parsePattern
  dsimp only [List.brecOn]
  rw [if_neg (by decide), if_neg (by decide), if_neg (by decide), if_neg (by decide),
    if_pos rfl]
  delta parsePattern.match_2
  dsimp only
  rw [dif_neg hd, if_pos hc]

/-- Parsing a character that is no syntax character and that no `*` follows. -/
theorem parsePattern_literal (c d : Char) (r : List Char) (hc : c ∉ syntaxChars)
    (hd : d ≠ '*') :
    parsePattern (c :: d :: r) =
      (parsePattern (d :: r)).map (pushTerm (.one (.char c))) := by
  have h1 : c ≠ '|' := fun h => hc (by rw [h]; decide)
  have h2 : c ≠ '^' := fun h => hc (by rw [h]; decide)
  have h3 : c ≠ '$' := fun h => hc (by rw [h]; decide)
  have h4 : c ≠ '.' := fun h => hc (by rw [h]; decide)
  have h5 : c ≠ '\\' := fun h => hc (by rw [h]; decide)
  delta parsePattern
  dsimp only [List.brecOn]
  rw [if_neg h1, if_neg h2, if_neg h3, if_neg h4, if_neg h5, if_neg hc]
  delta parsePattern.match_1
  dsimp only
  rw [dif_neg hd]

/-- The tail of an isolated pattern never starts with `*`. -/
theorem isolatedTail_head (cs : List Char) :
    ∃ d r, isolatedTail cs = d :: r ∧ d ≠ '*' := by
  cases cs with
  | nil => exact ⟨'$', [], rfl, by decide⟩
  | cons c rest =>
    unfold isolatedTail patternOfChar
    split_ifs with h1 h2 h3
    · exact ⟨'$', _, rfl, by decide⟩
    · exact ⟨'\\', _, rfl, by decide⟩
    · exact ⟨'.', _, rfl, by decide⟩
    · exact ⟨c, _, rfl, h3⟩

/-- The isolated pattern of a search string is in the fragment, and is parsed
into `tailAlternatives`. -/
theorem parsePattern_isolatedTail (cs : List Char) :
    parsePattern (isolatedTail cs) = some (tailAlternatives cs) := by
  induction cs with
  | nil => rfl
  | cons c rest ih =>
    obtain ⟨d, r, hd, hne⟩ := isolatedTail_head rest
    unfold isolatedTail tailAlternatives
    by_cases hor : c = settings.orOperator
    · rw [if_pos hor, if_pos hor, parsePattern_eol, parsePattern_or, parsePattern_bol, ih]
      rfl
    · rw [if_neg hor, if_neg hor]
      unfold patternOfChar termOfChar
      by_cases hesc : c ∈ escapedChars
      · have hw : c ≠ settings.wildcard := by
          intro h
          rw [h] at hesc
          revert hesc
          decide
        have hid : c ∈ identityEscapes := by
          revert hesc
          unfold escapedChars identityEscapes syntaxChars
          simp only [List.mem_cons, List.mem_singleton, List.not_mem_nil, or_false]
          tauto
        rw [if_pos hesc, if_neg hw]
        show parsePattern ('\\' :: c :: isolatedTail rest) = _
        rw [hd, parsePattern_escape c d r hid hne, ← hd, ih]
        rfl
      · by_cases hw : c = settings.wildcard
        · rw [if_neg hesc, if_pos hw, if_pos hw]
          show parsePattern ('.' :: '*' :: isolatedTail rest) = _
          rw [parsePattern_wildcard, ih]
          rfl
        · rw [if_neg hesc, if_neg hw, if_neg hw]
          show parsePattern (c :: isolatedTail rest) = _
          have hsyn : c ∉ syntaxChars := by
            intro hmem
            revert hesc hw hor hmem
            unfold escapedChars syntaxChars settings.wildcard settings.orOperator
            simp only [List.mem_cons, List.mem_singleton, List.not_mem_nil, or_false]
            tauto
          rw [hd, parsePattern_literal c d r hsyn hne, ← hd, ih]
          rfl

/-- Putting a term in front adds one repetition when the term is a star. -/
theorem countRepetitions_pushTerm (t : Term) (alts : List (List Term)) :
    countRepetitions (pushTerm t alts) =
      (match t with | .star _ => 1 | _ => 0) + countRepetitions alts := by
  cases alts with
  | nil => cases t <;> rfl
  | cons a as =>
    unfold countRepetitions pushTerm
    simp only [List.map_cons, List.sum_cons, List.countP_cons]
    cases t <;> simp +arith

/-- The tail alternatives hold one repetition for every wildcard. -/
theorem countRepetitions_tailAlternatives (cs : List Char) :
    countRepetitions (tailAlternatives cs) = cs.count settings.wildcard := by
  induction cs with
  | nil => rfl
  | cons c rest ih =>
    unfold tailAlternatives
    by_cases hor : c = settings.orOperator
    · rw [if_pos hor]
      have hw : c ≠ settings.wildcard := by
        rw [hor]
        decide
      rw [List.count_cons_of_ne hw.symm, ← ih]
      unfold countRepetitions
      have h := countRepetitions_pushTerm .bol (tailAlternatives rest)
      unfold countRepetitions at h
      simp only [List.map_cons, List.sum_cons, h]
      simp
    · rw [if_neg hor, countRepetitions_pushTerm, ih]
      unfold termOfChar
      by_cases hw : c = settings.wildcard
      · rw [if_pos hw, hw, List.count_cons_self]
        show 1 + _ = _
        omega
      · rw [if_neg hw, List.count_cons_of_ne (Ne.symm hw)]
        show 0 + _ = _
        omega

/-- On a text without line terminators, the terms of a branch followed by `$`
match from the current position iff the branch matches the rest of the text up
to its last character. -/
theorem matchFrom_branch (canon : Char → Char) (branch : List Char) :
    ∀ (prev : Option Char) (text : List Char),
      (∀ c ∈ text, isLineTerminator c = false) →
      matchFrom canon (branch.map termOfChar ++ [.eol]) prev text =
        branchMatches canon branch text := by
  induction branch with
  | nil =>
    intro prev text htext
    cases text with
    | nil => rfl
    | cons c r =>
      have hc := htext c (List.mem_cons_self _ _)
      simp [matchFrom, atLineEnd, branchMatches, hc]
  | cons b branch ih =>
    intro prev text htext
    by_cases hb : b = settings.wildcard
    · have hterm : (b :: branch).map termOfChar ++ [Term.eol] =
          .star .any :: (branch.map termOfChar ++ [.eol]) := by
        simp [termOfChar, hb]
      rw [hterm]
      unfold matchFrom branchMatches
      rw [if_pos hb]
      clear hterm
      induction text generalizing prev with
      | nil =>
        unfold starLoop afterAnyRun
        exact ih prev [] htext
      | cons c r ihr =>
        have hc := htext c (List.mem_cons_self _ _)
        have hr : ∀ x ∈ r, isLineTerminator x = false :=
          fun x hx => htext x (List.mem_cons_of_mem _ hx)
        unfold starLoop afterAnyRun
        rw [ih prev (c :: r) htext, ihr (some c) hr]
        simp [Atom.test, hc]
    · have hterm : (b :: branch).map termOfChar ++ [Term.eol] =
          .one (.char b) :: (branch.map termOfChar ++ [.eol]) := by
        simp [termOfChar, hb]
      rw [hterm]
      cases text with
      | nil =>
        unfold matchFrom branchMatches
        rw [if_neg hb]
      | cons c r =>
        have hr : ∀ x ∈ r, isLineTerminator x = false :=
          fun x hx => htext x (List.mem_cons_of_mem _ hx)
        unfold matchFrom branchMatches
        rw [if_neg hb, ih (some c) r hr]
        rfl

/-- An alternative between `^` and `$` matches only at a line start. -/
theorem matchFrom_branchAlternative (canon : Char → Char) (branch : List Char)
    (prev : Option Char) (text : List Char)
    (htext : ∀ c ∈ text, isLineTerminator c = false) :
    matchFrom canon (branchAlternative branch) prev text =
      (atLineStart prev && branchMatches canon branch text) := by
  unfold branchAlternative
  rw [List.cons_append]
  unfold matchFrom
  rw [matchFrom_branch canon branch prev text htext]

/-- After a character that is no line terminator, no alternative between `^` and
`$` matches anywhere in a text without line terminators. -/
theorem searchFrom_after (canon : Char → Char) (branches : List (List Char)) :
    ∀ (p : Char) (text : List Char), isLineTerminator p = false →
      (∀ c ∈ text, isLineTerminator c = false) →
      searchFrom canon (branches.map branchAlternative) (some p) text = false := by
  intro p text
  induction text generalizing p with
  | nil =>
    intro hp htext
    unfold searchFrom
    rw [List.any_eq_false]
    intro ts hts
    rw [List.mem_map] at hts
    obtain ⟨b, _, rfl⟩ := hts
    rw [matchFrom_branchAlternative canon b _ _ htext]
    simp [atLineStart, hp]
  | cons c r ih =>
    intro hp htext
    have hc := htext c (List.mem_cons_self _ _)
    have hr : ∀ x ∈ r, isLineTerminator x = false :=
      fun x hx => htext x (List.mem_cons_of_mem _ hx)
    unfold searchFrom
    rw [ih c hc hr, Bool.or_false, List.any_eq_false]
    intro ts hts
    rw [List.mem_map] at hts
    obtain ⟨b, _, rfl⟩ := hts
    rw [matchFrom_branchAlternative canon b _ _ htext]
    simp [atLineStart, hp]

/-- On a text without line terminators the compiled expression finds a match iff
some branch matches the whole text. -/
theorem searchFrom_branches (canon : Char → Char) (branches : List (List Char))
    (text : List Char) (htext : ∀ c ∈ text, isLineTerminator c = false) :
    searchFrom canon (branches.map branchAlternative) none text =
      branches.any fun branch => branchMatches canon branch text := by
  have hany : ((branches.map branchAlternative).any fun ts => matchFrom canon ts none text) =
      branches.any fun branch => branchMatches canon branch text := by
    induction branches with
    | nil => rfl
    | cons b bs ihb =>
      rw [List.map_cons, List.any_cons, List.any_cons, ihb,
        matchFrom_branchAlternative canon b none text htext]
      rfl
  cases text with
  | nil =>
    unfold searchFrom
    exact hany
  | cons c r =>
    have hc := htext c (List.mem_cons_self _ _)
    have hr : ∀ x ∈ r, isLineTerminator x = false :=
      fun x hx => htext x (List.mem_cons_of_mem _ hx)
    unfold searchFrom
    rw [searchFrom_after canon branches c r hc hr, Bool.or_false]
    exact hany

/-- The test `searchStr.includes("*")` holds iff the string has a wildcard. -/
theorem includes_wildcard (s : String) :
    includes s (String.singleton settings.wildcard) = true ↔ settings.wildcard ∈ s.data := by
  unfold includes
  show includesList [settings.wildcard] s.data = true ↔ _
  induction s.data with
  | nil => simp [includesList, List.isPrefixOf]
  | cons c r ih =>
    unfold includesList
    rw [Bool.or_eq_true, ih, List.mem_cons]
    have hhead : List.isPrefixOf [settings.wildcard] (c :: r) = true ↔ settings.wildcard = c := by
      simp [List.isPrefixOf]
    rw [hhead]

/-- The characters of the isolated pattern of a pattern without `%`. -/
theorem isolatedPattern_data (cs : List Char) :
    ("^" ++ join (split (String.mk (cs.flatMap patternOfChar)) settings.orOperator) "$|^"
      ++ "$").data = '^' :: isolatedTail cs := by
  obtain ⟨b, bs, hsp, hiso⟩ := isolatedTail_eq cs
  have hparts : (split (String.mk (cs.flatMap patternOfChar)) settings.orOperator).map
      String.data = b :: bs := by
    unfold split
    rw [List.map_map, ← hsp]
    exact List.map_id _
  unfold join
  rw [hparts, hiso]
  rfl

/-- The expression compiled for a search string without `%`: its alternatives are
the branches of the search string, each between `^` and `$`. -/
theorem searchRegex_of_no_percent (h : Host) (s : String) (hs : '%' ∉ s.data) :
    searchRegex h s = .ok
      { safe := safeRegexFragment ((s.data.splitOn settings.orOperator).map branchAlternative)
        isMatch := fun text => searchFrom h.canonicalize
          ((s.data.splitOn settings.orOperator).map branchAlternative) none text.data } := by
  have hpat : replaceOperator settings.wildcard ".*" (escapeRegexPattern s) =
      String.mk (s.data.flatMap patternOfChar) := by
    rw [← pattern_data]
  unfold searchRegex
  rw [hpat, decodeURIComponent_of_no_percent _ (pattern_no_percent s.data hs)]
  show newRegExp h _ = _
  unfold newRegExp
  rw [isolatedPattern_data, parsePattern_bol, parsePattern_isolatedTail]
  show Except.ok _ = _
  rw [alternatives_eq]

/-- The number of repetitions of the compiled expression is the number of
wildcards of the search string. -/
theorem countRepetitions_branches (cs : List Char) :
    countRepetitions ((cs.splitOn settings.orOperator).map branchAlternative) =
      cs.count settings.wildcard := by
  rw [← alternatives_eq, countRepetitions_pushTerm, countRepetitions_tailAlternatives]
  show 0 + _ = _
  omega

/-- The search check on a search string without `%` that holds a wildcard: the
`patternTooComplex` error when there are more wildcards than the limit, and
otherwise whether the compiled expression finds a match in the normalized text
of a joke of type `single` or `twopart`. -/
theorem checkMatches_of_wildcard (h : Host) (self : FilteredJoke) (s : String)
    (hs : self._searchString = some s) (hpct : '%' ∉ s.data)
    (hw : settings.wildcard ∈ s.data) (joke : Joke) (lang : String) :
    self.checkMatchesSearchString h joke lang =
      if s.data.count settings.wildcard ≤ settings.regexRepetitionLimit then
        .ok (match normalizedText joke with
          | some text => searchFrom h.canonicalize
              ((s.data.splitOn settings.orOperator).map branchAlternative) none text.data
          | none => false)
      else .error (.tr lang "patternTooComplex" [s, toString settings.regexRepetitionLimit]) := by
  have hop := (includes_wildcard s).mpr hw
  have hne : s ≠ "" := by
    intro he
    rw [he] at hw
    cases hw
  have hred : reduce (containsOperatorCallback (some s)) searchStringOperatorValues =
      .ok (.bool true) := by
    unfold reduce searchStringOperatorValues containsOperatorCallback
    simp only [List.foldlM, JSVal.toStr, hop]
    rfl
  unfold FilteredJoke.checkMatchesSearchString FilteredJoke.getSearchString
  simp only [hs, Bool.not_true, Bool.false_eq_true, if_false]
  simp only [bind, Except.bind, hred, isEmptySearch, hne, decide_False, Bool.not_false,
    if_true, JSVal.truthy, Bool.not_true, Bool.false_eq_true, if_false, Option.getD_some,
    searchRegex_of_no_percent h s hpct, safeRegexFragment, countRepetitions_branches]
  by_cases hk : s.data.count settings.wildcard ≤ settings.regexRepetitionLimit
  · simp only [hk, decide_True, if_true]
    unfold normalizedText
    by_cases h1 : joke.type = "single"
    · by_cases hm : searchFrom h.canonicalize
        ((s.data.splitOn settings.orOperator).map branchAlternative) none
          (replaceNewlines joke.joke).data = true
      · simp [h1, hm, pure, Except.pure]
      · simp [h1, hm, pure, Except.pure]
    · by_cases h2 : joke.type = "twopart"
      · by_cases hm : searchFrom h.canonicalize
          ((s.data.splitOn settings.orOperator).map branchAlternative) none
            (replaceNewlines (joke.setup ++ " " ++ joke.delivery)).data = true
        · simp [h1, h2, hm, pure, Except.pure]
        · simp [h1, h2, hm, pure, Except.pure]
      · simp [h1, h2, pure, Except.pure]
  · simp only [hk, decide_False, Bool.false_eq_true, if_false]
    rfl

/-- Without a wildcard in the search string the search check throws nothing. -/
theorem checkMatches_no_wildcard (h : Host) (self : FilteredJoke) (s : String)
    (hs : self._searchString = some s) (hw : settings.wildcard ∉ s.data)
    (joke : Joke) (lang : String) :
    ∃ b, self.checkMatchesSearchString h joke lang = .ok b := by
  have hop : includes s (String.singleton settings.wildcard) = false := by
    rw [← Bool.not_eq_true, includes_wildcard]
    exact hw
  have hred : reduce (containsOperatorCallback (some s)) searchStringOperatorValues =
      .ok (.bool false) := by
    unfold reduce searchStringOperatorValues containsOperatorCallback
    simp only [List.foldlM, JSVal.toStr, hop]
    rfl
  unfold FilteredJoke.checkMatchesSearchString FilteredJoke.getSearchString
  simp only [hs, Bool.not_true, Bool.false_eq_true, if_false]
  simp only [bind, Except.bind, hred, JSVal.truthy, Bool.not_false, if_true]
  split_ifs <;> exact ⟨_, rfl⟩

/-- C13 (confirmed): for a search string without `%` that is stored in the
criteria object, `checkMatchesSearchString` throws the `patternTooComplex` error,
which carries the search string and the configured limit, iff the search string
holds more wildcards than `settings.jokes.regexRepetitionLimit`; with at most
that many wildcards nothing is thrown and a boolean is returned. The OR operator
adds no repetition, so its absence is not needed. -/
theorem C13_too_complex_iff_over_limit (h : Host) (self : FilteredJoke) (s : String)
    (hs : self._searchString = some s) (hpct : '%' ∉ s.data) (joke : Joke) (lang : String) :
    (self.checkMatchesSearchString h joke lang =
        .error (.tr lang "patternTooComplex" [s, toString settings.regexRepetitionLimit]) ↔
      settings.regexRepetitionLimit < s.data.count settings.wildcard) ∧
    (s.data.count settings.wildcard ≤ settings.regexRepetitionLimit →
      ∃ b, self.checkMatchesSearchString h joke lang = .ok b) := by
  have hok : s.data.count settings.wildcard ≤ settings.regexRepetitionLimit →
      ∃ b, self.checkMatchesSearchString h joke lang = .ok b := by
    intro hk
    by_cases hw : settings.wildcard ∈ s.data
    · rw [checkMatches_of_wildcard h self s hs hpct hw joke lang, if_pos hk]
      exact ⟨_, rfl⟩
    · exact checkMatches_no_wildcard h self s hs hw joke lang
  refine ⟨⟨?_, ?_⟩, hok⟩
  · intro herr
    by_contra hk
    obtain ⟨b, hb⟩ := hok (Nat.le_of_not_lt hk)
    rw [hb] at herr
    cases herr
  · intro hk
    have hw : settings.wildcard ∈ s.data :=
      List.count_pos_iff.mp (Nat.lt_of_le_of_lt (Nat.zero_le _) hk)
    rw [checkMatches_of_wildcard h self s hs hpct hw joke lang, if_neg (Nat.not_le_of_lt hk)]

/-- Witness of C13: a search string of eleven wildcards. -/
theorem C13_witness :
    (criteriaWithSearch "***********")._searchString = some "***********" ∧
      '%' ∉ "***********".data ∧
      (((criteriaWithSearch "***********").checkMatchesSearchString asciiHost exampleJokeA
            "en" =
          .error (.tr "en" "patternTooComplex"
            ["***********", toString settings.regexRepetitionLimit]) ↔
        settings.regexRepetitionLimit < "***********".data.count settings.wildcard) ∧
      ("***********".data.count settings.wildcard ≤ settings.regexRepetitionLimit →
        ∃ b, (criteriaWithSearch "***********").checkMatchesSearchString asciiHost
          exampleJokeA "en" = .ok b)) :=
  ⟨by decide, by decide,
    C13_too_complex_iff_over_limit asciiHost (criteriaWithSearch "***********")
      "***********" (by decide) (by decide) exampleJokeA "en"⟩

/-- Counterexample to C11 as stated: the text of `twoLineJoke` holds a carriage
return, which `replace(/\n/g, " ")` leaves in place. The search string
`knock*there?` matches the whole normalized text when `*` stands for any run of
characters, yet the code returns `false`, as `.` does not match a carriage return;
the search string ` who*` matches only the part of the text after the carriage
return, yet the code returns `true`, as `^` matches after a carriage return under
the `m` flag. -/
theorem C11_counterexample :
    normalizedText twoLineJoke = some "Knock knock.\r Who is there?" ∧
      '%' ∉ "knock*there?".data ∧
      "knock*there?".data.count settings.wildcard = 1 ∧
      (criteriaWithSearch "knock*there?").checkMatchesSearchString asciiHost twoLineJoke
        "en" = .ok false ∧
      someBranchMatches asciiHost.canonicalize "knock*there?"
        "Knock knock.\r Who is there?" = true ∧
      '%' ∉ " who*".data ∧
      " who*".data.count settings.wildcard = 1 ∧
      (criteriaWithSearch " who*").checkMatchesSearchString asciiHost twoLineJoke "en" =
        .ok true ∧
      someBranchMatches asciiHost.canonicalize " who*"
        "Knock knock.\r Who is there?" = false := by
  decide

/-- C11 (corrected): for a search string without `%` that holds at least one and
at most `regexRepetitionLimit` wildcards, and a joke of type `single` or
`twopart` whose normalized text holds no line terminator (carriage return,
U+2028, U+2029; line feeds are replaced by spaces), `checkMatchesSearchString`
returns whether the whole normalized text matches some OR-separated branch, `*`
matching any run of characters and every other character matching itself up to
the case folding of the engine. -/
theorem C11_matches_iff_some_branch_matches (h : Host) (self : FilteredJoke) (s : String)
    (hs : self._searchString = some s) (hpct : '%' ∉ s.data)
    (hk1 : 1 ≤ s.data.count settings.wildcard)
    (hk2 : s.data.count settings.wildcard ≤ settings.regexRepetitionLimit)
    (joke : Joke) (lang : String) (text : String)
    (htext : normalizedText joke = some text)
    (hterm : ∀ c ∈ text.data, isLineTerminator c = false) :
    self.checkMatchesSearchString h joke lang =
      .ok (someBranchMatches h.canonicalize s text) := by
  have hw : settings.wildcard ∈ s.data := List.count_pos_iff.mp hk1
  rw [checkMatches_of_wildcard h self s hs hpct hw joke lang, if_pos hk2, htext]
  exact congrArg Except.ok (searchFrom_branches h.canonicalize _ text.data hterm)

/-- Witness of C11: the search string `why*yes|foo*` on the example joke of type
`twopart`, whose line feed is replaced by a space. -/
theorem C11_witness :
    (criteriaWithSearch "why*yes|foo*")._searchString = some "why*yes|foo*" ∧
      '%' ∉ "why*yes|foo*".data ∧
      1 ≤ "why*yes|foo*".data.count settings.wildcard ∧
      "why*yes|foo*".data.count settings.wildcard ≤ settings.regexRepetitionLimit ∧
      normalizedText exampleJokeC = some "Why? Because. Yes" ∧
      (∀ c ∈ "Why? Because. Yes".data, isLineTerminator c = false) ∧
      someBranchMatches asciiHost.canonicalize "why*yes|foo*" "Why? Because. Yes" = true ∧
      (criteriaWithSearch "why*yes|foo*").checkMatchesSearchString asciiHost exampleJokeC
        "en" = .ok (someBranchMatches asciiHost.canonicalize "why*yes|foo*"
          "Why? Because. Yes") :=
  ⟨by decide, by decide, by decide, by decide, by decide, by decide, by decide,
    C11_matches_iff_some_branch_matches asciiHost (criteriaWithSearch "why*yes|foo*")
      "why*yes|foo*" (by decide) (by decide) (by decide) (by decide) exampleJokeC "en"
      "Why? Because. Yes" (by decide) (by decide)⟩

/-- C12 (code bug): the code escapes the search string first and percent-decodes
afterwards. For the search string `%2E*` the pattern is `..*`, where the decoded
dot is a live metacharacter, whereas decoding first and escaping afterwards
gives `\..*`; so the joke `xa`, which holds no dot, passes the search check,
although it does not match a literal dot followed by any run of characters. -/
theorem C12_decodes_after_escaping :
    decodeURIComponent
        (replaceOperator settings.wildcard ".*" (escapeRegexPattern "%2E*")) = .ok "..*" ∧
      (decodeURIComponent "%2E*").map
        (fun decoded => replaceOperator settings.wildcard ".*" (escapeRegexPattern decoded)) =
          .ok "\\..*" ∧
      (criteriaWithSearch "%2E*").checkMatchesSearchString asciiHost dotlessJoke "en" =
        .ok true ∧
      normalizedText dotlessJoke = some "xa" ∧
      someBranchMatches asciiHost.canonicalize ".*" "xa" = false := by
  decide

/-! ## Lemmas and claims on the setters -/

/-- C21: `setAmount` returns `true` iff `parseInt(num)` is a number from 1 to
`settings.jokes.maxAmount`, and `getAmount()` is then that number; otherwise it
returns its error string and `getAmount()` is what it was. The amounts 0, -1 and
`maxAmount + 1` fail, `maxAmount` succeeds. -/
theorem C21_setAmount_within_bounds (self : FilteredJoke) (num : Option Int) :
    ((self.setAmount num).1 = .bool true ↔
        ∃ n, num = some n ∧ 1 ≤ n ∧ n ≤ (settings.maxAmount : Int)) ∧
      (∀ n, num = some n → 1 ≤ n → n ≤ (settings.maxAmount : Int) →
        (((self.setAmount num).2.getAmount : Nat) : Int) = n) ∧
      ((self.setAmount num).1 ≠ .bool true →
        (self.setAmount num).1 = .str setAmountError ∧
          (self.setAmount num).2.getAmount = self.getAmount) ∧
      (self.setAmount (some 0)).1 = .str setAmountError ∧
      (self.setAmount (some (-1))).1 = .str setAmountError ∧
      (self.setAmount (some ((settings.maxAmount : Int) + 1))).1 = .str setAmountError ∧
      (self.setAmount (some (settings.maxAmount : Int))).1 = .bool true := by
  refine ⟨?_, ?_, ?_, rfl, rfl, rfl, rfl⟩
  · cases num with
    | none =>
      constructor
      · intro hres
        cases hres
      · rintro ⟨n, hn, _⟩
        cases hn
    | some n =>
      unfold FilteredJoke.setAmount
      dsimp only
      by_cases hout : n < 1 ∨ n > (settings.maxAmount : Int)
      · rw [if_pos hout]
        constructor
        · intro hres
          cases hres
        · rintro ⟨m, hm, h1, h2⟩
          injection hm with hm
          subst hm
          omega
      · rw [if_neg hout]
        constructor
        · intro _
          exact ⟨n, rfl, by omega, by omega⟩
        · intro _
          rfl
  · intro n hn h1 h2
    subst hn
    unfold FilteredJoke.setAmount
    dsimp only
    rw [if_neg (by omega)]
    unfold FilteredJoke.getAmount
    dsimp only
    have hpos : n.toNat ≠ 0 := by omega
    rw [if_neg hpos]
    omega
  · cases num with
    | none =>
      intro _
      exact ⟨rfl, rfl⟩
    | some n =>
      unfold FilteredJoke.setAmount
      dsimp only
      by_cases hout : n < 1 ∨ n > (settings.maxAmount : Int)
      · rw [if_pos hout]
        intro _
        exact ⟨rfl, rfl⟩
      · rw [if_neg hout]
        intro hres
        exact absurd rfl hres

/-- Witness of C21: the amount 3 on the fresh criteria object. -/
theorem C21_witness :
    (freshCriteria.setAmount (some 3)).1 = .bool true ∧
      (((freshCriteria.setAmount (some 3)).2.getAmount : Nat) : Int) = 3 ∧
      (freshCriteria.setAmount (some 11)).1 = .str setAmountError ∧
      (freshCriteria.setAmount (some 11)).2.getAmount = freshCriteria.getAmount :=
  have h3 := C21_setAmount_within_bounds freshCriteria (some 3)
  have h11 := C21_setAmount_within_bounds freshCriteria (some 11)
  ⟨h3.1.mpr ⟨3, rfl, by decide, by decide⟩, h3.2.1 3 rfl (by decide) (by decide),
    (h11.2.2.1 (by decide)).1, (h11.2.2.1 (by decide)).2⟩

/-- One `true` is collected for every entry iff every entry passes the test. -/
theorem filterMap_length_eq_iff {α : Type} (p : α → Prop) [DecidablePred p] (l : List α) :
    (l.filterMap fun x => if p x then some true else none).length = l.length ↔
      ∀ x ∈ l, p x := by
  induction l with
  | nil => simp
  | cons a l ih =>
    by_cases ha : p a
    · rw [List.filterMap_cons_some (by rw [if_pos ha])]
      simp only [List.length_cons, Nat.add_right_cancel_iff, ih, List.mem_cons, forall_eq_or_imp,
        ha, true_and]
    · rw [List.filterMap_cons_none (by rw [if_neg ha])]
      have hle := List.length_filterMap_le (fun x => if p x then some true else none) l
      constructor
      · intro hlen
        rw [List.length_cons] at hlen
        omega
      · intro hall
        exact absurd (hall a (List.mem_cons_self _ _)) ha

/-- C22: `setAllowedCategories` on a list of strings returns `true` iff every
entry equals, after lower-casing, `Any` or a configured category. When it returns
`false` the allowed categories are as before and one error is appended. When it
returns `true`, `getAllowedCategories()` is the lower-cased list of the configured
categories if some entry equals `any` after lower-casing, and the lower-cased
input otherwise. -/
theorem C22_setAllowedCategories_valid_iff (h : Host) (self : FilteredJoke)
    (cats : List String) :
    ((self.setAllowedCategories h cats).1 = true ↔
        ∀ cat ∈ cats, h.toLowerCase cat = h.toLowerCase settings.anyCategoryName ∨
          ∃ c ∈ settings.categories, h.toLowerCase cat = h.toLowerCase c) ∧
      ((self.setAllowedCategories h cats).1 = false →
        (self.setAllowedCategories h cats).2.getAllowedCategories h =
            self.getAllowedCategories h ∧
          ∃ msg, (self.setAllowedCategories h cats).2 =
            { self with _errors := self._errors ++ [msg] }) ∧
      ((self.setAllowedCategories h cats).1 = true →
        ((∃ cat ∈ cats, h.toLowerCase cat = h.toLowerCase settings.anyCategoryName) →
          (self.setAllowedCategories h cats).2.getAllowedCategories h =
            settings.categories.map h.toLowerCase) ∧
        ((¬ ∃ cat ∈ cats, h.toLowerCase cat = h.toLowerCase settings.anyCategoryName) →
          (self.setAllowedCategories h cats).2.getAllowedCategories h =
            cats.map h.toLowerCase) ∧
        (self.setAllowedCategories h cats).2._errors = self._errors) := by
  have hvalid : ∀ cat, h.toLowerCase cat ∈
      h.toLowerCase settings.anyCategoryName :: settings.categories.map h.toLowerCase ↔
      (h.toLowerCase cat = h.toLowerCase settings.anyCategoryName ∨
        ∃ c ∈ settings.categories, h.toLowerCase cat = h.toLowerCase c) := by
    intro cat
    rw [List.mem_cons, List.mem_map]
    constructor
    · rintro (h1 | ⟨c, hc, h2⟩)
      · exact Or.inl h1
      · exact Or.inr ⟨c, hc, h2.symm⟩
    · rintro (h1 | ⟨c, hc, h2⟩)
      · exact Or.inl h1
      · exact Or.inr ⟨c, hc, h2.symm⟩
  have hany : h.toLowerCase settings.anyCategoryName ∈ cats.map h.toLowerCase ↔
      ∃ cat ∈ cats, h.toLowerCase cat = h.toLowerCase settings.anyCategoryName := by
    rw [List.mem_map]
  have hlen := filterMap_length_eq_iff
    (fun cat => h.toLowerCase cat ∈
      h.toLowerCase settings.anyCategoryName :: settings.categories.map h.toLowerCase) cats
  unfold FilteredJoke.setAllowedCategories
  dsimp only
  by_cases hall : (cats.filterMap fun cat =>
      if h.toLowerCase cat ∈
        h.toLowerCase settings.anyCategoryName :: settings.categories.map h.toLowerCase
      then some true else none).length = cats.length
  · rw [if_neg (not_not.mpr hall)]
    refine ⟨⟨fun _ cat hcat => (hvalid cat).mp (hlen.mp hall cat hcat), fun _ => rfl⟩,
      fun hf => (by cases hf), fun _ => ⟨?_, ?_, rfl⟩⟩
    · intro hex
      unfold FilteredJoke.getAllowedCategories
      dsimp only
      rw [if_pos (hany.mpr hex)]
    · intro hex
      unfold FilteredJoke.getAllowedCategories
      dsimp only
      rw [if_neg (fun hmem => hex (hany.mp hmem))]
  · rw [if_pos hall]
    refine ⟨⟨fun ht => (by cases ht), fun hcats => ?_⟩, fun _ => ⟨rfl, _, rfl⟩,
      fun ht => (by cases ht)⟩
    exact absurd (hlen.mpr fun cat hcat => (hvalid cat).mpr (hcats cat hcat)) hall

/-- Witness of C22: a list that holds `ANY` in second place. -/
theorem C22_witness :
    (freshCriteria.setAllowedCategories asciiHost ["pun", "ANY"]).1 = true ∧
      (freshCriteria.setAllowedCategories asciiHost ["pun", "ANY"]).2.getAllowedCategories
          asciiHost = settings.categories.map asciiHost.toLowerCase ∧
      (freshCriteria.setAllowedCategories asciiHost ["Pun", "Jokes"]).1 = false ∧
      (freshCriteria.setAllowedCategories asciiHost ["Pun", "Jokes"]).2.getAllowedCategories
          asciiHost = freshCriteria.getAllowedCategories asciiHost :=
  have hyes := C22_setAllowedCategories_valid_iff asciiHost freshCriteria ["pun", "ANY"]
  have hno := C22_setAllowedCategories_valid_iff asciiHost freshCriteria ["Pun", "Jokes"]
  ⟨by decide, (hyes.2.2 (by decide)).1 ⟨"ANY", by decide, by decide⟩, by decide,
    (hno.2.1 (by decide)).1⟩

/-- C27: `setAllowedType` returns `true` iff its argument is exactly `single` or
`twopart`; then `getAllowedTypes()` is the singleton of the argument and `_errors`
is as before; otherwise the allowed types are as before and one error is
appended. -/
theorem C27_setAllowedType_exact (self : FilteredJoke) (type : String) :
    ((self.setAllowedType type).1 = true ↔ type = "single" ∨ type = "twopart") ∧
      ((self.setAllowedType type).1 = true →
        (self.setAllowedType type).2.getAllowedTypes = [type] ∧
          (self.setAllowedType type).2._errors = self._errors) ∧
      ((self.setAllowedType type).1 = false →
        (self.setAllowedType type).2.getAllowedTypes = self.getAllowedTypes ∧
          ∃ msg, (self.setAllowedType type).2 =
            { self with _errors := self._errors ++ [msg] }) := by
  have hmem : type ∈ settings.types ↔ type = "single" ∨ type = "twopart" := by
    unfold settings.types
    simp only [List.mem_cons, List.mem_singleton, List.not_mem_nil, or_false]
  unfold FilteredJoke.setAllowedType
  by_cases ht : type ∈ settings.types
  · rw [if_pos ht]
    exact ⟨⟨fun _ => hmem.mp ht, fun _ => rfl⟩, fun _ => ⟨rfl, rfl⟩, fun hf => (by cases hf)⟩
  · rw [if_neg ht]
    exact ⟨⟨fun hf => (by cases hf), fun hyes => absurd (hmem.mpr hyes) ht⟩,
      fun hf => (by cases hf), fun _ => ⟨rfl, _, rfl⟩⟩

/-- Witness of C27: `twopart` is accepted, `Single` is not. -/
theorem C27_witness :
    (freshCriteria.setAllowedType "twopart").2.getAllowedTypes = ["twopart"] ∧
      (freshCriteria.setAllowedType "Single").1 = false ∧
      (freshCriteria.setAllowedType "Single").2.getAllowedTypes =
        freshCriteria.getAllowedTypes :=
  ⟨((C27_setAllowedType_exact freshCriteria "twopart").2.1 (by decide)).1, by decide,
    ((C27_setAllowedType_exact freshCriteria "Single").2.2 (by decide)).1⟩

/-- C28: `setBlacklistFlags` returns `true` iff every entry is one of the six
configured flag names; then `getBlacklistFlags()` is the given list and `_errors`
is as before; otherwise the blacklist is as before and one error is appended. -/
theorem C28_setBlacklistFlags_exact (self : FilteredJoke) (flags : List String) :
    settings.flags.length = 6 ∧
      ((self.setBlacklistFlags flags).1 = true ↔ ∀ flag ∈ flags, flag ∈ settings.flags) ∧
      ((self.setBlacklistFlags flags).1 = true →
        (self.setBlacklistFlags flags).2.getBlacklistFlags = flags ∧
          (self.setBlacklistFlags flags).2._errors = self._errors) ∧
      ((self.setBlacklistFlags flags).1 = false →
        (self.setBlacklistFlags flags).2.getBlacklistFlags = self.getBlacklistFlags ∧
          ∃ msg, (self.setBlacklistFlags flags).2 =
            { self with _errors := self._errors ++ [msg] }) := by
  have hany : (flags.any fun flag => decide (flag ∉ settings.flags)) = true ↔
      ¬ ∀ flag ∈ flags, flag ∈ settings.flags := by
    rw [List.any_eq_true]
    constructor
    · rintro ⟨flag, hflag, hnot⟩ hall
      exact (of_decide_eq_true hnot) (hall flag hflag)
    · intro hnall
      by_contra hnone
      apply hnall
      intro flag hflag
      by_contra hnot
      exact hnone ⟨flag, hflag, decide_eq_true hnot⟩
  refine ⟨rfl, ?_⟩
  unfold FilteredJoke.setBlacklistFlags
  dsimp only
  by_cases hbad : (flags.any fun flag => decide (flag ∉ settings.flags)) = true
  · rw [if_pos hbad]
    exact ⟨⟨fun hf => (by cases hf), fun hall => absurd hall (hany.mp hbad)⟩,
      fun hf => (by cases hf), fun _ => ⟨rfl, _, rfl⟩⟩
  · rw [if_neg hbad]
    exact ⟨⟨fun _ => not_not.mp (fun hn => hbad (hany.mpr hn)), fun _ => rfl⟩,
      fun _ => ⟨rfl, rfl⟩, fun hf => (by cases hf)⟩

/-- Witness of C28: two configured flags are accepted, `NSFW` is not. -/
theorem C28_witness :
    (freshCriteria.setBlacklistFlags ["racist", "nsfw"]).2.getBlacklistFlags =
        ["racist", "nsfw"] ∧
      (freshCriteria.setBlacklistFlags ["NSFW"]).1 = false ∧
      (freshCriteria.setBlacklistFlags ["NSFW"]).2.getBlacklistFlags =
        freshCriteria.getBlacklistFlags :=
  ⟨((C28_setBlacklistFlags_exact freshCriteria ["racist", "nsfw"]).2.2.1 (by decide)).1,
    by decide,
    ((C28_setBlacklistFlags_exact freshCriteria ["NSFW"]).2.2.2 (by decide)).1⟩

/-- When `setIdRange` returns, it has either stored a new range and returned
`true`, or appended one error and returned `false`. -/
theorem setIdRange_ok_shape (self : FilteredJoke) (start : NumberArg)
    (stop : Option NumberArg) (lang : Option String) (result : Bool × FilteredJoke)
    (hres : self.setIdRange start stop lang = .ok result) :
    (result.1 = true ∧
        ∃ range, result.2 = { self with _idRange := range, allocated := self.allocated + 1 }) ∨
      (result.1 = false ∧ ∃ msg, result.2 = { self with _errors := self._errors ++ [msg] }) := by
  unfold FilteredJoke.setIdRange at hres
  dsimp only at hres
  repeat' (first | split at hres | split_ifs at hres)
  all_goals
    first
      | (injection hres with hres
         rw [← hres]
         first
           | exact Or.inr ⟨rfl, _, rfl⟩
           | exact Or.inl ⟨rfl, _, rfl⟩)
      | injection hres

/-- No setter call empties the allowed types. -/
theorem afterCall_allowedTypes (h : Host) (langs : Langs) (self : FilteredJoke)
    (call : SetterCall) (htypes : self._allowedTypes ≠ []) :
    (self.afterCall h langs call)._allowedTypes ≠ [] := by
  cases call with
  | setAllowedCategories categories =>
    unfold FilteredJoke.afterCall FilteredJoke.setAllowedCategories
    dsimp only
    split_ifs <;> exact htypes
  | setAllowedType type =>
    unfold FilteredJoke.afterCall FilteredJoke.setAllowedType
    dsimp only
    split_ifs
    · exact List.cons_ne_nil _ _
    · exact htypes
  | setSearchString searchString =>
    cases searchString <;> exact htypes
  | setIdRange start stop lang =>
    unfold FilteredJoke.afterCall
    dsimp only
    cases hres : self.setIdRange start stop lang with
    | error err => exact htypes
    | ok result =>
      dsimp only
      rcases setIdRange_ok_shape self start stop lang result hres with
        ⟨_, range, hr⟩ | ⟨_, msg, hr⟩
      · rw [hr]
        exact htypes
      · rw [hr]
        exact htypes
  | setBlacklistFlags flags =>
    unfold FilteredJoke.afterCall FilteredJoke.setBlacklistFlags
    dsimp only
    split_ifs <;> exact htypes
  | setLanguage code =>
    unfold FilteredJoke.afterCall FilteredJoke.setLanguage
    dsimp only
    split_ifs <;> exact htypes
  | setSafeMode safeModeEnabled =>
    cases safeModeEnabled <;> exact htypes
  | setAmount num =>
    unfold FilteredJoke.afterCall FilteredJoke.setAmount
    cases num with
    | none => exact htypes
    | some n =>
      dsimp only
      split_ifs <;> exact htypes

/-- No setter call empties the allowed categories, except a call of
`setAllowedCategories` with the empty list. -/
theorem afterCall_allowedCategories (h : Host) (langs : Langs) (self : FilteredJoke)
    (call : SetterCall) (hcall : call ≠ .setAllowedCategories [])
    (hcats : self._allowedCategories ≠ []) :
    (self.afterCall h langs call)._allowedCategories ≠ [] := by
  cases call with
  | setAllowedCategories categories =>
    have hne : categories ≠ [] := fun he => hcall (by rw [he])
    unfold FilteredJoke.afterCall FilteredJoke.setAllowedCategories
    dsimp only
    split_ifs
    · exact hcats
    · exact List.cons_ne_nil _ _
    · exact hne
  | setAllowedType type =>
    unfold FilteredJoke.afterCall FilteredJoke.setAllowedType
    dsimp only
    split_ifs <;> exact hcats
  | setSearchString searchString =>
    cases searchString <;> exact hcats
  | setIdRange start stop lang =>
    unfold FilteredJoke.afterCall
    dsimp only
    cases hres : self.setIdRange start stop lang with
    | error err => exact hcats
    | ok result =>
      dsimp only
      rcases setIdRange_ok_shape self start stop lang result hres with
        ⟨_, range, hr⟩ | ⟨_, msg, hr⟩
      · rw [hr]
        exact hcats
      · rw [hr]
        exact hcats
  | setBlacklistFlags flags =>
    unfold FilteredJoke.afterCall FilteredJoke.setBlacklistFlags
    dsimp only
    split_ifs <;> exact hcats
  | setLanguage code =>
    unfold FilteredJoke.afterCall FilteredJoke.setLanguage
    dsimp only
    split_ifs <;> exact hcats
  | setSafeMode safeModeEnabled =>
    cases safeModeEnabled <;> exact hcats
  | setAmount num =>
    unfold FilteredJoke.afterCall FilteredJoke.setAmount
    cases num with
    | none => exact hcats
    | some n =>
      dsimp only
      split_ifs <;> exact hcats

/-- No setter call writes to the table of ID ranges per language. -/
theorem afterCall_idRangePerLang (h : Host) (langs : Langs) (self : FilteredJoke)
    (call : SetterCall) :
    (self.afterCall h langs call)._idRangePerLang = self._idRangePerLang := by
  cases call with
  | setAllowedCategories categories =>
    unfold FilteredJoke.afterCall FilteredJoke.setAllowedCategories
    dsimp only
    split_ifs <;> rfl
  | setAllowedType type =>
    unfold FilteredJoke.afterCall FilteredJoke.setAllowedType
    dsimp only
    split_ifs <;> rfl
  | setSearchString searchString =>
    cases searchString <;> rfl
  | setIdRange start stop lang =>
    unfold FilteredJoke.afterCall
    dsimp only
    cases hres : self.setIdRange start stop lang with
    | error err => rfl
    | ok result =>
      dsimp only
      rcases setIdRange_ok_shape self start stop lang result hres with
        ⟨_, range, hr⟩ | ⟨_, msg, hr⟩
      · rw [hr]
      · rw [hr]
  | setBlacklistFlags flags =>
    unfold FilteredJoke.afterCall FilteredJoke.setBlacklistFlags
    dsimp only
    split_ifs <;> rfl
  | setLanguage code =>
    unfold FilteredJoke.afterCall FilteredJoke.setLanguage
    dsimp only
    split_ifs <;> rfl
  | setSafeMode safeModeEnabled =>
    cases safeModeEnabled <;> rfl
  | setAmount num =>
    unfold FilteredJoke.afterCall FilteredJoke.setAmount
    cases num with
    | none => rfl
    | some n =>
      dsimp only
      split_ifs <;> rfl

/-- A sequence of setter calls keeps what every single call keeps. -/
theorem afterCalls_induction (h : Host) (langs : Langs) (inv : FilteredJoke → Prop)
    (allowed : SetterCall → Prop)
    (hstep : ∀ self call, allowed call → inv self → inv (self.afterCall h langs call))
    (calls : List SetterCall) (hcalls : ∀ call ∈ calls, allowed call) :
    ∀ self, inv self → inv (self.afterCalls h langs calls) := by
  induction calls with
  | nil =>
    intro self hself
    exact hself
  | cons call rest ih =>
    intro self hself
    exact ih (fun c hc => hcalls c (List.mem_cons_of_mem _ hc)) _
      (hstep self call (hcalls call (List.mem_cons_self _ _)) hself)

/-- What the constructor stores in the fields the setters are checked against. -/
theorem new_fields (h : Host) (counts : List (String × Nat)) (fresh : FilteredJoke)
    (hnew : FilteredJoke.new h counts = some fresh) :
    fresh._allowedTypes = settings.types ∧
      fresh._allowedCategories =
        h.toLowerCase settings.anyCategoryName :: settings.categories.map h.toLowerCase ∧
      fresh._idRangePerLang = idRangePerLang 0 counts := by
  unfold FilteredJoke.new at hnew
  cases hlook : counts.lookup settings.defaultLanguage with
  | none =>
    rw [hlook] at hnew
    cases hnew
  | some count =>
    rw [hlook] at hnew
    injection hnew with hnew
    rw [← hnew]
    exact ⟨rfl, rfl, rfl⟩

/-- C23 (counterexample): on the criteria object the constructor builds for the
example corpus, `setAllowedCategories([])` returns `true` and leaves no allowed
category. -/
theorem C23_counterexample :
    FilteredJoke.new asciiHost [("en", 3)] = some freshCriteria ∧
      (freshCriteria.setAllowedCategories asciiHost []).1 = true ∧
      (freshCriteria.afterCalls asciiHost (exampleEnv []).langs
        [.setAllowedCategories []]).getAllowedCategories asciiHost = [] := by
  decide

/-- C23 (amended): after any sequence of setter calls on a freshly constructed
object the allowed types are not empty, and the allowed categories are not empty
either when no call of the sequence was `setAllowedCategories` with the empty
list. -/
theorem C23_allowed_sets_nonempty (h : Host) (langs : Langs)
    (counts : List (String × Nat)) (fresh : FilteredJoke) (calls : List SetterCall)
    (hnew : FilteredJoke.new h counts = some fresh) :
    (fresh.afterCalls h langs calls).getAllowedTypes ≠ [] ∧
      (SetterCall.setAllowedCategories [] ∉ calls →
        (fresh.afterCalls h langs calls).getAllowedCategories h ≠ []) := by
  obtain ⟨htypes, hcats, _⟩ := new_fields h counts fresh hnew
  constructor
  · unfold FilteredJoke.getAllowedTypes
    apply afterCalls_induction h langs (fun self => self._allowedTypes ≠ []) (fun _ => True)
      (fun self call _ hself => afterCall_allowedTypes h langs self call hself) calls
      (fun _ _ => trivial) fresh
    rw [htypes]
    decide
  · intro hnone
    unfold FilteredJoke.getAllowedCategories
    have hinv := afterCalls_induction h langs (fun self => self._allowedCategories ≠ [])
      (fun call => call ≠ .setAllowedCategories [])
      (fun self call hcall hself => afterCall_allowedCategories h langs self call hcall hself)
      calls (fun call hcall he => hnone (he ▸ hcall)) fresh
      (by show fresh._allowedCategories ≠ []; rw [hcats]; exact List.cons_ne_nil _ _)
    intro hempty
    exact hinv (List.map_eq_nil_iff.mp hempty)

/-- Witness of C23 (amended): a sequence of four calls, two of which fail. -/
theorem C23_witness :
    FilteredJoke.new asciiHost [("en", 3)] = some freshCriteria ∧
      (freshCriteria.afterCalls asciiHost (exampleEnv []).langs
        [.setAllowedType "both", .setAllowedCategories ["pun"], .setAllowedCategories ["x"],
          .setAllowedType "single"]).getAllowedTypes ≠ [] ∧
      (freshCriteria.afterCalls asciiHost (exampleEnv []).langs
        [.setAllowedType "both", .setAllowedCategories ["pun"], .setAllowedCategories ["x"],
          .setAllowedType "single"]).getAllowedCategories asciiHost ≠ [] :=
  have hboth := C23_allowed_sets_nonempty asciiHost (exampleEnv []).langs [("en", 3)]
    freshCriteria
    [.setAllowedType "both", .setAllowedCategories ["pun"], .setAllowedCategories ["x"],
      .setAllowedType "single"] (by decide)
  ⟨by decide, hboth.1, hboth.2 (by simp)⟩

/-- The table of ID ranges per language holds, for every language with a joke
count, the range from 0 to that count minus one, and nothing for the others. -/
theorem lookup_idRangePerLang (L : String) (counts : List (String × Nat)) :
    ∀ ref, (counts.lookup L = none ∧ (idRangePerLang ref counts).lookup L = none) ∨
      ∃ r count, counts.lookup L = some count ∧
        (idRangePerLang ref counts).lookup L =
          some { ref := r, start := 0, stop := (((count : Int) - 1 : Int) : ℚ) } := by
  induction counts with
  | nil =>
    intro ref
    exact Or.inl ⟨rfl, rfl⟩
  | cons entry rest ih =>
    intro ref
    obtain ⟨lc, count⟩ := entry
    unfold idRangePerLang
    by_cases hkey : (L == lc) = true
    · refine Or.inr ⟨ref, count, ?_, ?_⟩
      · rw [List.lookup_cons, hkey]
      · rw [List.lookup_cons, hkey]
    · have hkey2 : (L == lc) = false := Bool.eq_false_iff.mpr hkey
      rw [List.lookup_cons, List.lookup_cons, hkey2]
      exact ih (ref + 1)

/-- A sequence of setter calls leaves the table of ID ranges per language as the
constructor built it. -/
theorem afterCalls_idRangePerLang (h : Host) (langs : Langs)
    (counts : List (String × Nat)) (fresh : FilteredJoke) (calls : List SetterCall)
    (hnew : FilteredJoke.new h counts = some fresh) :
    (fresh.afterCalls h langs calls)._idRangePerLang = idRangePerLang 0 counts :=
  afterCalls_induction h langs (fun self => self._idRangePerLang = idRangePerLang 0 counts)
    (fun _ => True)
    (fun self call _ hself => (afterCall_idRangePerLang h langs self call).trans hself)
    calls (fun _ _ => trivial) fresh (new_fields h counts fresh hnew).2.2

/-- When `start`, or an `end` that is not empty, is not a finite number,
`setIdRange` returns `false` and appends the error about values that are not
numbers. -/
theorem setIdRangeOfValues_non_number (self : FilteredJoke) (start stop : ArgValue)
    (lang : Option String)
    (hbad : (∀ q, start ≠ .number q) ∨ (stop.isEmpty = false ∧ ∀ q, stop ≠ .number q)) :
    self.setIdRangeOfValues start stop lang =
      .ok (false, { self with
        _errors := self._errors ++ ["The \"idRange\" parameter values are not numbers"] }) := by
  unfold FilteredJoke.setIdRangeOfValues FilteredJoke.setIdRange
  rcases hbad with hstart | ⟨hfull, hstop⟩
  · cases start with
    | number q => exact absurd rfl (hstart q)
    | _ => rfl
  · rw [hfull]
    cases stop with
    | number q => exact absurd rfl (hstop q)
    | _ => cases start <;> rfl

/-- C24 (counterexample): on the criteria object built for the example corpus of
three jokes, `setIdRange(0, 999, "constructor")` returns `true` and stores
`[0, 999]`. The table of ranges has no own entry `constructor`; the lookup finds
the inherited property of that name, whose element `1` is `undefined`, and
`999 > undefined` is false. There is no joke count for that name, and 999 exceeds
the joke count of the corpus. -/
theorem C24_counterexample :
    FilteredJoke.new asciiHost [("en", 3)] = some freshCriteria ∧
      freshCriteria._idRangePerLang.lookup "constructor" = none ∧
      "constructor" ∈ objectPrototypeKeys ∧
      freshCriteria.setIdRange (.num 0) (some (.num 999)) (some "constructor") =
        .ok (true, { freshCriteria with
          _idRange := { ref := 3, start := 0, stop := 999 }, allocated := 4 }) ∧
      ({ freshCriteria with
          _idRange := { ref := 3, start := 0, stop := 999 },
          allocated := 4 } : FilteredJoke).getIdRange.stop = 999 ∧
      freshCriteria.setIdRange (.num 0) (some (.num 999)) (some "en") =
        .ok (false, { freshCriteria with
          _errors := ["The \"idRange\" parameter values are out of range"] }) := by
  decide

/-- C24 (amended): on a criteria object built by the constructor and changed by
setter calls, `setIdRange(start, end, lang)` with numbers, `end` standing for
`start` when omitted and `lang` for the current language when omitted, for a
language that has a joke count: if `start < 0` or `end` exceeds the joke count
minus one, the call returns `false`, appends one error and changes nothing else;
otherwise it returns `true` and replaces the range by a new array `[start, end]`,
changing nothing else; so whenever it returns `true`, `getIdRange()` is
`[start, end]`, `start` is not negative and `end` is at most the joke count minus
one. With `NaN` or an infinity as `start` or `end` the call returns `false` and
appends one error as well. -/
theorem C24_setIdRange_checks_bounds (h : Host) (langs : Langs)
    (counts : List (String × Nat)) (fresh : FilteredJoke) (calls : List SetterCall)
    (hnew : FilteredJoke.new h counts = some fresh)
    (s : ℚ) (stop : Option ℚ) (lang : Option String) (L : String)
    (hL : L = match lang with
      | some l => if l = "" then (fresh.afterCalls h langs calls).getLanguage else l
      | none => (fresh.afterCalls h langs calls).getLanguage)
    (count : Nat) (hcount : counts.lookup L = some count) :
    ((s < 0 ∨ stop.getD s > (((count : Int) - 1 : Int) : ℚ)) →
      ∃ msg, (fresh.afterCalls h langs calls).setIdRange (.num s) (stop.map .num) lang =
        .ok (false, { fresh.afterCalls h langs calls with
          _errors := (fresh.afterCalls h langs calls)._errors ++ [msg] })) ∧
      ((0 ≤ s ∧ stop.getD s ≤ (((count : Int) - 1 : Int) : ℚ)) →
        (fresh.afterCalls h langs calls).setIdRange (.num s) (stop.map .num) lang =
          .ok (true, { fresh.afterCalls h langs calls with
            _idRange :=
              { ref := (fresh.afterCalls h langs calls).allocated, start := s,
                stop := stop.getD s }
            allocated := (fresh.afterCalls h langs calls).allocated + 1 })) ∧
      (∀ result,
        (fresh.afterCalls h langs calls).setIdRange (.num s) (stop.map .num) lang =
          .ok (true, result) →
        result.getIdRange.start = s ∧ result.getIdRange.stop = stop.getD s ∧
          0 ≤ s ∧ stop.getD s ≤ (((count : Int) - 1 : Int) : ℚ)) ∧
      (∀ start stop : ArgValue,
        (start = .nan ∨ start = .infinity ∨ start = .minusInfinity ∨
          stop = .nan ∨ stop = .infinity ∨ stop = .minusInfinity) →
        ∃ msg, (fresh.afterCalls h langs calls).setIdRangeOfValues start stop lang =
          .ok (false, { fresh.afterCalls h langs calls with
            _errors := (fresh.afterCalls h langs calls)._errors ++ [msg] })) := by
  have htable := lookup_idRangePerLang L counts 0
  rw [← afterCalls_idRangePerLang h langs counts fresh calls hnew] at htable
  rw [setIdRange_numbers (fresh.afterCalls h langs calls) s stop lang L hL]
  have hlook : ∃ r, (fresh.afterCalls h langs calls)._idRangePerLang.lookup L =
      some { ref := r, start := 0, stop := (((count : Int) - 1 : Int) : ℚ) } := by
    rcases htable with ⟨hnone, _⟩ | ⟨r, count2, hc2, hlook⟩
    · rw [hnone] at hcount
      cases hcount
    · rw [hc2] at hcount
      injection hcount with hcount
      subst hcount
      exact ⟨r, hlook⟩
  obtain ⟨r, hlook⟩ := hlook
  rw [hlook]
  dsimp only
  refine ⟨?_, ?_, ?_, ?_⟩
  · intro hout
    by_cases hs : s < 0
    · rw [if_pos hs]
      exact ⟨_, rfl⟩
    · rw [if_neg hs, if_pos (hout.resolve_left hs)]
      exact ⟨_, rfl⟩
  · intro hin
    rw [if_neg (not_lt.mpr hin.1), if_neg (not_lt.mpr hin.2)]
  · intro result hres
    by_cases hs : s < 0
    · rw [if_pos hs] at hres
      injection hres with hres
      injection hres with hres _
      cases hres
    · rw [if_neg hs] at hres
      by_cases he : stop.getD s > (((count : Int) - 1 : Int) : ℚ)
      · rw [if_pos he] at hres
        injection hres with hres
        injection hres with hres _
        cases hres
      · rw [if_neg he] at hres
        injection hres with hres
        injection hres with _ hres
        rw [← hres]
        exact ⟨rfl, rfl, not_lt.mp hs, not_lt.mp he⟩
  · intro start stop hnonfinite
    refine ⟨_, setIdRangeOfValues_non_number _ start stop lang ?_⟩
    rcases hnonfinite with hv | hv | hv | hv | hv | hv
    · exact Or.inl (fun q hq => by rw [hv] at hq; cases hq)
    · exact Or.inl (fun q hq => by rw [hv] at hq; cases hq)
    · exact Or.inl (fun q hq => by rw [hv] at hq; cases hq)
    · exact Or.inr ⟨by rw [hv]; rfl, fun q hq => by rw [hv] at hq; cases hq⟩
    · exact Or.inr ⟨by rw [hv]; rfl, fun q hq => by rw [hv] at hq; cases hq⟩
    · exact Or.inr ⟨by rw [hv]; rfl, fun q hq => by rw [hv] at hq; cases hq⟩

/-- Witness of C24 (amended): `setIdRange(1, 2)` and `setIdRange(1, 3)` on the
criteria object built for the example corpus of three jokes, whose language `en`
has the joke count 3. -/
theorem C24_witness :
    FilteredJoke.new asciiHost [("en", 3)] = some freshCriteria ∧
      [("en", 3)].lookup "en" = some 3 ∧
      freshCriteria.setIdRange (.num 1) (some (.num 2)) none =
        .ok (true, { freshCriteria with
          _idRange := { ref := 3, start := 1, stop := 2 }, allocated := 4 }) ∧
      (∃ msg, freshCriteria.setIdRange (.num 1) (some (.num 3)) none =
        .ok (false, { freshCriteria with _errors := freshCriteria._errors ++ [msg] })) ∧
      ({ freshCriteria with
          _idRange := { ref := 3, start := 1, stop := 2 },
          allocated := 4 } : FilteredJoke).getIdRange.stop = 2 :=
  have hin := C24_setIdRange_checks_bounds asciiHost (exampleEnv []).langs [("en", 3)]
    freshCriteria [] (by decide) 1 (some 2) none "en" (by decide) 3 (by decide)
  have hout := C24_setIdRange_checks_bounds asciiHost (exampleEnv []).langs [("en", 3)]
    freshCriteria [] (by decide) 1 (some 3) none "en" (by decide) 3 (by decide)
  ⟨by decide, by decide, hin.2.1 ⟨by decide, by decide⟩, hout.1 (Or.inr (by decide)),
    (hin.2.2.1 _ (by decide)).2.1⟩
/-- C25 (counterexample): on the criteria object built for the example corpus,
`setIdRange(0.5, 1.5)` returns `true` and stores the range `[0.5, 1.5]`, although
neither number is an integer. -/
theorem C25_counterexample :
    oneHalf.isInt = false ∧ threeHalves.isInt = false ∧
      freshCriteria.setIdRangeOfValues (.number oneHalf) (.number threeHalves) none =
        .ok (true, { freshCriteria with
          _idRange := { ref := 3, start := oneHalf, stop := threeHalves }
          allocated := 4 }) := by
  decide

/-- C25 (amended): `setIdRange` accepts only finite numbers. Whenever `start`, or
an `end` that is not empty, is not a finite number (`NaN`, an infinity, a string,
`null`, `undefined`), it returns `false`, appends the error about values that are
not numbers and changes nothing else, the ID range included. A number that is not
an integer passes this test. -/
theorem C25_setIdRange_rejects_non_numbers (self : FilteredJoke) (start stop : ArgValue)
    (lang : Option String)
    (hbad : (∀ q, start ≠ .number q) ∨ (stop.isEmpty = false ∧ ∀ q, stop ≠ .number q)) :
    self.setIdRangeOfValues start stop lang =
        .ok (false, { self with
          _errors := self._errors ++ ["The \"idRange\" parameter values are not numbers"] }) ∧
      ∀ result, self.setIdRangeOfValues start stop lang = .ok result →
        result.1 = false ∧ result.2.getIdRange = self.getIdRange := by
  have hrun := setIdRangeOfValues_non_number self start stop lang hbad
  refine ⟨hrun, ?_⟩
  intro result hres
  rw [hrun] at hres
  injection hres with hres
  rw [← hres]
  exact ⟨rfl, rfl⟩

/-- Witness of C25 (amended): the string `5` as `start`. -/
theorem C25_witness :
    ((∀ q, ArgValue.string "5" ≠ .number q) ∨
        (ArgValue.undefined.isEmpty = false ∧ ∀ q, ArgValue.undefined ≠ .number q)) ∧
      freshCriteria.setIdRangeOfValues (.string "5") .undefined none =
        .ok (false, { freshCriteria with
          _errors := freshCriteria._errors ++
            ["The \"idRange\" parameter values are not numbers"] }) :=
  ⟨Or.inl (fun _ hq => by cases hq),
    (C25_setIdRange_rejects_non_numbers freshCriteria (.string "5") .undefined none
      (Or.inl (fun _ hq => by cases hq))).1⟩

/-- C26 (code at the failing input): the criteria object is built over an English
corpus of three jokes and a German corpus of five, and `setLanguage("de")`
succeeds. `getIdRange()` is still `[0, 2]`, the range of the default language, and
the filter pass over the German corpus drops the jokes with the IDs 3 and 4,
which pass every other section. -/
theorem C26_default_range_ignores_language :
    (FilteredJoke.new asciiHost [("en", 3), ("de", 5)]).map
        (fun criteria => ((criteria.setSearchString (some "")).2.setLanguage asciiHost
          largerGermanEnv.langs "de").1) = some true ∧
      germanCriteria.map (fun criteria => criteria.getLanguage) = some "de" ∧
      germanCriteria.map (fun criteria => criteria.getIdRange.start) = some 0 ∧
      germanCriteria.map (fun criteria => criteria.getIdRange.stop) = some 2 ∧
      (largerGermanEnv.getJokeArray "de").map (fun joke => joke.id) = [0, 1, 2, 3, 4] ∧
      germanCriteria.map
        (fun criteria => criteria._applyFilters largerGermanEnv "client" (some "de")) =
          some (.resolved (germanCorpus.take 3)) ∧
      (germanCorpus.take 3).map (fun joke => joke.id) = [0, 1, 2] ∧
      germanCriteria.map
        (fun criteria => (largerGermanEnv.getJokeArray "de").all fun joke =>
          safeModeOk criteria joke && categoryOk asciiHost criteria joke &&
            flagsOk criteria joke && typeOk criteria joke &&
            searchOk asciiHost criteria "de" joke &&
            languageOk largerGermanEnv criteria joke) = some true := by
  decide

/-- C29 (code at the failing input): on the freshly constructed criteria object no
search string is set; `getSearchString()` returns the string `null`, not `null`,
while `getSearchString(true)` returns `null`. -/
theorem C29_unset_search_string_reads_as_text :
    FilteredJoke.new asciiHost [("en", 3)] = some freshCriteria ∧
      freshCriteria._searchString = none ∧
      freshCriteria.getSearchString false = .ok (some "null") ∧
      freshCriteria.getSearchString true = .ok none := by
  decide

/-- C30 (code at the failing input): with the search string `hello%20world`, which
holds no operator and decodes to `hello world`, the joke `hello world` fails the
search check and a joke that holds the text `hello%20world` itself passes it. -/
theorem C30_no_decoding_without_operator :
    decodeURIComponent "hello%20world" = .ok "hello world" ∧
      includes (asciiHost.toLowerCase helloJoke.joke) "hello world" = true ∧
      (criteriaWithSearch "hello%20world").checkMatchesSearchString asciiHost helloJoke
        "en" = .ok false ∧
      (criteriaWithSearch "hello%20world").checkMatchesSearchString asciiHost encodedJoke
        "en" = .ok true ∧
      (criteriaWithSearch "hello%20world*").checkMatchesSearchString asciiHost helloJoke
        "en" = .ok true := by
  decide

/-! ## Claims on the language filter, the stored range and `isValidLang` -/

/-- C31 (counterexample): `setLanguage("DE")` succeeds and stores `DE`; the German
joke, whose language is `de`, passes the language section and is returned by
`_applyFilters`, although `de` and `DE` differ in letter case. -/
theorem C31_counterexample :
    ((criteriaWithSearch "").setLanguage asciiHost bilingualEnv.langs "DE").1 = true ∧
      (((criteriaWithSearch "").setLanguage asciiHost bilingualEnv.langs "DE").2).getLanguage =
        "DE" ∧
      languageOk bilingualEnv
        (((criteriaWithSearch "").setLanguage asciiHost bilingualEnv.langs "DE").2)
        germanJoke = true ∧
      (((criteriaWithSearch "").setLanguage asciiHost bilingualEnv.langs "DE").2)._applyFilters
        bilingualEnv "client" (some "de") = .resolved [germanJoke] ∧
      germanJoke.lang = "de" ∧
      germanJoke.lang ≠
        (((criteriaWithSearch "").setLanguage asciiHost bilingualEnv.langs "DE").2).getLanguage := by
  decide

/-- C31 (amended): every joke `_applyFilters` resolves with has a language equal to
`getLanguage()` once both are lower-cased, and `getLanguage()` is then a valid
language code; the two are equal character by character when both are in lower
case. A joke passes the language section iff these two tests hold. -/
theorem C31_language_equal_up_to_case (env : Env) (self : FilteredJoke) (ip : String)
    (lang : Option String) (jokes : List Joke)
    (hres : self._applyFilters env ip lang = .resolved jokes) :
    (∀ joke ∈ jokes,
        env.host.toLowerCase joke.lang = env.host.toLowerCase self.getLanguage ∧
          isValidLang env.host env.langs self.getLanguage none = true ∧
          (env.host.toLowerCase joke.lang = joke.lang →
            env.host.toLowerCase self.getLanguage = self.getLanguage →
            joke.lang = self.getLanguage)) ∧
      ∀ joke, languageOk env self joke = true ↔
        (isValidLang env.host env.langs self.getLanguage none = true ∧
          env.host.toLowerCase joke.lang = env.host.toLowerCase self.getLanguage) := by
  have hiff : ∀ joke, languageOk env self joke = true ↔
      (isValidLang env.host env.langs self.getLanguage none = true ∧
        env.host.toLowerCase joke.lang = env.host.toLowerCase self.getLanguage) := by
    intro joke
    unfold languageOk
    rw [Bool.and_eq_true, decide_eq_true_iff]
  refine ⟨?_, hiff⟩
  intro joke hjoke
  have hcheck := (applyFilters_resolved env self ip lang jokes hres joke hjoke).2
  have hpass : passesAllFilters env self (effectiveLang lang) joke = true := by
    rw [← checkJoke_eq_passesAll, decide_eq_true_iff]
    exact hcheck
  unfold passesAllFilters at hpass
  rw [Bool.and_eq_true] at hpass
  obtain ⟨hvalid, heq⟩ := (hiff joke).mp hpass.2
  refine ⟨heq, hvalid, ?_⟩
  intro h1 h2
  rw [← h1, ← h2]
  exact heq

/-- Witness of C31 (amended): the German joke and the criteria language `DE`. -/
theorem C31_witness :
    (((criteriaWithSearch "").setLanguage asciiHost bilingualEnv.langs "DE").2)._applyFilters
        bilingualEnv "client" (some "de") = .resolved [germanJoke] ∧
      asciiHost.toLowerCase germanJoke.lang = asciiHost.toLowerCase
        (((criteriaWithSearch "").setLanguage asciiHost bilingualEnv.langs "DE").2).getLanguage :=
  ⟨by decide,
    ((C31_language_equal_up_to_case bilingualEnv
      (((criteriaWithSearch "").setLanguage asciiHost bilingualEnv.langs "DE").2) "client"
      (some "de") [germanJoke] (by decide)).1 germanJoke (List.mem_singleton.mpr rfl)).1⟩

/-- C35 (counterexample): on the criteria object built for the example corpus of
three jokes, `setIdRange(2, 1)` returns `true` and stores the range `[2, 1]`,
whose start lies after its end; and `setIdRange(0, 999, "constructor")` returns
`true` and stores `[0, 999]`, the name `constructor` having no joke count. -/
theorem C35_counterexample :
    FilteredJoke.new asciiHost [("en", 3)] = some freshCriteria ∧
      freshCriteria.setIdRangeOfValues (.number 2) (.number 1) none =
        .ok (true, { freshCriteria with
          _idRange := { ref := 3, start := 2, stop := 1 }, allocated := 4 }) ∧
      ¬ ((2 : ℚ) ≤ 1) ∧
      freshCriteria.setIdRangeOfValues (.number 0) (.number 999) (some "constructor") =
        .ok (true, { freshCriteria with
          _idRange := { ref := 3, start := 0, stop := 999 }, allocated := 4 }) ∧
      [("en", 3)].lookup "constructor" = (none : Option Nat) := by
  decide

/-- C35 (amended): on a criteria object built by the constructor and changed by
setter calls, whenever `setIdRange(start, end, lang)` returns `true` for a language
that has a joke count, `start` and `end` are finite numbers, the stored range is
`[start, end]`, `start` is not negative and `end` is at most the joke count of the
language minus one. That `start` is at most `end` is not checked: the stored range
is not empty iff the caller passed `start <= end`, as is the case when `end` is
omitted. -/
theorem C35_stored_range_within_corpus (h : Host) (langs : Langs)
    (counts : List (String × Nat)) (fresh : FilteredJoke) (calls : List SetterCall)
    (hnew : FilteredJoke.new h counts = some fresh)
    (start stop : ArgValue) (lang : Option String) (L : String) (result : FilteredJoke)
    (hL : L = match lang with
      | some l => if l = "" then (fresh.afterCalls h langs calls).getLanguage else l
      | none => (fresh.afterCalls h langs calls).getLanguage)
    (count : Nat) (hcount : counts.lookup L = some count)
    (hres : (fresh.afterCalls h langs calls).setIdRangeOfValues start stop lang =
      .ok (true, result)) :
    ∃ s e, start = .number s ∧ (stop.isEmpty = true → e = s) ∧
      (stop.isEmpty = false → stop = .number e) ∧
      result.getIdRange.start = s ∧ result.getIdRange.stop = e ∧
      0 ≤ s ∧ e ≤ (((count : Int) - 1 : Int) : ℚ) ∧
      (result.getIdRange.start ≤ result.getIdRange.stop ↔ s ≤ e) ∧
      (stop.isEmpty = true → result.getIdRange.start ≤ result.getIdRange.stop) := by
  have htable := lookup_idRangePerLang L counts 0
  rw [← afterCalls_idRangePerLang h langs counts fresh calls hnew] at htable
  have hlook : ∃ r, (fresh.afterCalls h langs calls)._idRangePerLang.lookup L =
      some { ref := r, start := 0, stop := (((count : Int) - 1 : Int) : ℚ) } := by
    rcases htable with ⟨hnone, _⟩ | ⟨r, count2, hc2, hlook⟩
    · rw [hnone] at hcount
      cases hcount
    · rw [hc2] at hcount
      injection hcount with hcount
      subst hcount
      exact ⟨r, hlook⟩
  obtain ⟨r, hlook⟩ := hlook
  have hnumber : ∃ s, start = .number s := by
    by_contra hno
    rw [setIdRangeOfValues_non_number _ start stop lang
      (Or.inl fun q hq => hno ⟨q, hq⟩)] at hres
    injection hres with hres
    injection hres with hres _
    cases hres
  obtain ⟨s, hs⟩ := hnumber
  have hstop : ∃ stopArg : Option ℚ, (stop.isEmpty = true → stopArg = none) ∧
      (stop.isEmpty = false → stop = .number (stopArg.getD s)) ∧
      (if stop.isEmpty then none else some stop.toNumberArg) = stopArg.map NumberArg.num := by
    by_cases hempty : stop.isEmpty = true
    · exact ⟨none, fun _ => rfl, fun hf => (by rw [hempty] at hf; cases hf),
        (by rw [if_pos hempty]; rfl)⟩
    · have hfull : stop.isEmpty = false := Bool.eq_false_iff.mpr hempty
      have hq : ∃ e, stop = .number e := by
        by_contra hno
        rw [setIdRangeOfValues_non_number _ start stop lang
          (Or.inr ⟨hfull, fun q hq => hno ⟨q, hq⟩⟩)] at hres
        injection hres with hres
        injection hres with hres _
        cases hres
      obtain ⟨e, he⟩ := hq
      refine ⟨some e, fun ht => absurd ht hempty, fun _ => he, ?_⟩
      rw [if_neg hempty, he]
      rfl
  obtain ⟨stopArg, hnone, hsome, hargs⟩ := hstop
  unfold FilteredJoke.setIdRangeOfValues at hres
  rw [hargs, hs] at hres
  change (fresh.afterCalls h langs calls).setIdRange (.num s) (stopArg.map .num) lang = _
    at hres
  rw [setIdRange_numbers (fresh.afterCalls h langs calls) s stopArg lang L hL] at hres
  by_cases hneg : s < 0
  · rw [if_pos hneg] at hres
    injection hres with hres
    injection hres with hres _
    cases hres
  · rw [if_neg hneg, hlook] at hres
    dsimp only at hres
    by_cases he : stopArg.getD s > (((count : Int) - 1 : Int) : ℚ)
    · rw [if_pos he] at hres
      injection hres with hres
      injection hres with hres _
      cases hres
    · rw [if_neg he] at hres
      injection hres with hres
      injection hres with _ hres
      rw [← hres]
      refine ⟨s, stopArg.getD s, hs, ?_, hsome, rfl, rfl, not_lt.mp hneg,
        not_lt.mp he, Iff.rfl, ?_⟩
      · intro hempty
        rw [hnone hempty]
        rfl
      · intro hempty
        rw [hnone hempty]
        exact le_refl _

/-- Witness of C35 (amended): `setIdRange(1)` on the criteria object built for the
example corpus stores `[1, 1]`. -/
theorem C35_witness :
    FilteredJoke.new asciiHost [("en", 3)] = some freshCriteria ∧
      [("en", 3)].lookup "en" = some 3 ∧
      freshCriteria.setIdRangeOfValues (.number 1) .undefined none =
        .ok (true, singleIdCriteria) ∧
      ∃ (s e : ℚ), ArgValue.number 1 = .number s ∧
        (ArgValue.undefined.isEmpty = true → e = s) ∧
        (ArgValue.undefined.isEmpty = false → ArgValue.undefined = .number e) ∧
        singleIdCriteria.getIdRange.start = s ∧ singleIdCriteria.getIdRange.stop = e ∧
        0 ≤ s ∧ e ≤ ((((3 : Nat) : Int) - 1 : Int) : ℚ) ∧
        (singleIdCriteria.getIdRange.start ≤ singleIdCriteria.getIdRange.stop ↔ s ≤ e) ∧
        (ArgValue.undefined.isEmpty = true →
          singleIdCriteria.getIdRange.start ≤ singleIdCriteria.getIdRange.stop) :=
  ⟨by decide, by decide, by decide,
    C35_stored_range_within_corpus asciiHost (exampleEnv []).langs [("en", 3)]
      freshCriteria [] (by decide) (.number 1) .undefined none "en" singleIdCriteria
      (by decide) 3 (by decide) (by decide)⟩

/-- C37: `isValidLang(code, trLang)` returns `true` iff `code` is a string of two
characters whose lower-cased form is a key of the language table with a string
as its value; it is a total function, so every other input gives `false` and
nothing is thrown; and the result is the same for every `trLang`. -/
theorem C37_isValidLang_two_character_codes (h : Host) (langs : Langs)
    (code trLang : ArgValue) :
    (isValidLangOfValue h langs code trLang = true ↔
        ∃ s name, code = .string s ∧ s.length = 2 ∧
          langs.lookup (h.toLowerCase s) = some (some name)) ∧
      (∀ other, isValidLangOfValue h langs code other =
        isValidLangOfValue h langs code trLang) ∧
      ∀ s : String, isValidLang h langs s (some "xx") = isValidLang h langs s none := by
  have hcode : ∀ s, isValidLangCode h langs s = true ↔
      (s.length = 2 ∧ ∃ name, langs.lookup (h.toLowerCase s) = some (some name)) := by
    intro s
    unfold isValidLangCode
    by_cases hlen : s.length = 2
    · rw [if_neg (not_not.mpr hlen)]
      cases hlook : langs.lookup (h.toLowerCase s) with
      | none => simp
      | some value =>
        cases value with
        | none => simp
        | some name => simp [hlen]
    · rw [if_pos hlen]
      simp [hlen]
  refine ⟨?_, fun _ => rfl, fun _ => rfl⟩
  cases code with
  | string s =>
    show isValidLangCode h langs s = true ↔ _
    rw [hcode]
    constructor
    · rintro ⟨hlen, name, hname⟩
      exact ⟨s, name, rfl, hlen, hname⟩
    · rintro ⟨s2, name, hs, hlen, hname⟩
      injection hs with hs
      subst hs
      exact ⟨hlen, name, hname⟩
  | _ =>
    constructor
    · intro hf
      cases hf
    · rintro ⟨s2, name, hs, _⟩
      cases hs

/-- Witness of C37: the code `DE` is valid in the example table, the code `deu`
and the number 5 are not. -/
theorem C37_witness :
    isValidLangOfValue asciiHost (exampleEnv []).langs (.string "DE") .undefined = true ∧
      isValidLangOfValue asciiHost (exampleEnv []).langs (.string "deu") .undefined = false ∧
      isValidLangOfValue asciiHost (exampleEnv []).langs (.number 5) (.string "en") = false :=
  ⟨(C37_isValidLang_two_character_codes asciiHost (exampleEnv []).langs (.string "DE")
      .undefined).1.mpr ⟨"DE", "German", rfl, by decide, by decide⟩,
    by decide, by decide⟩

/-! ## The paths through a pick -/

/-- One call of `selectRandomJoke` on an array that is not empty, path by path. -/
theorem selectRandomJokeAux_step (rand : Nat → Nat) (fuel : Nat) (s : Selection)
    (first : Joke) (others : List Joke) (hjokes : s.jokes = first :: others) :
    selectRandomJokeAux rand (fuel + 1) s =
      if s.jokes.length > settings.lastIDsMaxLength ∧
          (s.jokes.getD (s.idx rand) first).id ∈ s.globals._lastIDs then
        if s.globals._selectionAttempts > settings.jokeRandomizationAttempts then
          (.undefined, s.afterReject)
        else selectRandomJokeAux rand fuel (s.afterNearMiss (s.idx rand))
      else if (s.jokes.getD (s.idx rand) first).id ∉ s.multiSelectLastIDs then
        (.joke (s.jokes.getD (s.idx rand) first),
          s.afterPick (s.jokes.getD (s.idx rand) first))
      else
        selectRandomJokeAux rand fuel
          (s.afterRepeat (s.jokes.getD (s.idx rand) first) (s.idx rand)) := by
  have hdead : ¬ ((0 : Nat) > settings.jokeRandomizationAttempts) := by decide
  rw [selectRandomJokeAux]
  simp only [hjokes, Selection.idx, Selection.afterReject, Selection.afterNearMiss,
    Selection.afterPick, Selection.afterRepeat, pushLastID, hdead, if_false]

/-- A property of the calls of `selectRandomJoke` holds for every call when it
holds on an empty array, on each path that returns, and on each path that calls
again provided it holds for the call made there. -/
theorem selectRandomJokeAux_rule (rand : Nat → Nat)
    (motive : Selection → Pick × Selection → Prop)
    (hempty : ∀ s, s.jokes = [] → motive s (.thrown emptyPool, s))
    (hreject : ∀ s selected, s.jokes[s.idx rand]? = some selected →
      s.jokes.length > settings.lastIDsMaxLength → selected.id ∈ s.globals._lastIDs →
      s.globals._selectionAttempts > settings.jokeRandomizationAttempts →
      motive s (.undefined, s.afterReject))
    (hnearMiss : ∀ s selected res, s.jokes[s.idx rand]? = some selected →
      s.jokes.length > settings.lastIDsMaxLength → selected.id ∈ s.globals._lastIDs →
      ¬ s.globals._selectionAttempts > settings.jokeRandomizationAttempts →
      motive (s.afterNearMiss (s.idx rand)) res → motive s res)
    (hpick : ∀ s selected, s.jokes[s.idx rand]? = some selected →
      ¬ (s.jokes.length > settings.lastIDsMaxLength ∧ selected.id ∈ s.globals._lastIDs) →
      selected.id ∉ s.multiSelectLastIDs →
      motive s (.joke selected, s.afterPick selected))
    (hrepeat : ∀ s selected res, s.jokes[s.idx rand]? = some selected →
      ¬ (s.jokes.length > settings.lastIDsMaxLength ∧ selected.id ∈ s.globals._lastIDs) →
      selected.id ∈ s.multiSelectLastIDs →
      motive (s.afterRepeat selected (s.idx rand)) res → motive s res) :
    ∀ fuel s, s.jokes.length ≤ fuel → motive s (selectRandomJokeAux rand fuel s) := by
  intro fuel
  induction fuel with
  | zero =>
    intro s hlen
    have hnil : s.jokes = [] := List.length_eq_zero.mp (Nat.le_zero.mp hlen)
    rw [selectRandomJokeAux]
    exact hempty s hnil
  | succ fuel ih =>
    intro s hlen
    cases hjokes : s.jokes with
    | nil =>
      rw [selectRandomJokeAux]
      simp only [hjokes]
      exact hempty s hjokes
    | cons first others =>
      have hpos : 0 < s.jokes.length := by
        rw [hjokes]
        exact Nat.succ_pos _
      have hidx : s.idx rand < s.jokes.length := Nat.mod_lt _ hpos
      have hget : s.jokes[s.idx rand]? = some (s.jokes.getD (s.idx rand) first) := by
        rw [List.getD_eq_getElem?_getD, List.getElem?_eq_getElem hidx]
        rfl
      have hshort : (s.jokes.eraseIdx (s.idx rand)).length ≤ fuel := by
        rw [List.length_eraseIdx_of_lt hidx]
        omega
      rw [selectRandomJokeAux_step rand fuel s first others hjokes]
      by_cases hfirst : s.jokes.length > settings.lastIDsMaxLength ∧
          (s.jokes.getD (s.idx rand) first).id ∈ s.globals._lastIDs
      · rw [if_pos hfirst]
        by_cases hlimit : s.globals._selectionAttempts > settings.jokeRandomizationAttempts
        · rw [if_pos hlimit]
          exact hreject s _ hget hfirst.1 hfirst.2 hlimit
        · rw [if_neg hlimit]
          exact hnearMiss s _ _ hget hfirst.1 hfirst.2 hlimit (ih _ hshort)
      · rw [if_neg hfirst]
        by_cases hmulti : (s.jokes.getD (s.idx rand) first).id ∉ s.multiSelectLastIDs
        · rw [if_pos hmulti]
          exact hpick s _ hget hfirst hmulti
        · rw [if_neg hmulti]
          exact hrepeat s _ _ hget hfirst (not_not.mp hmulti) (ih _ hshort)

/-- The same for the call `selectRandomJoke(filteredJokes)`. -/
theorem selectRandomJoke_rule (rand : Nat → Nat)
    (motive : Selection → Pick × Selection → Prop)
    (hempty : ∀ s, s.jokes = [] → motive s (.thrown emptyPool, s))
    (hreject : ∀ s selected, s.jokes[s.idx rand]? = some selected →
      s.jokes.length > settings.lastIDsMaxLength → selected.id ∈ s.globals._lastIDs →
      s.globals._selectionAttempts > settings.jokeRandomizationAttempts →
      motive s (.undefined, s.afterReject))
    (hnearMiss : ∀ s selected res, s.jokes[s.idx rand]? = some selected →
      s.jokes.length > settings.lastIDsMaxLength → selected.id ∈ s.globals._lastIDs →
      ¬ s.globals._selectionAttempts > settings.jokeRandomizationAttempts →
      motive (s.afterNearMiss (s.idx rand)) res → motive s res)
    (hpick : ∀ s selected, s.jokes[s.idx rand]? = some selected →
      ¬ (s.jokes.length > settings.lastIDsMaxLength ∧ selected.id ∈ s.globals._lastIDs) →
      selected.id ∉ s.multiSelectLastIDs →
      motive s (.joke selected, s.afterPick selected))
    (hrepeat : ∀ s selected res, s.jokes[s.idx rand]? = some selected →
      ¬ (s.jokes.length > settings.lastIDsMaxLength ∧ selected.id ∈ s.globals._lastIDs) →
      selected.id ∈ s.multiSelectLastIDs →
      motive (s.afterRepeat selected (s.idx rand)) res → motive s res)
    (s : Selection) : motive s (selectRandomJoke rand s) :=
  selectRandomJokeAux_rule rand motive hempty hreject hnearMiss hpick hrepeat
    s.jokes.length s (Nat.le_refl _)
/-! ## The recency buffer -/

/-- Pushing an ID keeps the recency buffer within its bound. -/
theorem pushLastID_length (lastIDs : List Int) (id : Int)
    (hbound : lastIDs.length ≤ settings.lastIDsMaxLength) :
    (pushLastID lastIDs id).length ≤ settings.lastIDsMaxLength := by
  unfold pushLastID
  split_ifs with hlong
  · rw [List.length_tail, List.length_append, List.length_singleton]
    omega
  · exact Nat.le_of_not_lt hlong

/-- The last `lastIDsMaxLength` entries of a list of IDs: what is left of it in a
buffer that loses its first entry whenever it grows beyond the bound. -/
theorem foldl_pushLastID (pushed : List Int) :
    ∀ lastIDs : List Int, lastIDs.length ≤ settings.lastIDsMaxLength →
      pushed.foldl pushLastID lastIDs =
        (lastIDs ++ pushed).drop
          ((lastIDs ++ pushed).length - settings.lastIDsMaxLength) := by
  induction pushed with
  | nil =>
    intro lastIDs hbound
    rw [List.append_nil, Nat.sub_eq_zero_of_le hbound]
    rfl
  | cons id rest ih =>
    intro lastIDs hbound
    rw [List.foldl_cons, ih _ (pushLastID_length lastIDs id hbound)]
    have hassoc : lastIDs ++ id :: rest = (lastIDs ++ [id]) ++ rest := by
      rw [List.append_assoc, List.singleton_append]
    unfold pushLastID
    split_ifs with hlong
    · rw [List.length_append, List.length_singleton] at hlong
      have htail : (lastIDs ++ [id]).tail ++ rest = ((lastIDs ++ [id]) ++ rest).drop 1 := by
        cases lastIDs with
        | nil => rfl
        | cons first others => rfl
      rw [htail, List.drop_drop, hassoc]
      congr 1
      simp only [List.length_drop, List.length_append, List.length_singleton,
        List.length_cons]
      omega
    · rw [hassoc]

/-- What a pick does to the recency buffer and to the IDs selected for the
response: it pushes a list of IDs to the buffer one after the other, each the ID
of a joke of the working array, and appends to the selected IDs a sublist of the
pushed ones; every pushed ID is among the selected IDs afterwards. The working
array only loses jokes. -/
theorem selectRandomJoke_pushes (rand : Nat → Nat) (s : Selection) :
    ∃ pushed added : List Int,
      (selectRandomJoke rand s).2.globals._lastIDs =
          pushed.foldl pushLastID s.globals._lastIDs ∧
        (selectRandomJoke rand s).2.multiSelectLastIDs = s.multiSelectLastIDs ++ added ∧
        added.Sublist pushed ∧
        (∀ id ∈ pushed, id ∈ (selectRandomJoke rand s).2.multiSelectLastIDs) ∧
        (∀ id ∈ pushed, ∃ joke ∈ s.jokes, joke.id = id) ∧
        (∀ joke ∈ (selectRandomJoke rand s).2.jokes, joke ∈ s.jokes) ∧
        (∀ joke, (selectRandomJoke rand s).1 = .joke joke → added = [joke.id]) ∧
        ((∀ joke, (selectRandomJoke rand s).1 ≠ .joke joke) → added = []) := by
  apply selectRandomJoke_rule rand (fun s res =>
    ∃ pushed added : List Int,
      res.2.globals._lastIDs = pushed.foldl pushLastID s.globals._lastIDs ∧
        res.2.multiSelectLastIDs = s.multiSelectLastIDs ++ added ∧
        added.Sublist pushed ∧
        (∀ id ∈ pushed, id ∈ res.2.multiSelectLastIDs) ∧
        (∀ id ∈ pushed, ∃ joke ∈ s.jokes, joke.id = id) ∧
        (∀ joke ∈ res.2.jokes, joke ∈ s.jokes) ∧
        (∀ joke, res.1 = .joke joke → added = [joke.id]) ∧
        ((∀ joke, res.1 ≠ .joke joke) → added = []))
  · intro s _
    exact ⟨[], [], rfl, (List.append_nil _).symm, List.Sublist.refl _,
      fun id hid => (by cases hid), fun id hid => (by cases hid), fun joke hj => hj,
      fun joke hj => (by cases hj), fun _ => rfl⟩
  · intro s selected _ _ _ _
    exact ⟨[], [], rfl, (List.append_nil _).symm, List.Sublist.refl _,
      fun id hid => (by cases hid), fun id hid => (by cases hid), fun joke hj => hj,
      fun joke hj => (by cases hj), fun _ => rfl⟩
  · intro s selected res _ _ _ _ ih
    obtain ⟨pushed, added, hbuffer, hmulti, hsub, hsel, hjokes, hleft, hone, hnone⟩ := ih
    refine ⟨pushed, added, hbuffer, hmulti, hsub, hsel, ?_, ?_, hone, hnone⟩
    · intro id hid
      obtain ⟨joke, hjoke, hjid⟩ := hjokes id hid
      exact ⟨joke, List.mem_of_mem_eraseIdx hjoke, hjid⟩
    · intro joke hjoke
      exact List.mem_of_mem_eraseIdx (hleft joke hjoke)
  · intro s selected hget _ _
    refine ⟨[selected.id], [selected.id], rfl, rfl, List.Sublist.refl _, ?_, ?_,
      fun joke hj => hj, ?_, ?_⟩
    · intro id hid
      exact List.mem_append_right _ hid
    · intro id hid
      rw [List.mem_singleton] at hid
      exact ⟨selected, List.getElem?_mem hget, hid.symm⟩
    · intro joke hjoke
      injection hjoke with hjoke
      rw [hjoke]
    · intro hno
      exact absurd rfl (hno selected)
  · intro s selected res hget _ hagain ih
    obtain ⟨pushed, added, hbuffer, hmulti, hsub, hsel, hjokes, hleft, hone, hnone⟩ := ih
    refine ⟨selected.id :: pushed, added, hbuffer, hmulti, hsub.cons _, ?_, ?_, ?_,
      hone, hnone⟩
    · intro id hid
      rcases List.mem_cons.mp hid with hhead | htail
      · rw [hhead, hmulti]
        exact List.mem_append_left _ hagain
      · exact hsel id htail
    · intro id hid
      rcases List.mem_cons.mp hid with hhead | htail
      · exact ⟨selected, List.getElem?_mem hget, hhead.symm⟩
      · obtain ⟨joke, hjoke, hjid⟩ := hjokes id htail
        exact ⟨joke, List.mem_of_mem_eraseIdx hjoke, hjid⟩
    · intro joke hjoke
      exact List.mem_of_mem_eraseIdx (hleft joke hjoke)

/-- What the selection loop does to the recency buffer and to the IDs selected for
the response: the same as a single pick, over all its picks. -/
theorem selectLoop_pushes (rand : Nat → Nat) (count : Nat) :
    ∀ (s : Selection) (retJokes : List Joke),
      ∃ pushed added : List Int,
        (selectLoop rand count s retJokes).2.1.globals._lastIDs =
            pushed.foldl pushLastID s.globals._lastIDs ∧
          (selectLoop rand count s retJokes).2.1.multiSelectLastIDs =
            s.multiSelectLastIDs ++ added ∧
          added.Sublist pushed ∧
          (∀ id ∈ pushed, id ∈ (selectLoop rand count s retJokes).2.1.multiSelectLastIDs) ∧
          (∀ id ∈ pushed, ∃ joke ∈ s.jokes, joke.id = id) ∧
          (∀ joke ∈ (selectLoop rand count s retJokes).2.1.jokes, joke ∈ s.jokes) ∧
          (selectLoop rand count s retJokes).2.2.map (fun j => j.id) =
            retJokes.map (fun j => j.id) ++ added := by
  induction count with
  | zero =>
    intro s retJokes
    exact ⟨[], [], rfl, (List.append_nil _).symm, List.Sublist.refl _,
      fun id hid => (by cases hid), fun id hid => (by cases hid), fun joke hj => hj,
      (List.append_nil _).symm⟩
  | succ count ih =>
    intro s retJokes
    obtain ⟨pushed, added, hbuffer, hmulti, hsub, hsel, hjokes, hleft, hone, hnone⟩ :=
      selectRandomJoke_pushes rand s
    rw [selectLoop]
    revert hbuffer hmulti hsel hleft hone hnone
    cases selectRandomJoke rand s with
    | mk pick s1 =>
      intro hbuffer hmulti hsel hleft hone hnone
      dsimp only at hbuffer hmulti hsel hleft hone hnone
      cases pick with
      | thrown err =>
        have hadded : added = [] := hnone (fun joke hj => by cases hj)
        refine ⟨pushed, added, hbuffer, hmulti, hsub, hsel, hjokes, hleft, ?_⟩
        rw [hadded, List.append_nil]
      | undefined =>
        have hadded : added = [] := hnone (fun joke hj => by cases hj)
        dsimp only
        obtain ⟨pushed2, added2, hbuffer2, hmulti2, hsub2, hsel2, hjokes2, hleft2, hret2⟩ :=
          ih s1 retJokes
        refine ⟨pushed ++ pushed2, added ++ added2, ?_, ?_, hsub.append hsub2, ?_, ?_, ?_,
          ?_⟩
        · rw [hbuffer2, hbuffer, List.foldl_append]
        · rw [hmulti2, hmulti, List.append_assoc]
        · intro id hid
          rcases List.mem_append.mp hid with hfirst | hsecond
          · rw [hmulti2]
            exact List.mem_append_left _ (hsel id hfirst)
          · exact hsel2 id hsecond
        · intro id hid
          rcases List.mem_append.mp hid with hfirst | hsecond
          · exact hjokes id hfirst
          · obtain ⟨joke, hjoke, hjid⟩ := hjokes2 id hsecond
            exact ⟨joke, hleft joke hjoke, hjid⟩
        · intro joke hjoke
          exact hleft joke (hleft2 joke hjoke)
        · rw [hret2, hadded, List.nil_append]
      | joke rJoke =>
        have hadded : added = [rJoke.id] := hone rJoke rfl
        dsimp only
        obtain ⟨pushed2, added2, hbuffer2, hmulti2, hsub2, hsel2, hjokes2, hleft2, hret2⟩ :=
          ih s1 (retJokes ++ [rJoke])
        refine ⟨pushed ++ pushed2, added ++ added2, ?_, ?_, hsub.append hsub2, ?_, ?_, ?_,
          ?_⟩
        · rw [hbuffer2, hbuffer, List.foldl_append]
        · rw [hmulti2, hmulti, List.append_assoc]
        · intro id hid
          rcases List.mem_append.mp hid with hfirst | hsecond
          · rw [hmulti2]
            exact List.mem_append_left _ (hsel id hfirst)
          · exact hsel2 id hsecond
        · intro id hid
          rcases List.mem_append.mp hid with hfirst | hsecond
          · exact hjokes id hfirst
          · obtain ⟨joke, hjoke, hjid⟩ := hjokes2 id hsecond
            exact ⟨joke, hleft joke hjoke, hjid⟩
        · intro joke hjoke
          exact hleft joke (hleft2 joke hjoke)
        · rw [hret2, hadded, List.map_append, List.append_assoc]
          rfl

/-- C33: if `_lastIDs` holds at most `lastIDsMaxLength` IDs before a `getJokes`
call, it holds at most that many after it, whatever the matched set, the amount
and the random numbers. The buffer is a first-in-first-out queue: the call pushes
a list of IDs, and the buffer after the call consists of the last
`lastIDsMaxLength` entries of the buffer before the call followed by the pushed
IDs in the order of their pushes, so that every ID is appended at the end and the
oldest entries are the ones removed. The pushed IDs are IDs of matched jokes. When
the call resolves, they are IDs of the jokes it resolves with; if it selected
these jokes, their IDs occur among the pushed ones in the order of the jokes, and
if it resolves with the whole matched set, nothing was pushed. -/
theorem C33_lastIDs_bounded_fifo (env : Env) (self : FilteredJoke) (globals : Globals)
    (rand : Nat → Nat) (ip langCode : String) (amount : Option Int)
    (hbound : globals._lastIDs.length ≤ settings.lastIDsMaxLength) :
    (self.getJokes env globals rand ip langCode amount).globals._lastIDs.length ≤
        settings.lastIDsMaxLength ∧
      ∃ pushed : List Int,
        (self.getJokes env globals rand ip langCode amount).globals._lastIDs =
            (globals._lastIDs ++ pushed).drop
              ((globals._lastIDs ++ pushed).length - settings.lastIDsMaxLength) ∧
          (∀ id ∈ pushed, ∃ matched joke,
            self._applyFilters env ip
                (some (if self._lang = "" then settings.defaultLanguage else self._lang)) =
              .resolved matched ∧
            joke ∈ matched ∧ joke.id = id) ∧
          ∀ jokes,
            (self.getJokes env globals rand ip langCode amount).settled = .resolved jokes →
            (∀ id ∈ pushed, id ∈ jokes.map fun j => j.id) ∧
              ∀ matched,
                self._applyFilters env ip
                    (some (if self._lang = "" then settings.defaultLanguage
                      else self._lang)) = .resolved matched →
                (amount.getD 1 < (matched.length : Int) →
                  (jokes.map fun j => j.id).Sublist pushed) ∧
                (¬ amount.getD 1 < (matched.length : Int) → pushed = []) := by
  have hnothing : globals._lastIDs =
      (globals._lastIDs ++ []).drop
        ((globals._lastIDs ++ ([] : List Int)).length - settings.lastIDsMaxLength) :=
    foldl_pushLastID [] _ hbound
  unfold FilteredJoke.getJokes
  dsimp only
  cases hfiltered : self._applyFilters env ip
      (some (if self._lang = "" then settings.defaultLanguage else self._lang)) with
  | rejected err =>
    exact ⟨hbound, [], hnothing, fun id hid => (by cases hid),
      fun jokes hsettled => (by cases hsettled)⟩
  | resolved filteredJokes =>
    dsimp only
    by_cases hnone : filteredJokes.length = 0
    · rw [if_pos hnone]
      by_cases herrors : self._errors.length > 0
      · rw [if_pos herrors]
        exact ⟨hbound, [], hnothing, fun id hid => (by cases hid),
          fun jokes hsettled => (by cases hsettled)⟩
      · rw [if_neg herrors]
        exact ⟨hbound, [], hnothing, fun id hid => (by cases hid),
          fun jokes hsettled => (by cases hsettled)⟩
    · rw [if_neg hnone]
      by_cases hless : amount.getD 1 < (filteredJokes.length : Int)
      · rw [if_pos hless]
        obtain ⟨pushed, added, hbuffer, hmulti, hsub, hsel, hjokes, _, hret⟩ :=
          selectLoop_pushes rand (amount.getD 1).toNat
            { jokes := filteredJokes, globals := globals, multiSelectLastIDs := [],
              draws := 0, rejected := false } []
        revert hbuffer hmulti hsel hret
        cases selectLoop rand (amount.getD 1).toNat
          { jokes := filteredJokes, globals := globals, multiSelectLastIDs := [],
            draws := 0, rejected := false } [] with
        | mk err rest =>
          cases rest with
          | mk s retJokes =>
            intro hbuffer hmulti hsel hret
            dsimp only at hbuffer hmulti hsel hret
            rw [List.nil_append] at hmulti
            rw [List.map_nil, List.nil_append] at hret
            rw [foldl_pushLastID pushed _ hbound] at hbuffer
            have hlen : s.globals._lastIDs.length ≤ settings.lastIDsMaxLength := by
              rw [hbuffer, List.length_drop]
              omega
            have hmatched : ∀ id ∈ pushed, ∃ matched joke,
                Settled.resolved filteredJokes = .resolved matched ∧
                  joke ∈ matched ∧ joke.id = id := by
              intro id hid
              obtain ⟨joke, hjoke, hjid⟩ := hjokes id hid
              exact ⟨filteredJokes, joke, rfl, hjoke, hjid⟩
            cases err with
            | some e =>
              refine ⟨hlen, pushed, hbuffer, hmatched, ?_⟩
              intro jokes hsettled
              dsimp only at hsettled
              split_ifs at hsettled
            | none =>
              refine ⟨hlen, pushed, hbuffer, hmatched, ?_⟩
              intro jokes hsettled
              dsimp only at hsettled
              split_ifs at hsettled
              injection hsettled with hsettled
              rw [← hsettled, hret]
              refine ⟨?_, ?_⟩
              · intro id hid
                have h := hsel id hid
                rw [hmulti] at h
                exact h
              · intro matched hsame
                injection hsame with hsame
                rw [← hsame]
                exact ⟨fun _ => hsub, fun hmore => absurd hless hmore⟩
      · rw [if_neg hless]
        refine ⟨hbound, [], hnothing, fun id hid => (by cases hid), ?_⟩
        intro jokes _
        refine ⟨fun id hid => (by cases hid), ?_⟩
        intro matched hsame
        injection hsame with hsame
        rw [← hsame]
        exact ⟨fun hmore => absurd hmore hless, fun _ => rfl⟩

/-- Witness of C33: two jokes requested from the large corpus with a full buffer
that holds the IDs 0 to 14. The first pick draws and returns the joke of ID 15; the
second draws the joke of ID 1, which is in the buffer, then the joke of ID 0, which
it returns. The IDs 15 and 0 are appended in this order, the IDs 0 and 1 have left
the buffer at its front. -/
theorem C33_witness :
    (List.range 15).length ≤ settings.lastIDsMaxLength ∧
      (largeCriteria.getJokes largeEnv
        { _lastIDs := (List.range 15).map fun n => (n : Int), _selectionAttempts := 0 }
        (fun k => if k = 0 then 15 else if k = 1 then 1 else 0) "client" "en"
        (some 2)).globals._lastIDs.length ≤ settings.lastIDsMaxLength ∧
      (largeCriteria.getJokes largeEnv
        { _lastIDs := (List.range 15).map fun n => (n : Int), _selectionAttempts := 0 }
        (fun k => if k = 0 then 15 else if k = 1 then 1 else 0) "client" "en"
        (some 2)).globals._lastIDs =
          [2, 3, 4, 5, 6, 7, 8, 9, 10, 11, 12, 13, 14, 15, 0] ∧
      ((List.range 15).map fun n => (n : Int)) ++ [15, 0] =
        [0, 1, 2, 3, 4, 5, 6, 7, 8, 9, 10, 11, 12, 13, 14, 15, 0] ∧
      (largeCriteria.getJokes largeEnv
        { _lastIDs := (List.range 15).map fun n => (n : Int), _selectionAttempts := 0 }
        (fun k => if k = 0 then 15 else if k = 1 then 1 else 0) "client" "en"
        (some 2)).settled =
          .resolved [{ exampleJokeA with id := 15 }, { exampleJokeA with id := 0 }] :=
  ⟨by decide,
    (C33_lastIDs_bounded_fifo largeEnv largeCriteria
      { _lastIDs := (List.range 15).map fun n => (n : Int), _selectionAttempts := 0 }
      (fun k => if k = 0 then 15 else if k = 1 then 1 else 0) "client" "en" (some 2)
      (by decide)).1,
    by decide, by decide, by decide⟩
/-- C32 (counterexample): sixteen matched jokes, one requested, the IDs 0 and 1 in
the recency buffer and the random index 0 drawn every time. The first draw finds
the joke of ID 0 in the buffer and splices it out; the array then holds fifteen
jokes, the test on the buffer is skipped, and the joke of ID 1 is returned,
although its ID is in the buffer, which is still `[0, 1]` at that moment. -/
theorem C32_counterexample :
    largeCriteria._applyFilters largeEnv "client" (some "en") = .resolved largeCorpus ∧
      largeCorpus.length = 16 ∧
      (largeCriteria.getJokes largeEnv { _lastIDs := [0, 1], _selectionAttempts := 0 }
        (fun _ => 0) "client" "en" (some 1)).settled =
          .resolved [{ exampleJokeA with id := 1 }] ∧
      selectRandomJoke (fun _ => 0)
          { jokes := largeCorpus, globals := { _lastIDs := [0, 1], _selectionAttempts := 0 },
            multiSelectLastIDs := [], draws := 0, rejected := false } =
        (.joke { exampleJokeA with id := 1 },
          (Selection.afterNearMiss
            { jokes := largeCorpus,
              globals := { _lastIDs := [0, 1], _selectionAttempts := 0 },
              multiSelectLastIDs := [], draws := 0, rejected := false } 0).afterPick
            { exampleJokeA with id := 1 }) ∧
      (Selection.afterNearMiss
        { jokes := largeCorpus, globals := { _lastIDs := [0, 1], _selectionAttempts := 0 },
          multiSelectLastIDs := [], draws := 0, rejected := false } 0).globals._lastIDs =
        [0, 1] ∧
      (Selection.afterNearMiss
        { jokes := largeCorpus, globals := { _lastIDs := [0, 1], _selectionAttempts := 0 },
          multiSelectLastIDs := [], draws := 0, rejected := false } 0).jokes.length = 15 := by
  decide

/-- C32 (amended): whenever a call of `selectRandomJoke` returns a joke, the joke
was drawn in a state `moment` of the call in which the working array did not
hold more than `lastIDsMaxLength` jokes or the recency buffer did not hold the ID
of the joke; the call ends in the state after that pick. The working array at
that moment is the array of the call shortened by one joke for every retry, and
when no retry took place the moment is the start of the call. So no returned
joke had its ID in `_lastIDs` when it was picked from a working array of more
than `lastIDsMaxLength` jokes. -/
theorem C32_pick_respects_buffer_on_large_arrays (rand : Nat → Nat) (s : Selection)
    (joke : Joke) (hjoke : (selectRandomJoke rand s).1 = .joke joke) :
    ∃ moment : Selection,
      (selectRandomJoke rand s).2 = moment.afterPick joke ∧
        moment.jokes[moment.idx rand]? = some joke ∧
        (moment.jokes.length > settings.lastIDsMaxLength →
          joke.id ∉ moment.globals._lastIDs) ∧
        moment.jokes.length ≤ s.jokes.length ∧
        (moment.jokes.length = s.jokes.length → moment = s) := by
  revert joke
  apply selectRandomJoke_rule rand (fun s res =>
    ∀ joke, res.1 = .joke joke →
      ∃ moment : Selection,
        res.2 = moment.afterPick joke ∧
          moment.jokes[moment.idx rand]? = some joke ∧
          (moment.jokes.length > settings.lastIDsMaxLength →
            joke.id ∉ moment.globals._lastIDs) ∧
          moment.jokes.length ≤ s.jokes.length ∧
          (moment.jokes.length = s.jokes.length → moment = s))
  · intro s _ joke hres
    cases hres
  · intro s selected _ _ _ _ joke hres
    cases hres
  · intro s selected res hget _ _ _ ih joke hres
    obtain ⟨moment, h1, h2, h3, h4, _⟩ := ih joke hres
    have hidx : s.idx rand < s.jokes.length := (List.getElem?_eq_some.mp hget).1
    have hshort : (s.afterNearMiss (s.idx rand)).jokes.length = s.jokes.length - 1 :=
      List.length_eraseIdx_of_lt hidx
    rw [hshort] at h4
    exact ⟨moment, h1, h2, h3, by omega, fun heq => by omega⟩
  · intro s selected hget hfirst _ joke hres
    injection hres with hres
    subst hres
    exact ⟨s, rfl, hget, fun hlong hmem => hfirst ⟨hlong, hmem⟩, Nat.le_refl _, fun _ => rfl⟩
  · intro s selected res hget _ _ ih joke hres
    obtain ⟨moment, h1, h2, h3, h4, _⟩ := ih joke hres
    have hidx : s.idx rand < s.jokes.length := (List.getElem?_eq_some.mp hget).1
    have hshort : (s.afterRepeat selected (s.idx rand)).jokes.length = s.jokes.length - 1 :=
      List.length_eraseIdx_of_lt hidx
    rw [hshort] at h4
    exact ⟨moment, h1, h2, h3, by omega, fun heq => by omega⟩

/-- Witness of C32 (amended): the first pick from the large corpus with the ID 0 in
the buffer and the random index 1. -/
theorem C32_witness :
    (selectRandomJoke (fun _ => 1)
        { jokes := largeCorpus, globals := { _lastIDs := [0], _selectionAttempts := 0 },
          multiSelectLastIDs := [], draws := 0, rejected := false }).1 =
        .joke { exampleJokeA with id := 1 } ∧
      ∃ moment : Selection,
        (selectRandomJoke (fun _ => 1)
          { jokes := largeCorpus, globals := { _lastIDs := [0], _selectionAttempts := 0 },
            multiSelectLastIDs := [], draws := 0, rejected := false }).2 =
          moment.afterPick { exampleJokeA with id := 1 } ∧
        moment.jokes[moment.idx (fun _ => 1)]? = some { exampleJokeA with id := 1 } ∧
        (moment.jokes.length > settings.lastIDsMaxLength →
          ({ exampleJokeA with id := 1 } : Joke).id ∉ moment.globals._lastIDs) ∧
        moment.jokes.length ≤ largeCorpus.length ∧
        (moment.jokes.length = largeCorpus.length →
          moment =
            { jokes := largeCorpus, globals := { _lastIDs := [0], _selectionAttempts := 0 },
              multiSelectLastIDs := [], draws := 0, rejected := false }) :=
  ⟨by decide,
    C32_pick_respects_buffer_on_large_arrays (fun _ => 1)
      { jokes := largeCorpus, globals := { _lastIDs := [0], _selectionAttempts := 0 },
        multiSelectLastIDs := [], draws := 0, rejected := false }
      { exampleJokeA with id := 1 } (by decide)⟩

/-! ## Counting the jokes of the working array -/

/-- Among jokes with distinct IDs, at most as many have their ID in a list as the
list has entries. -/
theorem filter_id_mem_length_le (jokes : List Joke) (ids : List Int)
    (hnodup : (jokes.map fun j => j.id).Nodup) :
    (jokes.filter fun j => decide (j.id ∈ ids)).length ≤ ids.length := by
  have hsub : ((jokes.filter fun j => decide (j.id ∈ ids)).map fun j => j.id).Nodup :=
    hnodup.sublist ((List.filter_sublist _).map _)
  have hsubset : ((jokes.filter fun j => decide (j.id ∈ ids)).map fun j => j.id) ⊆ ids := by
    intro id hid
    rw [List.mem_map] at hid
    obtain ⟨j, hj, rfl⟩ := hid
    exact of_decide_eq_true (List.mem_filter.mp hj).2
  have hle := (hsub.subperm hsubset).length_le
  rw [List.length_map] at hle
  exact hle

/-- Splicing out a joke that satisfies a test removes one of the jokes that
satisfy it. -/
theorem filter_eraseIdx_of_pos (p : Joke → Bool) :
    ∀ (jokes : List Joke) (idx : Nat) (selected : Joke),
      jokes[idx]? = some selected → p selected = true →
      ((jokes.eraseIdx idx).filter p).length + 1 = (jokes.filter p).length := by
  intro jokes
  induction jokes with
  | nil =>
    intro idx selected hget _
    cases hget
  | cons first others ih =>
    intro idx selected hget hp
    cases idx with
    | zero =>
      have hfirst : first = selected := by
        simpa using hget
      rw [List.eraseIdx_cons_zero, List.filter_cons, hfirst, hp, if_pos rfl,
        List.length_cons]
    | succ idx =>
      have hrest : others[idx]? = some selected := by
        simpa using hget
      rw [List.eraseIdx_cons_succ, List.filter_cons, List.filter_cons]
      by_cases hf : p first = true
      · rw [if_pos hf, if_pos hf, List.length_cons, List.length_cons,
          ih idx selected hrest hp]
      · rw [if_neg hf, if_neg hf, ih idx selected hrest hp]

/-- Splicing out a joke that fails a test keeps the jokes that satisfy it. -/
theorem filter_eraseIdx_of_neg (p : Joke → Bool) :
    ∀ (jokes : List Joke) (idx : Nat) (selected : Joke),
      jokes[idx]? = some selected → p selected = false →
      ((jokes.eraseIdx idx).filter p).length = (jokes.filter p).length := by
  intro jokes
  induction jokes with
  | nil =>
    intro idx selected hget _
    cases hget
  | cons first others ih =>
    intro idx selected hget hp
    cases idx with
    | zero =>
      have hfirst : first = selected := by
        simpa using hget
      rw [List.eraseIdx_cons_zero, List.filter_cons, hfirst, hp]
      rfl
    | succ idx =>
      have hrest : others[idx]? = some selected := by
        simpa using hget
      rw [List.eraseIdx_cons_succ, List.filter_cons, List.filter_cons]
      by_cases hf : p first = true
      · rw [if_pos hf, if_pos hf, List.length_cons, List.length_cons,
          ih idx selected hrest hp]
      · rw [if_neg hf, if_neg hf, ih idx selected hrest hp]

/-- The jokes whose ID is in a list and those whose ID is not make up the array. -/
theorem filter_id_split (jokes : List Joke) (ids : List Int) :
    (jokes.filter fun j => decide (j.id ∉ ids)).length +
        (jokes.filter fun j => decide (j.id ∈ ids)).length = jokes.length := by
  induction jokes with
  | nil => rfl
  | cons first others ih =>
    rw [List.filter_cons, List.filter_cons]
    by_cases hmem : first.id ∈ ids
    · rw [if_neg (by simpa using hmem), if_pos (by simpa using hmem), List.length_cons,
        List.length_cons]
      omega
    · rw [if_pos (by simpa using hmem), if_neg (by simpa using hmem), List.length_cons,
        List.length_cons]
      omega

/-- Among jokes with distinct IDs, selecting one more ID takes at most one joke
out of those not yet selected. -/
theorem filter_id_not_mem_append (ids : List Int) (id : Int) :
    ∀ jokes : List Joke, (jokes.map fun j => j.id).Nodup →
      (jokes.filter fun j => decide (j.id ∉ ids)).length ≤
        (jokes.filter fun j => decide (j.id ∉ ids ++ [id])).length + 1 ∧
      (id ∉ jokes.map (fun j => j.id) →
        (jokes.filter fun j => decide (j.id ∉ ids)).length ≤
          (jokes.filter fun j => decide (j.id ∉ ids ++ [id])).length) := by
  intro jokes
  induction jokes with
  | nil =>
    intro _
    exact ⟨Nat.zero_le _, fun _ => Nat.le_refl _⟩
  | cons first others ih =>
    intro hnodup
    rw [List.map_cons, List.nodup_cons] at hnodup
    obtain ⟨hone, hrest⟩ := ih hnodup.2
    have hsplit : first.id ∉ ids ++ [id] ↔ first.id ∉ ids ∧ first.id ≠ id := by
      rw [List.mem_append, List.mem_singleton, not_or]
    rw [List.filter_cons, List.filter_cons]
    by_cases hold : first.id ∉ ids
    · by_cases hid : first.id = id
      · have hnot : id ∉ others.map (fun j => j.id) := hid ▸ hnodup.1
        have hnew : ¬ first.id ∉ ids ++ [id] := fun hh => (hsplit.mp hh).2 hid
        rw [if_pos (by simpa using hold), if_neg (by simpa using hnew), List.length_cons]
        refine ⟨Nat.succ_le_succ (hrest hnot), fun hout => ?_⟩
        exact absurd (by rw [List.map_cons, hid]; exact List.mem_cons_self _ _) hout
      · have hnew : first.id ∉ ids ++ [id] := hsplit.mpr ⟨hold, hid⟩
        rw [if_pos (by simpa using hold), if_pos (by simpa using hnew), List.length_cons,
          List.length_cons]
        refine ⟨Nat.succ_le_succ hone, fun hout => Nat.succ_le_succ (hrest ?_)⟩
        exact fun hmem => hout (by rw [List.map_cons]; exact List.mem_cons_of_mem _ hmem)
    · have hnew : ¬ first.id ∉ ids ++ [id] := fun hh => hold (hsplit.mp hh).1
      rw [if_neg (by simpa using hold), if_neg (by simpa using hnew)]
      refine ⟨hone, fun hout => hrest ?_⟩
      exact fun hmem => hout (by rw [List.map_cons]; exact List.mem_cons_of_mem _ hmem)

/-- Splicing a joke out keeps the IDs distinct. -/
theorem nodup_eraseIdx (jokes : List Joke) (idx : Nat)
    (hnodup : (jokes.map fun j => j.id).Nodup) :
    ((jokes.eraseIdx idx).map fun j => j.id).Nodup :=
  hnodup.sublist ((List.eraseIdx_sublist jokes idx).map _)

/-! ## The selection under the shipped settings -/

/-- Under the invariant of the selection, a call of `selectRandomJoke` made while
fewer than `amount` jokes are selected returns a joke, leaves the invariant in
place with the retry counter at 0, and has selected one joke more. -/
theorem selectRandomJoke_sound (rand : Nat → Nat) (amount : Nat)
    (hamount : amount + 1 ≤ settings.lastIDsMaxLength) (s : Selection)
    (hsound : s.sound amount) (hmore : s.multiSelectLastIDs.length < amount) :
    ∃ joke, (selectRandomJoke rand s).1 = .joke joke ∧
      (selectRandomJoke rand s).2.sound amount ∧
      (selectRandomJoke rand s).2.globals._selectionAttempts = 0 ∧
      (selectRandomJoke rand s).2.multiSelectLastIDs.length =
        s.multiSelectLastIDs.length + 1 := by
  have hlimit : settings.lastIDsMaxLength + 1 ≤ settings.jokeRandomizationAttempts := by
    decide
  revert hsound hmore
  apply selectRandomJoke_rule rand (fun s res =>
    s.sound amount → s.multiSelectLastIDs.length < amount →
      ∃ joke, res.1 = .joke joke ∧ res.2.sound amount ∧
        res.2.globals._selectionAttempts = 0 ∧
        res.2.multiSelectLastIDs.length = s.multiSelectLastIDs.length + 1)
  · intro s hnil hsound hmore
    obtain ⟨_, _, hleft, _, _⟩ := hsound
    rw [hnil] at hleft
    simp only [List.filter_nil, List.length_nil, Nat.zero_add] at hleft
    omega
  · intro s selected _ _ _ hover hsound _
    obtain ⟨_, _, _, hretries, _⟩ := hsound
    omega
  · intro s selected res hget hlong hmem _ ih hsound hmore
    obtain ⟨hnodup, hbuffer, hleft, hretries, hrejected⟩ := hsound
    have hidx : s.idx rand < s.jokes.length := (List.getElem?_eq_some.mp hget).1
    have hshort : (s.jokes.eraseIdx (s.idx rand)).length = s.jokes.length - 1 :=
      List.length_eraseIdx_of_lt hidx
    have hnodup2 := nodup_eraseIdx s.jokes (s.idx rand) hnodup
    have hsplit := filter_id_split (s.jokes.eraseIdx (s.idx rand)) s.multiSelectLastIDs
    have hfew := filter_id_mem_length_le (s.jokes.eraseIdx (s.idx rand))
      s.multiSelectLastIDs hnodup2
    have hdrop := filter_eraseIdx_of_pos (fun j => decide (j.id ∈ s.globals._lastIDs))
      s.jokes (s.idx rand) selected hget (decide_eq_true hmem)
    apply ih
    · refine ⟨hnodup2, hbuffer, ?_, ?_, hrejected⟩
      · show amount + 1 ≤
          ((s.jokes.eraseIdx (s.idx rand)).filter fun j =>
            decide (j.id ∉ s.multiSelectLastIDs)).length + s.multiSelectLastIDs.length
        omega
      · show s.globals._selectionAttempts + 1 +
          ((s.jokes.eraseIdx (s.idx rand)).filter fun j =>
            decide (j.id ∈ s.globals._lastIDs)).length ≤ settings.lastIDsMaxLength + 1
        omega
    · exact hmore
  · intro s selected hget _ hfresh hsound hmore
    obtain ⟨hnodup, hbuffer, hleft, hretries, hrejected⟩ := hsound
    have hbuffer2 := pushLastID_length s.globals._lastIDs selected.id hbuffer
    have hfew := filter_id_mem_length_le s.jokes
      (pushLastID s.globals._lastIDs selected.id) hnodup
    have hone := (filter_id_not_mem_append s.multiSelectLastIDs selected.id s.jokes hnodup).1
    refine ⟨selected, rfl, ⟨hnodup, hbuffer2, ?_, ?_, hrejected⟩, rfl, ?_⟩
    · show amount + 1 ≤
        (s.jokes.filter fun j =>
          decide (j.id ∉ s.multiSelectLastIDs ++ [selected.id])).length +
            (s.multiSelectLastIDs ++ [selected.id]).length
      rw [List.length_append, List.length_singleton]
      omega
    · show 0 + (s.jokes.filter fun j =>
          decide (j.id ∈ pushLastID s.globals._lastIDs selected.id)).length ≤
        settings.lastIDsMaxLength + 1
      omega
    · show (s.multiSelectLastIDs ++ [selected.id]).length = _
      rw [List.length_append, List.length_singleton]
  · intro s selected res hget _ hagain ih hsound hmore
    obtain ⟨hnodup, hbuffer, hleft, hretries, hrejected⟩ := hsound
    have hnodup2 := nodup_eraseIdx s.jokes (s.idx rand) hnodup
    have hbuffer2 := pushLastID_length s.globals._lastIDs selected.id hbuffer
    have hfew := filter_id_mem_length_le (s.jokes.eraseIdx (s.idx rand))
      (pushLastID s.globals._lastIDs selected.id) hnodup2
    have hkeep := filter_eraseIdx_of_neg (fun j => decide (j.id ∉ s.multiSelectLastIDs))
      s.jokes (s.idx rand) selected hget (decide_eq_false (not_not.mpr hagain))
    apply ih
    · refine ⟨hnodup2, hbuffer2, ?_, ?_, hrejected⟩
      · show amount + 1 ≤
          ((s.jokes.eraseIdx (s.idx rand)).filter fun j =>
            decide (j.id ∉ s.multiSelectLastIDs)).length + s.multiSelectLastIDs.length
        omega
      · show 0 + 1 + ((s.jokes.eraseIdx (s.idx rand)).filter fun j =>
            decide (j.id ∈ pushLastID s.globals._lastIDs selected.id)).length ≤
          settings.lastIDsMaxLength + 1
        omega
    · exact hmore

/-- Under the invariant of the selection, a loop of `count` picks that starts with
`amount - count` jokes selected ends without an error thrown and without a call
of `reject()`, and has collected `count` jokes more. -/
theorem selectLoop_sound (rand : Nat → Nat) (amount : Nat)
    (hamount : amount + 1 ≤ settings.lastIDsMaxLength) (count : Nat) :
    ∀ (s : Selection) (retJokes : List Joke), s.sound amount →
      s.multiSelectLastIDs.length + count = amount →
      ∃ final collected, selectLoop rand count s retJokes = (none, final, collected) ∧
        collected.length = retJokes.length + count ∧ final.rejected = false := by
  induction count with
  | zero =>
    intro s retJokes hsound _
    exact ⟨s, retJokes, rfl, rfl, hsound.2.2.2.2⟩
  | succ count ih =>
    intro s retJokes hsound hcount
    obtain ⟨joke, hjoke, hsound2, hzero, hlen⟩ :=
      selectRandomJoke_sound rand amount hamount s hsound (by omega)
    rw [selectLoop]
    revert hjoke hsound2 hzero hlen
    cases selectRandomJoke rand s with
    | mk pick s1 =>
      intro hjoke hsound2 hzero hlen
      dsimp only at hjoke hsound2 hzero hlen
      subst hjoke
      dsimp only
      obtain ⟨final, collected, hrun, hcollected, hrejected⟩ :=
        ih s1 (retJokes ++ [joke]) hsound2 (by omega)
      refine ⟨final, collected, hrun, ?_, hrejected⟩
      rw [hcollected, List.length_append, List.length_singleton]
      omega


/-- C34: with the shipped settings, for a matched set with pairwise distinct IDs,
an amount from 1 to `maxAmount` that is smaller than the size of the set, a
recency buffer of at most `lastIDsMaxLength` IDs and the retry counter at 0,
whatever the random numbers: the selection loop ends without an error thrown by
a draw from an empty array and without a call of `reject()` (the branch taken
when the retries are exhausted), and `getJokes` resolves with exactly `amount`
jokes. The recursion of `selectRandomJoke` is bounded by the length of the
working array, which every retry shortens by one joke. -/
theorem C34_selection_returns_amount (env : Env) (self : FilteredJoke) (globals : Globals)
    (rand : Nat → Nat) (ip langCode : String) (amount : Int) (matched : List Joke)
    (hmatched : self._applyFilters env ip
      (some (if self._lang = "" then settings.defaultLanguage else self._lang)) =
        .resolved matched)
    (hdistinct : (matched.map fun j => j.id).Nodup)
    (hlow : 1 ≤ amount) (hhigh : amount ≤ (settings.maxAmount : Int))
    (hless : amount < (matched.length : Int))
    (hbuffer : globals._lastIDs.length ≤ settings.lastIDsMaxLength)
    (hcounter : globals._selectionAttempts = 0) :
    ∃ jokes final,
      selectLoop rand amount.toNat
          { jokes := matched, globals := globals, multiSelectLastIDs := [], draws := 0,
            rejected := false } [] = (none, final, jokes) ∧
        final.rejected = false ∧
        (self.getJokes env globals rand ip langCode (some amount)).settled =
          .resolved jokes ∧
        (jokes.length : Int) = amount := by
  have hmax : settings.maxAmount + 1 ≤ settings.lastIDsMaxLength := by decide
  have hcast : (settings.maxAmount : Int) = 10 := rfl
  have hamount : amount.toNat + 1 ≤ settings.lastIDsMaxLength := by omega
  have hfew := filter_id_mem_length_le matched globals._lastIDs hdistinct
  have hall : (matched.filter fun j => decide (j.id ∉ ([] : List Int))) = matched := by
    simp
  have hsound : Selection.sound amount.toNat
      { jokes := matched, globals := globals, multiSelectLastIDs := [], draws := 0,
        rejected := false } := by
    refine ⟨hdistinct, hbuffer, ?_, ?_, rfl⟩
    · show amount.toNat + 1 ≤
        (matched.filter fun j => decide (j.id ∉ ([] : List Int))).length + 0
      rw [hall]
      omega
    · show globals._selectionAttempts +
        (matched.filter fun j => decide (j.id ∈ globals._lastIDs)).length ≤
          settings.lastIDsMaxLength + 1
      omega
  obtain ⟨final, jokes, hrun, hlen, hrejected⟩ :=
    selectLoop_sound rand amount.toNat hamount amount.toNat _ [] hsound
      (by show 0 + amount.toNat = amount.toNat; omega)
  refine ⟨jokes, final, hrun, hrejected, ?_, ?_⟩
  · have hpos : matched.length ≠ 0 := by omega
    unfold FilteredJoke.getJokes
    dsimp only
    rw [hmatched]
    dsimp only
    rw [if_neg hpos, if_pos (by simpa using hless), Option.getD_some, hrun]
    dsimp only
    rw [hrejected]
    rfl
  · rw [hlen, List.length_nil]
    omega

/-- Witness of C34: two jokes requested from the sixteen jokes of the large corpus,
with fifteen of their IDs in the recency buffer. -/
theorem C34_witness :
    largeCriteria._applyFilters largeEnv "client" (some "en") = .resolved largeCorpus ∧
      ∃ jokes final,
        selectLoop (fun k => k) (2 : Int).toNat
            { jokes := largeCorpus,
              globals :=
                { _lastIDs := (List.range 15).map fun n => (n : Int), _selectionAttempts := 0 },
              multiSelectLastIDs := [], draws := 0, rejected := false } [] =
            (none, final, jokes) ∧
          final.rejected = false ∧
          (largeCriteria.getJokes largeEnv
            { _lastIDs := (List.range 15).map fun n => (n : Int), _selectionAttempts := 0 }
            (fun k => k) "client" "en" (some 2)).settled = .resolved jokes ∧
          (jokes.length : Int) = 2 :=
  ⟨by decide,
    C34_selection_returns_amount largeEnv largeCriteria
      { _lastIDs := (List.range 15).map fun n => (n : Int), _selectionAttempts := 0 }
      (fun k => k) "client" "en" 2 largeCorpus (by decide) (by decide) (by decide)
      (by decide) (by decide) (by decide) rfl⟩
/-! ## Array objects and the shared corpus -/

/-- Allocation leaves the existing array objects as they are. -/
theorem Heap.preservedIn_alloc (heap : Heap) (contents : List Joke) :
    heap.preservedIn (heap.alloc contents).2 := by
  refine ⟨?_, ?_⟩
  · show heap.arrays.length ≤ (heap.arrays ++ [contents]).length
    rw [List.length_append]
    exact Nat.le_add_right _ _
  · intro ref href
    show (heap.arrays ++ [contents]).getD ref [] = heap.arrays.getD ref []
    rw [List.getD_eq_getElem?_getD, List.getD_eq_getElem?_getD,
      List.getElem?_append_left href]

/-- The new array object holds the contents it was allocated with. -/
theorem Heap.read_alloc (heap : Heap) (contents : List Joke) :
    (heap.alloc contents).2.read (heap.alloc contents).1 = contents := by
  show (heap.arrays ++ [contents]).getD heap.arrays.length [] = contents
  rw [List.getD_eq_getElem?_getD, List.getElem?_append_right (Nat.le_refl _)]
  simp

/-- A write leaves every other array object as it is. -/
theorem Heap.read_write_of_ne (heap : Heap) (target ref : Nat) (contents : List Joke)
    (hne : ref ≠ target) : (heap.write target contents).read ref = heap.read ref := by
  show (heap.arrays.set target contents).getD ref [] = heap.arrays.getD ref []
  rw [List.getD_eq_getElem?_getD, List.getD_eq_getElem?_getD,
    List.getElem?_set_ne (Ne.symm hne)]

/-- A write to an existing array object replaces its contents. -/
theorem Heap.read_write (heap : Heap) (target : Nat) (contents : List Joke)
    (htarget : target < heap.arrays.length) :
    (heap.write target contents).read target = contents := by
  show (heap.arrays.set target contents).getD target [] = contents
  rw [List.getD_eq_getElem?_getD, List.getElem?_set_self htarget]
  rfl

/-- A write does not change the number of array objects. -/
theorem Heap.length_write (heap : Heap) (target : Nat) (contents : List Joke) :
    (heap.write target contents).arrays.length = heap.arrays.length :=
  List.length_set _ _ _

/-- A write to an array object allocated later leaves the earlier ones as they
are. -/
theorem Heap.preservedIn_write (before heap : Heap) (target : Nat) (contents : List Joke)
    (hkept : before.preservedIn heap) (hlater : before.arrays.length ≤ target) :
    before.preservedIn (heap.write target contents) := by
  refine ⟨?_, ?_⟩
  · rw [Heap.length_write]
    exact hkept.1
  · intro ref href
    rw [Heap.read_write_of_ne heap target ref contents
      (Nat.ne_of_lt (Nat.lt_of_lt_of_le href hlater))]
    exact hkept.2 ref href

/-- Preservation passes on from heap to heap. -/
theorem Heap.preservedIn_trans (first second third : Heap)
    (h12 : first.preservedIn second) (h23 : second.preservedIn third) :
    first.preservedIn third :=
  ⟨Nat.le_trans h12.1 h23.1, fun ref href =>
    (h23.2 ref (Nat.lt_of_lt_of_le href h12.1)).trans (h12.2 ref href)⟩


/-- The callback of the loop reads the host and the language table of the
environment only, not the corpus. -/
theorem forEachStep_onHeap (env : Env) (corpus : String → Nat) (heap : Heap)
    (self : FilteredJoke) (lang : String) :
    self.forEachStep (env.onHeap corpus heap) lang = self.forEachStep env lang := rfl

/-- A new array object has the next free reference. -/
theorem Heap.alloc_ref (heap : Heap) (contents : List Joke) :
    (heap.alloc contents).1 = heap.arrays.length ∧
      (heap.alloc contents).2.arrays.length = heap.arrays.length + 1 := by
  refine ⟨rfl, ?_⟩
  show (heap.arrays ++ [contents]).length = _
  rw [List.length_append, List.length_singleton]

/-- The cache section on the heap leaves the existing array objects as they are,
and the array `jokesArray` refers to afterwards is an existing one with the
contents the section computes. -/
theorem withoutCachedOnHeap_spec (self : FilteredJoke) (cacheIdList : List Int)
    (jokesArray : Nat) (heap : Heap) (hexists : jokesArray < heap.arrays.length) :
    heap.preservedIn (self.withoutCachedOnHeap cacheIdList jokesArray heap).2 ∧
      (self.withoutCachedOnHeap cacheIdList jokesArray heap).1 <
        (self.withoutCachedOnHeap cacheIdList jokesArray heap).2.arrays.length ∧
      (self.withoutCachedOnHeap cacheIdList jokesArray heap).2.read
          (self.withoutCachedOnHeap cacheIdList jokesArray heap).1 =
        self.withoutCached cacheIdList (heap.read jokesArray) := by
  unfold FilteredJoke.withoutCachedOnHeap FilteredJoke.withoutCached
  by_cases hcache : self._idRange.looseEq self._initialIdRange = true
  · rw [if_pos hcache, if_pos hcache]
    refine ⟨Heap.preservedIn_alloc _ _, ?_, Heap.read_alloc _ _⟩
    rw [(Heap.alloc_ref _ _).1, (Heap.alloc_ref _ _).2]
    exact Nat.lt_succ_self _
  · rw [if_neg hcache, if_neg hcache]
    exact ⟨⟨Nat.le_refl _, fun _ _ => rfl⟩, hexists, rfl⟩

/-- The loop on the heap writes to the array `filteredJokes` only, and leaves
there the jokes the loop on values collects. -/
theorem forEachOnHeap_spec (env : Env) (self : FilteredJoke) (lang : String)
    (jokesArray filteredJokes : Nat) (heap : Heap)
    (hexists : filteredJokes < heap.arrays.length) :
    (self.forEachOnHeap env lang jokesArray filteredJokes heap).2.arrays.length =
        heap.arrays.length ∧
      (∀ ref, ref ≠ filteredJokes →
        (self.forEachOnHeap env lang jokesArray filteredJokes heap).2.read ref =
          heap.read ref) ∧
      (self.forEachOnHeap env lang jokesArray filteredJokes heap).2.read filteredJokes =
        (self.forEachOnHeap env lang jokesArray filteredJokes heap).1.filteredJokes ∧
      (self.forEachOnHeap env lang jokesArray filteredJokes heap).1 =
        (heap.read jokesArray).foldl (self.forEachStep env lang)
          { isErrored := false, rejection := none,
            filteredJokes := heap.read filteredJokes } := by
  unfold FilteredJoke.forEachOnHeap
  exact ⟨Heap.length_write _ _ _, fun ref hne => Heap.read_write_of_ne _ _ _ _ hne,
    Heap.read_write _ _ _ hexists, rfl⟩

/-- The filter pass on values once the cache has listed its entries. -/
theorem applyFilters_of_listed (env : Env) (self : FilteredJoke) (ip : String)
    (lang : Option String) (cacheIdList : List Int)
    (hlist : env.listEntries ip (effectiveLang lang) = .ok cacheIdList) :
    self._applyFilters env ip lang =
      match ((self.withoutCached cacheIdList (env.getJokeArray (effectiveLang lang))).foldl
          (self.forEachStep env (effectiveLang lang))
          { isErrored := false, rejection := none, filteredJokes := [] }).rejection with
      | some err => .rejected (.message err)
      | none =>
        .resolved ((self.withoutCached cacheIdList
          (env.getJokeArray (effectiveLang lang))).foldl
            (self.forEachStep env (effectiveLang lang))
            { isErrored := false, rejection := none, filteredJokes := [] }).filteredJokes := by
  unfold FilteredJoke._applyFilters
  dsimp only
  rw [hlist]

/-- The filter pass on the heap: it allocates and writes to new array objects
only, resolves with one of them, and settles as the filter pass on values does
on the contents of the corpus arrays. -/
theorem applyFiltersOnHeap_spec (env : Env) (corpus : String → Nat) (self : FilteredJoke)
    (ip : String) (lang : Option String) (heap : Heap)
    (hcorpus : ∀ l, corpus l < heap.arrays.length) :
    heap.preservedIn (self._applyFiltersOnHeap env corpus ip lang heap).2 ∧
      (∀ ref, (self._applyFiltersOnHeap env corpus ip lang heap).1 = .resolved ref →
        heap.arrays.length ≤ ref ∧
          ref < (self._applyFiltersOnHeap env corpus ip lang heap).2.arrays.length) ∧
      (self._applyFiltersOnHeap env corpus ip lang heap).2.readSettled
          (self._applyFiltersOnHeap env corpus ip lang heap).1 =
        self._applyFilters (env.onHeap corpus heap) ip lang := by
  have hkept1 := Heap.preservedIn_alloc heap []
  have hnew1 := Heap.read_alloc heap []
  obtain ⟨href1, hlen1⟩ := Heap.alloc_ref heap []
  have hcorpus1 : (heap.alloc []).2.read (corpus (effectiveLang lang)) =
      heap.read (corpus (effectiveLang lang)) := hkept1.2 _ (hcorpus _)
  cases hlist : env.listEntries ip (effectiveLang lang) with
  | error err =>
    have hpure : self._applyFilters (env.onHeap corpus heap) ip lang =
        .rejected (.message (.text ("Couldn\x27t list joke cache entries: " ++ err))) := by
      unfold FilteredJoke._applyFilters
      dsimp only
      show (match env.listEntries ip (effectiveLang lang) with
        | .error err => _
        | .ok cacheIdList => _) = _
      rw [hlist]
    unfold FilteredJoke._applyFiltersOnHeap
    dsimp only
    rw [hlist, hpure]
    exact ⟨hkept1, fun ref href => (by cases href), rfl⟩
  | ok cacheIdList =>
    obtain ⟨hkept2, hin2, hread2⟩ := withoutCachedOnHeap_spec self cacheIdList
      (corpus (effectiveLang lang)) (heap.alloc []).2
      (Nat.lt_of_lt_of_le (hcorpus _) hkept1.1)
    have hgrow2 := hkept2.1
    have hfiltered2 : (heap.alloc []).1 <
        (self.withoutCachedOnHeap cacheIdList (corpus (effectiveLang lang))
          (heap.alloc []).2).2.arrays.length := by
      omega
    obtain ⟨hlen3, hother3, hread3, hfinal3⟩ := forEachOnHeap_spec env self (effectiveLang lang)
      (self.withoutCachedOnHeap cacheIdList (corpus (effectiveLang lang))
        (heap.alloc []).2).1 (heap.alloc []).1
      (self.withoutCachedOnHeap cacheIdList (corpus (effectiveLang lang))
        (heap.alloc []).2).2 hfiltered2
    have hempty : (self.withoutCachedOnHeap cacheIdList (corpus (effectiveLang lang))
        (heap.alloc []).2).2.read (heap.alloc []).1 = [] := by
      rw [hkept2.2 _ (by omega), hnew1]
    rw [hread2, hempty, hcorpus1] at hfinal3
    have hkept3 : heap.preservedIn
        (self.forEachOnHeap env (effectiveLang lang)
          (self.withoutCachedOnHeap cacheIdList (corpus (effectiveLang lang))
            (heap.alloc []).2).1 (heap.alloc []).1
          (self.withoutCachedOnHeap cacheIdList (corpus (effectiveLang lang))
            (heap.alloc []).2).2).2 := by
      refine ⟨?_, ?_⟩
      · rw [hlen3]
        exact Nat.le_trans hkept1.1 hkept2.1
      · intro ref href
        rw [hother3 ref (by omega), hkept2.2 ref (by omega), hkept1.2 ref href]
    have hpure := applyFilters_of_listed (env.onHeap corpus heap) self ip lang cacheIdList
      hlist
    change _ = (match ((self.withoutCached cacheIdList
        (heap.read (corpus (effectiveLang lang)))).foldl
          (self.forEachStep env (effectiveLang lang))
          { isErrored := false, rejection := none, filteredJokes := [] }).rejection with
      | some err => Settled.rejected (.message err)
      | none => Settled.resolved ((self.withoutCached cacheIdList
          (heap.read (corpus (effectiveLang lang)))).foldl
            (self.forEachStep env (effectiveLang lang))
            { isErrored := false, rejection := none, filteredJokes := [] }).filteredJokes)
      at hpure
    rw [← hfinal3] at hpure
    unfold FilteredJoke._applyFiltersOnHeap
    dsimp only
    rw [hlist, hpure]
    dsimp only
    cases hrej : (self.forEachOnHeap env (effectiveLang lang)
        (self.withoutCachedOnHeap cacheIdList (corpus (effectiveLang lang))
          (heap.alloc []).2).1 (heap.alloc []).1
        (self.withoutCachedOnHeap cacheIdList (corpus (effectiveLang lang))
          (heap.alloc []).2).2).1.rejection with
    | some err => exact ⟨hkept3, fun ref href => (by cases href), rfl⟩
    | none =>
      refine ⟨hkept3, ?_, ?_⟩
      · intro ref href
        injection href with href
        rw [← href, hlen3]
        omega
      · show Settled.resolved _ = Settled.resolved _
        rw [hread3]
/-- The environment read from a heap that preserves the corpus arrays is the
environment read from the earlier heap. -/
theorem onHeap_preserved (env : Env) (corpus : String → Nat) (before after : Heap)
    (hkept : before.preservedIn after) (hcorpus : ∀ l, corpus l < before.arrays.length) :
    env.onHeap corpus after = env.onHeap corpus before := by
  unfold Env.onHeap
  congr 1
  funext l
  exact hkept.2 _ (hcorpus l)

/-- The method `getJokes` on the heap: it allocates and writes to new array
objects only, and settles, with the same module variables, as `getJokes` on
values does on the contents of the corpus arrays. -/
theorem getJokesOnHeap_spec (env : Env) (corpus : String → Nat) (self : FilteredJoke)
    (globals : Globals) (rand : Nat → Nat) (ip langCode : String) (amount : Option Int)
    (heap : Heap) (hcorpus : ∀ l, corpus l < heap.arrays.length) :
    heap.preservedIn (self.getJokesOnHeap env corpus globals rand ip amount heap).2.2 ∧
      (self.getJokesOnHeap env corpus globals rand ip amount heap).2.2.readSettled
          (self.getJokesOnHeap env corpus globals rand ip amount heap).1 =
        (self.getJokes (env.onHeap corpus heap) globals rand ip langCode amount).settled ∧
      (self.getJokesOnHeap env corpus globals rand ip amount heap).2.1 =
        (self.getJokes (env.onHeap corpus heap) globals rand ip langCode amount).globals := by
  have hkept1 := Heap.preservedIn_alloc heap []
  obtain ⟨href1, hlen1⟩ := Heap.alloc_ref heap []
  have hcorpus1 : ∀ l, corpus l < (heap.alloc []).2.arrays.length :=
    fun l => Nat.lt_of_lt_of_le (hcorpus l) hkept1.1
  obtain ⟨hkept2, hfresh2, hsame2⟩ := applyFiltersOnHeap_spec env corpus self ip
    (some (if self._lang = "" then settings.defaultLanguage else self._lang))
    (heap.alloc []).2 hcorpus1
  rw [onHeap_preserved env corpus heap (heap.alloc []).2 hkept1 hcorpus] at hsame2
  unfold FilteredJoke.getJokesOnHeap FilteredJoke.getJokes
  dsimp only
  rw [← hsame2]
  revert hkept2 hfresh2
  cases self._applyFiltersOnHeap env corpus ip
      (some (if self._lang = "" then settings.defaultLanguage else self._lang))
      (heap.alloc []).2 with
  | mk settled heap2 =>
    intro hkept2 hfresh2
    have hkept12 := Heap.preservedIn_trans heap (heap.alloc []).2 heap2 hkept1 hkept2
    cases settled with
    | rejected err => exact ⟨hkept12, rfl, rfl⟩
    | resolved filteredJokes =>
      obtain ⟨hnew, hin⟩ := hfresh2 filteredJokes rfl
      dsimp only at hnew hin hkept2
      have hgrow := hkept2.1
      dsimp only [Heap.readSettled]
      by_cases hnone : (heap2.read filteredJokes).length = 0
      · rw [if_pos hnone, if_pos hnone]
        split_ifs <;> exact ⟨hkept12, rfl, rfl⟩
      · rw [if_neg hnone, if_neg hnone]
        by_cases hless : amount.getD 1 < ((heap2.read filteredJokes).length : Int)
        · rw [if_pos hless, if_pos hless]
          have hwritten : ∀ (jokes collected : List Joke),
              heap.preservedIn
                  ((heap2.write filteredJokes jokes).write (heap.alloc []).1 collected) ∧
                ((heap2.write filteredJokes jokes).write (heap.alloc []).1 collected).read
                  (heap.alloc []).1 = collected := by
            intro jokes collected
            refine ⟨?_, ?_⟩
            · apply Heap.preservedIn_write
              · apply Heap.preservedIn_write _ _ _ _ hkept12
                omega
              · omega
            · apply Heap.read_write
              rw [Heap.length_write]
              omega
          cases selectLoop rand (amount.getD 1).toNat
            { jokes := heap2.read filteredJokes, globals := globals,
              multiSelectLastIDs := [], draws := 0, rejected := false } [] with
          | mk err rest =>
            cases rest with
            | mk s collected =>
              obtain ⟨hkept3, hread3⟩ := hwritten s.jokes collected
              cases err with
              | some thrown =>
                dsimp only
                refine ⟨hkept3, ?_, rfl⟩
                split_ifs <;> rfl
              | none =>
                dsimp only
                refine ⟨hkept3, ?_, rfl⟩
                split_ifs
                · rfl
                · show Settled.resolved _ = Settled.resolved _
                  rw [hread3]
        · rw [if_neg hless, if_neg hless]
          exact ⟨hkept12, rfl, rfl⟩

/-- C36: on a heap of array objects in which `allJokes.getJokeArray(lang)` returns
the shared corpus array itself, `getJokes` and `getAllJokes` leave every array
object that existed before the call with the jokes it held, in the same order:
`push` and `splice` write to the arrays `this._filteredJokes` and `retJokes`
only, which the call allocates. So the corpus array of every language reads the
same after either call. Both methods settle on the heap as they do on values. -/
theorem C36_corpus_arrays_unchanged (env : Env) (corpus : String → Nat)
    (self : FilteredJoke) (globals : Globals) (rand : Nat → Nat) (ip langCode : String)
    (amount : Option Int) (heap : Heap) (hcorpus : ∀ l, corpus l < heap.arrays.length) :
    (∀ l, (self.getJokesOnHeap env corpus globals rand ip amount heap).2.2.read (corpus l) =
        heap.read (corpus l)) ∧
      (∀ l, (self.getAllJokesOnHeap env corpus heap).2.read (corpus l) =
        heap.read (corpus l)) ∧
      heap.preservedIn (self.getJokesOnHeap env corpus globals rand ip amount heap).2.2 ∧
      heap.preservedIn (self.getAllJokesOnHeap env corpus heap).2 ∧
      (self.getJokesOnHeap env corpus globals rand ip amount heap).2.2.readSettled
          (self.getJokesOnHeap env corpus globals rand ip amount heap).1 =
        (self.getJokes (env.onHeap corpus heap) globals rand ip langCode amount).settled ∧
      (self.getAllJokesOnHeap env corpus heap).2.readSettled
          (self.getAllJokesOnHeap env corpus heap).1 =
        self.getAllJokes (env.onHeap corpus heap) := by
  obtain ⟨hkeptJokes, hsettled, _⟩ :=
    getJokesOnHeap_spec env corpus self globals rand ip langCode amount heap hcorpus
  obtain ⟨hkeptAll, _, hall⟩ := applyFiltersOnHeap_spec env corpus self
    (if self._lang = "" then settings.defaultLanguage else self._lang) none heap hcorpus
  exact ⟨fun l => hkeptJokes.2 _ (hcorpus l), fun l => hkeptAll.2 _ (hcorpus l),
    hkeptJokes, hkeptAll, hsettled, hall⟩

/-- Witness of C36: two jokes requested from the example corpus, which is the only
array object of the heap before the call; the pick that draws a joke twice
splices it out of `this._filteredJokes`, and the corpus array still holds its
three jokes. -/
theorem C36_witness :
    (∀ l : String, exampleCorpusRef l < exampleHeap.arrays.length) ∧
      ((criteriaWithSearch "").getJokesOnHeap (exampleEnv []) exampleCorpusRef noGlobals
        (fun _ => 1) "client" (some 2) exampleHeap).2.2 =
          { arrays := [exampleCorpus, [exampleJokeB, exampleJokeC],
            [exampleJokeA, exampleJokeC]] } ∧
      ∀ l : String,
        ((criteriaWithSearch "").getJokesOnHeap (exampleEnv []) exampleCorpusRef noGlobals
          (fun _ => 1) "client" (some 2) exampleHeap).2.2.read (exampleCorpusRef l) =
            exampleHeap.read (exampleCorpusRef l) :=
  ⟨fun _ => Nat.lt_succ_self 0, by decide,
    (C36_corpus_arrays_unchanged (exampleEnv []) exampleCorpusRef (criteriaWithSearch "")
      noGlobals (fun _ => 1) "client" "en" (some 2) exampleHeap
      (fun _ => Nat.lt_succ_self 0)).1⟩

/-! ## Exhausted retries -/

/-- With distinct IDs in the working array a pick never exhausts the retries: it
does not return `undefined`, it leaves the invariant in place, and the retry
counter is at most 1 when it returns or throws. -/
theorem selectRandomJoke_withinRetries (rand : Nat → Nat) (s : Selection)
    (hwithin : s.withinRetries) :
    (selectRandomJoke rand s).1 ≠ .undefined ∧
      (selectRandomJoke rand s).2.withinRetries ∧
      (selectRandomJoke rand s).2.globals._selectionAttempts ≤ 1 := by
  have hlimit : settings.lastIDsMaxLength + 1 ≤ settings.jokeRandomizationAttempts := by
    decide
  revert hwithin
  apply selectRandomJoke_rule rand (fun s res =>
    s.withinRetries →
      res.1 ≠ .undefined ∧ res.2.withinRetries ∧ res.2.globals._selectionAttempts ≤ 1)
  · intro s hnil hwithin
    exact ⟨fun h => (by cases h), hwithin, hwithin.2.2.2.2 hnil⟩
  · intro s selected _ _ _ hover hwithin
    obtain ⟨_, _, hretries, _, _⟩ := hwithin
    omega
  · intro s selected res hget hlong hmem _ ih hwithin
    obtain ⟨hnodup, hbuffer, hretries, hrejected, _⟩ := hwithin
    have hidx : s.idx rand < s.jokes.length := (List.getElem?_eq_some.mp hget).1
    have hshort : (s.jokes.eraseIdx (s.idx rand)).length = s.jokes.length - 1 :=
      List.length_eraseIdx_of_lt hidx
    have hdrop := filter_eraseIdx_of_pos (fun j => decide (j.id ∈ s.globals._lastIDs))
      s.jokes (s.idx rand) selected hget (decide_eq_true hmem)
    apply ih
    refine ⟨nodup_eraseIdx s.jokes (s.idx rand) hnodup, hbuffer, ?_, hrejected, ?_⟩
    · show s.globals._selectionAttempts + 1 +
        ((s.jokes.eraseIdx (s.idx rand)).filter fun j =>
          decide (j.id ∈ s.globals._lastIDs)).length ≤ settings.jokeRandomizationAttempts
      omega
    · intro hnil
      have hzero : (s.jokes.eraseIdx (s.idx rand)).length = 0 :=
        List.length_eq_zero.mpr hnil
      have hmax : settings.lastIDsMaxLength = 15 := rfl
      omega
  · intro s selected hget _ _ hwithin
    obtain ⟨hnodup, hbuffer, _, hrejected, _⟩ := hwithin
    have hbuffer2 := pushLastID_length s.globals._lastIDs selected.id hbuffer
    have hfew := filter_id_mem_length_le s.jokes
      (pushLastID s.globals._lastIDs selected.id) hnodup
    refine ⟨fun h => (by cases h), ⟨hnodup, hbuffer2, ?_, hrejected, fun _ => Nat.zero_le _⟩,
      Nat.zero_le _⟩
    show 0 + (s.jokes.filter fun j =>
        decide (j.id ∈ pushLastID s.globals._lastIDs selected.id)).length ≤
      settings.jokeRandomizationAttempts
    omega
  · intro s selected res hget _ _ ih hwithin
    obtain ⟨hnodup, hbuffer, _, hrejected, _⟩ := hwithin
    have hnodup2 := nodup_eraseIdx s.jokes (s.idx rand) hnodup
    have hbuffer2 := pushLastID_length s.globals._lastIDs selected.id hbuffer
    have hfew := filter_id_mem_length_le (s.jokes.eraseIdx (s.idx rand))
      (pushLastID s.globals._lastIDs selected.id) hnodup2
    apply ih
    refine ⟨hnodup2, hbuffer2, ?_, hrejected, fun _ => Nat.le_refl _⟩
    show 0 + 1 + ((s.jokes.eraseIdx (s.idx rand)).filter fun j =>
        decide (j.id ∈ pushLastID s.globals._lastIDs selected.id)).length ≤
      settings.jokeRandomizationAttempts
    omega

/-- With distinct IDs in the working array and the retry counter at most 1, the
selection loop never exhausts the retries, whatever the number of picks. -/
theorem selectLoop_withinRetries (rand : Nat → Nat) (count : Nat) :
    ∀ (s : Selection) (retJokes : List Joke), s.withinRetries →
      s.globals._selectionAttempts ≤ 1 →
      (selectLoop rand count s retJokes).2.1.withinRetries ∧
        (selectLoop rand count s retJokes).2.1.globals._selectionAttempts ≤ 1 := by
  induction count with
  | zero =>
    intro s retJokes hwithin hcounter
    exact ⟨hwithin, hcounter⟩
  | succ count ih =>
    intro s retJokes hwithin _
    obtain ⟨hpick, hwithin2, hcounter2⟩ := selectRandomJoke_withinRetries rand s hwithin
    rw [selectLoop]
    revert hpick hwithin2 hcounter2
    cases selectRandomJoke rand s with
    | mk pick s1 =>
      intro hpick hwithin2 hcounter2
      cases pick with
      | thrown err => exact ⟨hwithin2, hcounter2⟩
      | undefined => exact absurd rfl hpick
      | joke rJoke => exact ih s1 (retJokes ++ [rJoke]) hwithin2 hcounter2

/-- C16 (counterexample): forty-two matched jokes that share the ID 0, two
requested, the recency buffer empty and the retry counter at 0, as when the module
is loaded. The first pick returns a joke and pushes the ID 0 to the buffer. The
second pick draws a joke of that ID twenty-seven times: twenty-six draws each
increment the counter and splice the joke out, the next one finds the counter at
26, above the limit of 25, with sixteen jokes left, and calls `reject()`. The
promise of `getJokes` is rejected with `undefined`; it does not resolve with the
one joke picked. -/
theorem C16_counterexample :
    (FilteredJoke.new asciiHost [("en", 42)]).map
        (fun criteria => (criteria.setSearchString (some "")).2) = some repeatedCriteria ∧
      repeatedCriteria._applyFilters repeatedEnv "client" (some "en") =
        .resolved repeatedCorpus ∧
      (selectLoop (fun k => k) 2
        { jokes := repeatedCorpus, globals := noGlobals, multiSelectLastIDs := [],
          draws := 0, rejected := false } []).2.2 = [exampleJokeA] ∧
      (selectLoop (fun k => k) 2
        { jokes := repeatedCorpus, globals := noGlobals, multiSelectLastIDs := [],
          draws := 0, rejected := false } []).2.1.globals =
        { _lastIDs := [0], _selectionAttempts := 26 } ∧
      (selectLoop (fun k => k) 2
        { jokes := repeatedCorpus, globals := noGlobals, multiSelectLastIDs := [],
          draws := 0, rejected := false } []).2.1.jokes.length = 16 ∧
      (repeatedCriteria.getJokes repeatedEnv noGlobals (fun k => k) "client" "en"
        (some 2)).settled = .rejected .undefined := by
  decide

/-- C16 (amended): in a `getJokes` call that selects fewer jokes than matched,
when a pick of the selection loop returns `undefined`, which it does after calling
`reject()` with the retry counter above the limit, the loop goes on with the next
slot, but the promise of `getJokes` is rejected with `undefined`. For a matched
set with pairwise distinct IDs, a recency buffer of at most `lastIDsMaxLength`
IDs and a retry counter of at most 1 this does not happen, whatever the amount and
the random numbers: no pick returns `undefined`, the promise is not rejected with
`undefined`, and after the call the buffer is again within its bound and the
counter again at most 1. -/
theorem C16_exhausted_pick_rejects (env : Env) (self : FilteredJoke) (globals : Globals)
    (rand : Nat → Nat) (ip langCode : String) (amount : Option Int) (matched : List Joke)
    (hmatched : self._applyFilters env ip
      (some (if self._lang = "" then settings.defaultLanguage else self._lang)) =
        .resolved matched)
    (hamount : amount.getD 1 < (matched.length : Int)) :
    (∀ (k : Nat) (sk : Selection) (retK : List Joke), k < (amount.getD 1).toNat →
      selectLoop rand k
        { jokes := matched, globals := globals, multiSelectLastIDs := [], draws := 0,
          rejected := false } [] = (none, sk, retK) →
      (selectRandomJoke rand sk).1 = .undefined →
      (selectRandomJoke rand sk).2.globals._selectionAttempts >
          settings.jokeRandomizationAttempts ∧
        (self.getJokes env globals rand ip langCode amount).settled =
          .rejected .undefined) ∧
      ((matched.map fun j => j.id).Nodup →
        globals._lastIDs.length ≤ settings.lastIDsMaxLength →
        globals._selectionAttempts ≤ 1 →
        (∀ (k : Nat) (sk : Selection) (retK : List Joke),
          selectLoop rand k
            { jokes := matched, globals := globals, multiSelectLastIDs := [], draws := 0,
              rejected := false } [] = (none, sk, retK) →
          (selectRandomJoke rand sk).1 ≠ .undefined) ∧
        (self.getJokes env globals rand ip langCode amount).settled ≠
          .rejected .undefined ∧
        (self.getJokes env globals rand ip langCode amount).globals._lastIDs.length ≤
          settings.lastIDsMaxLength ∧
        (self.getJokes env globals rand ip langCode amount).globals._selectionAttempts ≤
          1) := by
  have hrun : matched.length ≠ 0 → self.getJokes env globals rand ip langCode amount =
      match selectLoop rand (amount.getD 1).toNat
          { jokes := matched, globals := globals, multiSelectLastIDs := [],
            draws := 0, rejected := false } [] with
      | (some err, s, _) =>
        { settled := if s.rejected then .rejected .undefined else .rejected (.error err),
          globals := s.globals,
          addEntry := matched.map fun joke => (ip, joke.id, langCode),
          cacheWrites := matched.map fun joke => env.addEntry ip joke.id langCode }
      | (none, s, retJokes) =>
        { settled := if s.rejected then .rejected .undefined else .resolved retJokes,
          globals := s.globals,
          addEntry := matched.map fun joke => (ip, joke.id, langCode),
          cacheWrites := matched.map fun joke => env.addEntry ip joke.id langCode } := by
    intro hpos
    unfold FilteredJoke.getJokes
    dsimp only
    rw [hmatched]
    dsimp only
    rw [if_neg hpos, if_pos hamount]
  refine ⟨?_, ?_⟩
  · intro k sk retK hk hloop hpick
    have hpos : matched.length ≠ 0 := by
      intro h0
      rw [h0] at hamount
      have hneg : (amount.getD 1).toNat = 0 := Int.toNat_eq_zero.mpr (le_of_lt hamount)
      omega
    obtain ⟨hrej, hcount⟩ := (selectRandomJokeAux_rejected rand sk.jokes.length sk).2 hpick
    refine ⟨hcount, ?_⟩
    obtain ⟨m, hm⟩ : ∃ m, (amount.getD 1).toNat = k + (m + 1) :=
      ⟨(amount.getD 1).toNat - k - 1, by omega⟩
    have hfinal : (selectLoop rand ((amount.getD 1).toNat)
        { jokes := matched, globals := globals, multiSelectLastIDs := [], draws := 0,
          rejected := false } []).2.1.rejected = true := by
      rw [hm, selectLoop_add, hloop]
      dsimp only
      rw [selectLoop_succ]
      cases hp : selectRandomJoke rand sk with
      | mk pick s1 =>
        rw [hp] at hpick
        have hrej1 : s1.rejected = true := by
          have h := hrej
          unfold selectRandomJoke at hp
          rw [hp] at h
          exact h
        dsimp only at hpick
        rw [hpick]
        exact selectLoop_rejected rand m s1 retK hrej1
    rw [hrun hpos]
    revert hfinal
    cases selectLoop rand ((amount.getD 1).toNat)
      { jokes := matched, globals := globals, multiSelectLastIDs := [], draws := 0,
        rejected := false } [] with
    | mk err rest =>
      cases rest with
      | mk s retJokes =>
        intro hfinal
        dsimp only at hfinal
        cases err with
        | some e =>
          dsimp only
          rw [if_pos hfinal]
        | none =>
          dsimp only
          rw [if_pos hfinal]
  · intro hdistinct hbuffer hcounter
    have hlimit : settings.lastIDsMaxLength + 1 ≤ settings.jokeRandomizationAttempts := by
      decide
    have hfew := filter_id_mem_length_le matched globals._lastIDs hdistinct
    have hstart : Selection.withinRetries
        { jokes := matched, globals := globals, multiSelectLastIDs := [], draws := 0,
          rejected := false } := by
      refine ⟨hdistinct, hbuffer, ?_, rfl, fun _ => hcounter⟩
      show globals._selectionAttempts +
        (matched.filter fun j => decide (j.id ∈ globals._lastIDs)).length ≤
          settings.jokeRandomizationAttempts
      omega
    refine ⟨?_, ?_⟩
    · intro k sk retK hloop
      have hk := (selectLoop_withinRetries rand k _ [] hstart hcounter).1
      rw [hloop] at hk
      exact (selectRandomJoke_withinRetries rand sk hk).1
    · by_cases hpos : matched.length = 0
      · unfold FilteredJoke.getJokes
        dsimp only
        rw [hmatched]
        dsimp only
        rw [if_pos hpos]
        by_cases herrors : self._errors.length > 0
        · rw [if_pos herrors]
          exact ⟨fun h => (by cases h), hbuffer, hcounter⟩
        · rw [if_neg herrors]
          exact ⟨fun h => (by cases h), hbuffer, hcounter⟩
      have hend := selectLoop_withinRetries rand (amount.getD 1).toNat _ [] hstart hcounter
      rw [hrun hpos]
      revert hend
      cases selectLoop rand ((amount.getD 1).toNat)
        { jokes := matched, globals := globals, multiSelectLastIDs := [], draws := 0,
          rejected := false } [] with
      | mk err rest =>
        cases rest with
        | mk s retJokes =>
          intro hend
          obtain ⟨⟨_, hbuffer2, _, hrejected, _⟩, hcounter2⟩ := hend
          dsimp only at hbuffer2 hrejected hcounter2
          cases err with
          | some e =>
            dsimp only
            rw [hrejected]
            exact ⟨fun h => (by cases h), hbuffer2, hcounter2⟩
          | none =>
            dsimp only
            rw [hrejected]
            exact ⟨fun h => (by cases h), hbuffer2, hcounter2⟩

/-- Witness of C16 (amended): the second pick of the counterexample, made after
one pick of the loop over the jokes that share an ID, returns `undefined`, and the
promise is rejected; and over the sixteen jokes of the large corpus, whose IDs
are distinct, with fifteen of them in the recency buffer, the promise is not
rejected with `undefined`. -/
theorem C16_witness :
    repeatedCriteria._applyFilters repeatedEnv "client" (some "en") =
        .resolved repeatedCorpus ∧
      (selectRandomJoke (fun k => k)
        { jokes := repeatedCorpus,
          globals := { _lastIDs := [0], _selectionAttempts := 0 },
          multiSelectLastIDs := [0], draws := 1, rejected := false }).1 = .undefined ∧
      (repeatedCriteria.getJokes repeatedEnv noGlobals (fun k => k) "client" "en"
        (some 2)).settled = .rejected .undefined ∧
      (largeCorpus.map fun j => j.id).Nodup ∧
      (largeCriteria.getJokes largeEnv
        { _lastIDs := (List.range 15).map fun n => (n : Int), _selectionAttempts := 0 }
        (fun k => k) "client" "en" (some 2)).settled ≠ .rejected .undefined :=
  ⟨by decide, by decide,
    ((C16_exhausted_pick_rejects repeatedEnv repeatedCriteria noGlobals (fun k => k)
      "client" "en" (some 2) repeatedCorpus (by decide) (by decide)).1 1
      { jokes := repeatedCorpus,
        globals := { _lastIDs := [0], _selectionAttempts := 0 },
        multiSelectLastIDs := [0], draws := 1, rejected := false }
      [exampleJokeA] (by decide) (by decide) (by decide)).2,
    by decide,
    ((C16_exhausted_pick_rejects largeEnv largeCriteria
      { _lastIDs := (List.range 15).map fun n => (n : Int), _selectionAttempts := 0 }
      (fun k => k) "client" "en" (some 2) largeCorpus (by decide) (by decide)).2
      (by decide) (by decide) (by decide)).2.1⟩
end JokeAPI
